import Mathlib

/-!
# FoxRoom: join-code codec, chat relay server, UDP voice relay and chat window

A shallow embedding of `src/src/fox/winsock_transport.cpp` and of the parts of
`voice_chat.cpp`, `chat_room.cpp`, `text_chat.cpp` and `settings_store.cpp` that
the theorems are about.

Conventions of the embedding:

* a `std::string` is the list of its bytes; a byte is written as the `Char`
  with that code (0..255), a `std::vector<std::uint8_t>` is a `List Nat`;
* the 32-bit `int` accumulators of the base64 routines are kept as their bit
  pattern, a `Nat` reduced `% 2 ^ 32` after every update;
* code that can abort the program (a modulo by zero, `std::terminate`) returns
  `Except fault`; a `std::optional` result is an `Option`, a caught exception
  or a constructor that throws is `none`;
* a library routine that takes a `const char*` reads a string up to its first
  zero byte (`c_str`);
* a socket is a `Nat`; what the network delivers to a thread is an explicit
  list of `recv` results, what a thread sends is an explicit list of sends.
-/

namespace fox

/-- Faults that abort the program instead of returning a value: an integer division
or modulo by zero, and a call of `std::terminate`. -/
inductive fault where
  | division_by_zero
  | terminate
  deriving DecidableEq, Repr

deriving instance DecidableEq for Except

/-! ## base64 -/

namespace base64

/-- The alphabet `chars`. -/
def chars : List Char :=
  "ABCDEFGHIJKLMNOPQRSTUVWXYZabcdefghijklmnopqrstuvwxyz0123456789+/".toList

/-- The symbol `chars[i]`. -/
def sym (i : Nat) : Char := chars.getD i 'A'

/-- The inner loop `while (valb >= 0) { push chars[(val >> valb) & 0x3F]; valb -= 6; }`
of `encode`: returns the symbols pushed and the final `valb`.  The first
argument bounds the number of iterations; `encode_loop` passes
`valb / 6 + 1`, which the loop never exceeds. -/
def encode_emit : Nat → Nat → Int → List Char × Int
  | 0, _, valb => ([], valb)
  | fuel + 1, val, valb =>
    if valb ≥ 0 then
      let r := encode_emit fuel val (valb - 6)
      (sym ((val >>> valb.toNat) &&& 0x3F) :: r.1, r.2)
    else ([], valb)

/-- The `for` loop of `encode` over the input bytes followed by the trailing
`if (valb > -6)`: the symbols pushed to `result`, starting from the
accumulator state `(val, valb)`. -/
def encode_loop (val : Nat) (valb : Int) : List Nat → List Char
  | [] =>
    if valb > -6 then
      [sym ((((val <<< 8) % 2 ^ 32) >>> (valb + 8).toNat) &&& 0x3F)]
    else []
  | c :: cs =>
    let val1 := ((val <<< 8) + c) % 2 ^ 32
    let r := encode_emit ((valb + 8).toNat / 6 + 1) val1 (valb + 8)
    r.1 ++ encode_loop val1 r.2 cs

/-- The padding loop `while (result.size() % 4 != 0) result.push_back('=')`; it runs
at most three times. -/
def encode_pad : Nat → List Char → List Char
  | 0, result => result
  | fuel + 1, result =>
    if result.length % 4 ≠ 0 then encode_pad fuel (result ++ ['=']) else result

/-- The function `base64::encode`. -/
def encode (data : List Nat) : List Char :=
  encode_pad 3 (encode_loop 0 (-6) data)

/-- The lookup `table` of `decode`: the index of a symbol in `chars`, `-1` for
every other byte. -/
def table (c : Char) : Int :=
  if chars.indexOf c < 64 then (chars.indexOf c : Int) else -1

/-- The `for` loop of `decode`, starting from the accumulator state
`(val, valb)`; it stops at the first byte outside the alphabet. -/
def decode_loop (val : Nat) (valb : Int) : List Char → List Nat
  | [] => []
  | c :: cs =>
    if table c = -1 then []
    else
      let val1 := ((val <<< 6) + (table c).toNat) % 2 ^ 32
      let valb1 := valb + 6
      if valb1 ≥ 0 then
        ((val1 >>> valb1.toNat) &&& 0xFF) :: decode_loop val1 (valb1 - 8) cs
      else decode_loop val1 valb1 cs

/-- The function `base64::decode`. -/
def decode (encoded : List Char) : List Nat :=
  decode_loop 0 (-8) encoded

end base64

/-! ## Library routines used by the codec -/

/-- One decimal digit as a character. -/
def digit_char (d : Nat) : Char := Char.ofNat (48 + d)

/-- Decimal digits of `n`, most significant first; the first argument bounds
the number of digits. -/
def to_string_digits : Nat → Nat → List Char
  | 0, _ => []
  | fuel + 1, n =>
    if n < 10 then [digit_char n]
    else to_string_digits fuel (n / 10) ++ [digit_char (n % 10)]

/-- The library routine `std::to_string` on a non-negative integer: its decimal
representation without leading zeros. -/
def to_string (n : Nat) : List Char := to_string_digits (n + 1) n

/-- The predicate `isspace` of the C locale. -/
def is_space (c : Char) : Bool :=
  c = ' ' || c = '\t' || c = '\n' || c = Char.ofNat 11 || c = Char.ofNat 12 || c = '\r'

/-- The predicate `isdigit`. -/
def is_digit (c : Char) : Bool := decide (48 ≤ c.toNat ∧ c.toNat ≤ 57)

/-- Value of a run of decimal digits, accumulated left to right. -/
def digits_value (ds : List Char) : Nat :=
  ds.foldl (fun acc c => acc * 10 + (c.toNat - 48)) 0

/-- The library routine `std::stoi` (base 10): skips leading white space,
accepts one optional sign, converts the longest run of digits that follows and
ignores whatever comes after it.  `none` stands for a thrown exception:
`invalid_argument` when there is no digit, `out_of_range` when the value does
not fit a 32-bit `int`. -/
def stoi (s : List Char) : Option Int :=
  let s1 := s.dropWhile is_space
  let neg := s1.head? = some '-'
  let s2 := if s1.head? = some '-' ∨ s1.head? = some '+' then s1.tail else s1
  let ds := s2.takeWhile is_digit
  if ds = [] then none
  else
    let v : Int := if neg then -(digits_value ds : Int) else (digits_value ds : Int)
    if v < -2147483648 ∨ v > 2147483647 then none else some v

/-- One decimal field of a dotted quad: one to three digits, value at most 255, no
leading zero before another digit. -/
def ipv4_field (f : List Char) : Bool :=
  decide (1 ≤ f.length ∧ f.length ≤ 3) && f.all is_digit && decide (digits_value f ≤ 255) &&
    decide (f.length = 1 ∨ f.head? ≠ some '0')

/-- The C string `s.c_str()` as a library routine reads it: the characters before the
first zero byte. -/
def c_str (s : List Char) : List Char :=
  s.takeWhile (fun ch => decide (ch ≠ Char.ofNat 0))

/-- Splits a string at every occurrence of `sep`. -/
def split_at (sep : Char) : List Char → List (List Char)
  | [] => [[]]
  | c :: cs =>
    if c = sep then [] :: split_at sep cs
    else
      match split_at sep cs with
      | [] => [[c]]
      | f :: fs => (c :: f) :: fs

/-- The Winsock routine `inet_pton(AF_INET, ...)` on the text of a C string; it is not
part of the repository: `true` when it returns 1.  It accepts the strict
dotted-decimal form, four decimal fields in 0..255 separated by dots, none with
a leading zero. -/
def inet_pton (ip : List Char) : Bool :=
  let fs := split_at '.' ip
  decide (fs.length = 4) && fs.all ipv4_field

/-! ## Join-code codec -/

/-- An endpoint `(ip, port)` of the decoded list. -/
abbrev endpoint := List Char × Nat

/-- The key byte `password[i % password.size()]`, for a non-empty password. -/
def key_byte (password : List Char) (i : Nat) : Nat :=
  (password.getD (i % password.length) 'A').toNat

/-- The loop shared by `make_join_key` and `parse_join_key`:
`out[i] = in[i] ^ password[i % password.size()]`, kept to 8 bits, for the bytes
from index `i` on.  With an empty password the first iteration computes
`i % 0`. -/
def xor_password (password : List Char) : Nat → List Nat → Except fault (List Nat)
  | _, [] => .ok []
  | i, b :: bs =>
    if password.length = 0 then .error fault.division_by_zero
    else
      match xor_password password (i + 1) bs with
      | .error e => .error e
      | .ok rest =>
        .ok (((b ^^^ key_byte password i) % 256) :: rest)

/-- The payload string built by `make_join_key`. -/
def join_payload (public_ip lan_ip : List Char) (port : Nat) : List Char :=
  "v2|".toList ++ public_ip ++ "|".toList ++ lan_ip ++ "|".toList ++ to_string port

/-- The function `make_join_key`; `port` is a `std::uint16_t`. -/
def make_join_key (public_ip lan_ip : List Char) (port : Nat) (password : List Char) :
    Except fault (List Char) :=
  match xor_password password 0 ((join_payload public_ip lan_ip port).map Char.toNat) with
  | .error e => .error e
  | .ok xored => .ok (base64.encode xored)

/-- The first lines of `parse_join_key`: base64-decode the key and undo the XOR,
giving the payload string. -/
def decipher (key password : List Char) : Except fault (List Char) :=
  match xor_password password 0 (base64.decode key) with
  | .error e => .error e
  | .ok bytes => .ok (bytes.map Char.ofNat)

/-- The lambda `add_endpoint` of `parse_join_key`; `port` is the parsed `int`,
cast to `std::uint16_t` where it is stored or compared.  The address is checked
through `ip.c_str()`, and stored and compared as the whole string. -/
def add_endpoint (endpoints : List endpoint) (port : Int) (ip : List Char) : List endpoint :=
  if ip = [] then endpoints
  else if inet_pton (c_str ip) = false then endpoints
  else if endpoints.any (fun e => decide (e.1 = ip ∧ e.2 = (port % 65536).toNat)) then endpoints
  else endpoints ++ [(ip, (port % 65536).toNat)]

/-- Position of the last occurrence of `c`, the result of `rfind(c)`. -/
def rfind (c : Char) (s : List Char) : Option Nat :=
  if c ∈ s then some (s.length - 1 - s.reverse.indexOf c) else none

/-- The two branches of `parse_join_key` that fill `endpoints` from the deciphered
payload, the `v2|public|lan|port` form and the legacy `ip:port` form; `none` is an
early `return std::nullopt` or a caught exception of `std::stoi`. -/
def parse_endpoints (payload : List Char) : Option (List endpoint) :=
  if "v2|".toList.isPrefixOf payload then
    let parts := split_at '|' payload
    if parts.length ≠ 4 then none
    else
      match stoi (parts.getD 3 []) with
      | none => none
      | some port =>
        if port ≤ 0 ∨ port > 65535 then none
        else some (add_endpoint (add_endpoint [] port (parts.getD 1 [])) port (parts.getD 2 []))
  else
    match rfind ':' payload with
    | none => none
    | some colon =>
      match stoi (payload.drop (colon + 1)) with
      | none => none
      | some port =>
        if port ≤ 0 ∨ port > 65535 then none
        else some [(payload.take colon, (port % 65536).toNat)]

/-- The body of `parse_join_key` after the payload has been deciphered: the two
branches, then the final test `endpoints.empty()`. -/
def parse_payload (payload : List Char) : Option (List endpoint) :=
  match parse_endpoints payload with
  | none => none
  | some endpoints => if endpoints = [] then none else some endpoints

/-- The function `parse_join_key`: `.ok none` is `std::nullopt`. -/
def parse_join_key (key password : List Char) : Except fault (Option (List endpoint)) :=
  match decipher key password with
  | .error e => .error e
  | .ok payload => .ok (parse_payload payload)

/-! ## Chat relay server -/

/-- A socket handle. -/
abbrev SOCKET := Nat

/-- The constant `INVALID_SOCKET`, all bits set; `accept` never returns it for a
connection, so no session has it as its socket. -/
def INVALID_SOCKET : SOCKET := 2 ^ 64 - 1

/-- A `sockaddr_in`: IPv4 address and port. -/
structure sockaddr_in where
  sin_addr : Nat
  sin_port : Nat
  deriving DecidableEq, Repr

/-- The class `line_receiver`, with its member `buffer_`. -/
structure line_receiver where
  buffer_ : List Char
  deriving DecidableEq, Repr

/-- The method `line_receiver::feed`. -/
def line_receiver.feed (r : line_receiver) (data : List Char) : line_receiver :=
  { buffer_ := r.buffer_ ++ data }

/-- The method `line_receiver::get_line`: `none` when the buffer holds no newline,
else the first line, without one trailing carriage return, and the receiver left. -/
def line_receiver.get_line (r : line_receiver) : Option (List Char × line_receiver) :=
  if '\n' ∈ r.buffer_ then
    let pos := r.buffer_.indexOf '\n'
    let line := r.buffer_.take pos
    let line1 := if line ≠ [] ∧ line.getLast? = some '\r' then line.dropLast else line
    some (line1, { buffer_ := r.buffer_.drop (pos + 1) })
  else none

/-- The struct `server_client`. -/
structure server_client where
  socket : SOCKET
  name : List Char
  running : Bool
  receiver : line_receiver
  udp_addr : sockaddr_in
  udp_registered : Bool
  deriving DecidableEq, Repr

/-- The session table `clients_`, keyed by socket; the order of the list stands for
the iteration order of the map. -/
abbrev client_table := List (SOCKET × server_client)

/-- What a server thread does to the network: a `send_all` call or a `closesocket`. -/
inductive net_action where
  | send (sock : SOCKET) (data : List Char)
  | close (sock : SOCKET)
  deriving DecidableEq, Repr

/-- What one `recv` call on a TCP socket returns: bytes (an empty `data` is the
return value 0), a receive timeout, or a closed or failed connection. -/
inductive recv_result where
  | data (bytes : List Char)
  | timeout
  | closed
  deriving DecidableEq, Repr

/-- The method `server::broadcast`: the `send_all` calls it makes, one for every
session of the table other than `exclude` that has a name.  (The result of
`send_all` is ignored by the source.) -/
def broadcast (clients : client_table) (msg : List Char) (exclude : SOCKET) : List net_action :=
  (clients.filter (fun e => decide (e.1 ≠ exclude) && decide (e.2.name ≠ []))).map
    (fun e => net_action.send e.1 msg)

/-- The state a session thread works on: the shared table, the object `client`
points to (the table entry of its socket is the same object), the local
`handshake_done`, and the network actions performed so far. -/
structure session_state where
  clients_ : client_table
  client : server_client
  handshake_done : Bool
  trace : List net_action
  deriving DecidableEq, Repr

/-- A write through the pointer `client`: the object changes, and with it the table
entry of its socket. -/
def session_state.set_client (st : session_state) (c : server_client) : session_state :=
  { st with
    client := c
    clients_ := st.clients_.map (fun e => if e.1 = c.socket then (e.1, c) else e) }

/-- Appends network actions to the trace. -/
def session_state.emit (st : session_state) (acts : List net_action) : session_state :=
  { st with trace := st.trace ++ acts }

/-- The handshake test of `client_recv_loop` on the first line: the session name
when the line is accepted. -/
def handshake_name (password line : List Char) : Option (List Char) :=
  if "PASS ".toList.isPrefixOf line then
    let rest := line.drop 5
    if ' ' ∈ rest then
      let split := rest.indexOf ' '
      let supplied := rest.take split
      let name := rest.drop (split + 1)
      if supplied = password ∧ name ≠ [] then some name else none
    else none
  else none

/-- The body of the loop `while (auto line = client->receiver.get_line())` for one
line; the flag is `false` after the `break` of a rejected handshake. -/
def process_line (password : List Char) (st : session_state) (line : List Char) :
    session_state × Bool :=
  if st.handshake_done = false then
    match handshake_name password line with
    | some name =>
      let st1 := st.set_client { st.client with name := name }
      let st2 := { st1 with handshake_done := true }
      let st3 := st2.emit [net_action.send st.client.socket "OK\n".toList]
      (st3.emit (broadcast st3.clients_ ("* ".toList ++ name ++ " joined *\n".toList)
        st.client.socket), true)
    | none =>
      let st1 := st.emit [net_action.send st.client.socket "ERR Invalid password or name\n".toList]
      (st1.set_client { st1.client with running := false }, false)
  else
    (st.emit (broadcast st.clients_
      ("[".toList ++ st.client.name ++ "] ".toList ++ line ++ "\n".toList) INVALID_SOCKET), true)

/-- The loop `while (auto line = client->receiver.get_line())`; the first argument
bounds the number of lines, `client_recv_step` passes the buffer length plus one.
The flag is `false` after a `break`. -/
def process_lines (password : List Char) : Nat → session_state → session_state × Bool
  | 0, st => (st, true)
  | fuel + 1, st =>
    match st.client.receiver.get_line with
    | none => (st, true)
    | some (line, r) =>
      let st1 := st.set_client { st.client with receiver := r }
      let res := process_line password st1 line
      if res.2 then process_lines password fuel res.1 else res

/-- One pass through the body of the outer loop of `client_recv_loop` after `recv`
has returned `bytes`. -/
def client_recv_step (password : List Char) (st : session_state) (bytes : List Char) :
    session_state :=
  let st1 := st.set_client { st.client with receiver := st.client.receiver.feed bytes }
  (process_lines password (st1.client.receiver.buffer_.length + 1) st1).1

/-- The outer loop of `client_recv_loop` over the results of its `recv` calls.  The
flag tells whether the loop has ended; it is `false` when the thread is still
waiting in `recv` after the last listed result.  The server-wide flag `running_`
is taken as set (the server is not being stopped). -/
def client_recv_iterate (password : List Char) :
    List recv_result → session_state → session_state × Bool
  | [], st => (st, !st.client.running)
  | r :: rs, st =>
    if st.client.running = false then (st, true)
    else
      match r with
      | recv_result.timeout => client_recv_iterate password rs st
      | recv_result.closed => (st, true)
      | recv_result.data bytes =>
        if bytes = [] then (st, true)
        else client_recv_iterate password rs (client_recv_step password st bytes)

/-- The method `server::client_recv_loop` for the session `client`, run on the
results of its `recv` calls: the loop, and once it has ended the "left"
broadcast, `closesocket` and the removal from the table. -/
def client_recv_loop (password : List Char) (clients : client_table) (client : server_client)
    (events : List recv_result) : session_state × Bool :=
  let res := client_recv_iterate password events
    { clients_ := clients, client := client, handshake_done := false, trace := [] }
  if res.2 then
    let st := res.1
    let st1 :=
      if st.handshake_done then
        st.emit (broadcast st.clients_ ("* ".toList ++ st.client.name ++ " left *\n".toList)
          st.client.socket)
      else st
    let st2 := st1.emit [net_action.close st.client.socket]
    ({ st2 with clients_ := st2.clients_.filter (fun e => decide (e.1 ≠ st.client.socket)) }, true)
  else res

/-- Outcome of `recv_exact`: the bytes read and the `recv` results left for later
calls, a failure, or still waiting when the listed results end. -/
inductive exact_result where
  | ok (bytes : List Char) (rest : List recv_result)
  | failed
  | pending
  deriving DecidableEq, Repr

/-- The function `recv_exact` reading `len` bytes.  A `recv` call takes at most the
number of bytes asked for; what has arrived beyond stays for the next call. -/
def recv_exact : Nat → List recv_result → exact_result
  | 0, rs => exact_result.ok [] rs
  | _ + 1, [] => exact_result.pending
  | n + 1, recv_result.timeout :: rs => recv_exact (n + 1) rs
  | _ + 1, recv_result.closed :: _ => exact_result.failed
  | n + 1, recv_result.data bytes :: rs =>
    if bytes = [] then exact_result.failed
    else if n + 1 < bytes.length then
      exact_result.ok (bytes.take (n + 1)) (recv_result.data (bytes.drop (n + 1)) :: rs)
    else
      match recv_exact (n + 1 - bytes.length) rs with
      | exact_result.ok more rest => exact_result.ok (bytes ++ more) rest
      | exact_result.failed => exact_result.failed
      | exact_result.pending => exact_result.pending

/-- How the accept loop leaves a new connection. -/
inductive accept_status where
  | accepted (rest : List recv_result)
  | rejected
  | pending
  deriving DecidableEq, Repr

/-- Result of the accept loop for one connection: the table, the network actions on
the connection and its status. -/
structure accept_outcome where
  clients_ : client_table
  trace : List net_action
  status : accept_status
  deriving DecidableEq, Repr

/-- A fresh `server_client` for `client_sock`, as `accept_loop` creates it. -/
def new_client (client_sock : SOCKET) : server_client :=
  { socket := client_sock, name := [], running := true, receiver := { buffer_ := [] },
    udp_addr := { sin_addr := 0, sin_port := 0 }, udp_registered := false }

/-- The part of `server::accept_loop` that handles one accepted connection
`client_sock`: read the join key, compare it, and enter the session in the table. -/
def accept_connection (join_key : List Char) (clients : client_table) (client_sock : SOCKET)
    (events : List recv_result) : accept_outcome :=
  match recv_exact join_key.length events with
  | exact_result.pending => { clients_ := clients, trace := [], status := accept_status.pending }
  | exact_result.failed =>
    { clients_ := clients, trace := [net_action.close client_sock],
      status := accept_status.rejected }
  | exact_result.ok provided_key rest =>
    if provided_key ≠ join_key then
      { clients_ := clients, trace := [net_action.close client_sock],
        status := accept_status.rejected }
    else
      { clients_ := clients.filter (fun e => decide (e.1 ≠ client_sock)) ++
          [(client_sock, new_client client_sock)],
        trace := [], status := accept_status.accepted rest }

/-- The bytes a connection delivers before it closes. -/
def delivered : List recv_result → List Char
  | [] => []
  | recv_result.timeout :: rs => delivered rs
  | recv_result.closed :: _ => []
  | recv_result.data bytes :: rs => if bytes = [] then [] else bytes ++ delivered rs

/-- A `recv` result that neither ends the connection nor completes a line: a timeout,
or bytes without a newline. -/
def recv_result.incomplete : recv_result → Bool
  | recv_result.timeout => true
  | recv_result.closed => false
  | recv_result.data bytes => decide (bytes ≠ [] ∧ '\n' ∉ bytes)

/-- Whether the listed `recv` results contain the end of the connection. -/
def connection_closed : List recv_result → Bool
  | [] => false
  | recv_result.timeout :: rs => connection_closed rs
  | recv_result.closed :: _ => true
  | recv_result.data bytes :: rs => if bytes = [] then true else connection_closed rs

/-! ## UDP voice relay -/

/-- The state the UDP relay thread works on: the session table and the set
`authenticated_udp_peers_`.  The set holds the keys `"ip:port"` of
`socket_addr_to_string`; a key is kept as the address it is the text of. -/
structure relay_state where
  clients_ : client_table
  authenticated_udp_peers_ : List sockaddr_in
  deriving DecidableEq, Repr

/-- A datagram handed to `sendto`: destination and payload. -/
abbrev udp_send := sockaddr_in × List Char

/-- The registration loop of `udp_relay_loop`: every named session that is not yet
UDP-registered and whose TCP peer address has the sender's IP gets the sender's
address.  `getpeername` gives the TCP peer address of a socket. -/
def register_udp (getpeername : SOCKET → sockaddr_in) (sender_addr : sockaddr_in)
    (clients : client_table) : client_table :=
  clients.map (fun e =>
    if e.2.udp_registered = false ∧ e.2.name ≠ [] ∧
        (getpeername e.1).sin_addr = sender_addr.sin_addr then
      (e.1, { e.2 with udp_addr := sender_addr, udp_registered := true })
    else e)

/-- The relay loop of `udp_relay_loop`: the `sendto` calls it makes. -/
def relay_sends (sender_addr : sockaddr_in) (payload : List Char) (clients : client_table) :
    List udp_send :=
  (clients.filter (fun e => e.2.udp_registered &&
      decide (e.2.udp_addr.sin_addr ≠ sender_addr.sin_addr ∨
        e.2.udp_addr.sin_port ≠ sender_addr.sin_port))).map
    (fun e => (e.2.udp_addr, payload))

/-- The size of the buffer `buf` that `udp_relay_loop` receives into. -/
def udp_buffer_size : Nat := 4096

/-- One pass through the body of `udp_relay_loop` for a datagram that has arrived
from `sender_addr`: the new state and the datagrams relayed.  For a datagram
longer than `buf` the Winsock call `recvfrom` fails with `WSAEMSGSIZE` and
returns `SOCKET_ERROR`, so `received <= 0` and the pass ends, as it does for a
datagram of length 0. -/
def udp_relay_step (join_key : List Char) (getpeername : SOCKET → sockaddr_in)
    (st : relay_state) (sender_addr : sockaddr_in) (datagram : List Char) :
    relay_state × List udp_send :=
  if datagram.length > udp_buffer_size then (st, [])
  else if datagram.length ≤ 0 then (st, [])
  else if sender_addr ∉ st.authenticated_udp_peers_ ∧
      (datagram.length < join_key.length ∨ datagram.take join_key.length ≠ join_key) then
    (st, [])
  else
    let fresh := decide (sender_addr ∉ st.authenticated_udp_peers_)
    let peers := if fresh then st.authenticated_udp_peers_ ++ [sender_addr]
      else st.authenticated_udp_peers_
    let payload_offset := if fresh then join_key.length else 0
    let st1 : relay_state := { st with authenticated_udp_peers_ := peers }
    if datagram.length ≤ payload_offset then (st1, [])
    else
      let clients := register_udp getpeername sender_addr st1.clients_
      ({ st1 with clients_ := clients },
        relay_sends sender_addr (datagram.drop payload_offset) clients)

/-! ## Line splitting -/

/-- A line without one trailing carriage return, as `get_line` returns it. -/
def strip_cr (line : List Char) : List Char :=
  if line ≠ [] ∧ line.getLast? = some '\r' then line.dropLast else line

/-- Repeated calls of `get_line` until it returns nothing, the loop
`while (auto line = receiver.get_line())`: the lines returned and the receiver left.
The first argument bounds the number of lines; the buffer length plus one is
enough. -/
def line_receiver.drain : Nat → line_receiver → List (List Char) × line_receiver
  | 0, r => ([], r)
  | fuel + 1, r =>
    match r.get_line with
    | none => ([], r)
    | some (line, r1) =>
      let res := line_receiver.drain fuel r1
      (line :: res.1, res.2)

/-- Feeds the chunks one after the other, taking all complete lines after each
`feed`: the lines returned, in order, and the receiver left. -/
def line_receiver.feed_chunks : line_receiver → List (List Char) → List (List Char) × line_receiver
  | r, [] => ([], r)
  | r, chunk :: chunks =>
    let r1 := r.feed chunk
    let d := r1.drain (r1.buffer_.length + 1)
    let rest := line_receiver.feed_chunks d.2 chunks
    (d.1 ++ rest.1, rest.2)

/-! ## Voice playback ring -/

/-- The playback members of `voice_chat::impl`: whether `playback_sound_` is set,
the ring of 16-bit samples, the write cursor, the time of the last packet in
milliseconds of the steady clock, and the flag `playback_has_data_`. -/
structure playback_state where
  playback_sound_ : Bool
  playback_ring_ : List Int
  playback_write_pos_ : Nat
  last_voice_packet_ms_ : Nat
  playback_has_data_ : Bool
  deriving DecidableEq, Repr

/-- The call `s.find(pat)` of `std::string`: the first position where `pat` occurs
in `s`, `none` for `npos`. -/
def string_find (pat : List Char) : List Char → Option Nat
  | [] => if pat = [] then some 0 else none
  | c :: cs =>
    if pat.isPrefixOf (c :: cs) then some 0
    else (string_find pat cs).map (fun i => i + 1)

/-- What `join_room` does to its socket and its listener. -/
inductive client_action where
  | closesocket
  | on_transport_error (error : List Char)
  deriving DecidableEq, Repr

/-- The handshake verdict of `join_room` on the result of its one `recv` into the
buffer `response` (255 bytes at most): whether it goes on to start the receive
thread and return `true`, and what it does when it does not. -/
def join_room_verdict (has_listener : Bool) (r : recv_result) : Bool × List client_action :=
  let response : List Char :=
    match r with
    | recv_result.data bytes => bytes.take 255
    | recv_result.timeout => []
    | recv_result.closed => []
  if response.length ≤ 0 ∨ string_find "OK".toList response = none then
    (false, client_action.closesocket ::
      (if has_listener then
        [client_action.on_transport_error "Server rejected join handshake.".toList]
      else []))
  else (true, [])

/-- The candidate list of `join_room`: the decoded endpoints, or for the host
(`is_local_host_join`) the loopback address with the port of the first decoded
endpoint; `endpoints.front()` has no value on an empty list. -/
def join_candidates (is_local_host_join : Bool) (endpoints : List endpoint) :
    Option (List endpoint) :=
  if is_local_host_join then
    match endpoints with
    | [] => none
    | front :: _ => some [("127.0.0.1".toList, front.2)]
  else some endpoints

/-- What one pass of the connect loop meets: `socket` fails, `connect` fails, or
`connect` succeeds. -/
inductive connect_outcome where
  | socket_failed
  | connect_failed
  | connected
  deriving DecidableEq, Repr

/-- How the connect loop of `join_room` ends. -/
inductive connect_status where
  | connected (ep : endpoint)
  | no_socket
  | unreachable
  deriving DecidableEq, Repr

/-- The connect loop of `join_room`: the endpoints that `connect` was called on, in
call order, and how the loop ended. -/
structure connect_result where
  attempted : List endpoint
  status : connect_status
  deriving DecidableEq, Repr

/-- The loop `for (const auto& [candidate_ip, candidate_port] : endpoints)` of
`join_room`; `outcome i` is what pass number `i` meets, and `i` counts the
passes made so far. -/
def try_endpoints (outcome : Nat → connect_outcome) : Nat → List endpoint → connect_result
  | _, [] => { attempted := [], status := connect_status.unreachable }
  | i, ep :: rest =>
    match outcome i with
    | connect_outcome.socket_failed => { attempted := [], status := connect_status.no_socket }
    | connect_outcome.connected => { attempted := [ep], status := connect_status.connected ep }
    | connect_outcome.connect_failed =>
      let res := try_endpoints outcome (i + 1) rest
      { res with attempted := ep :: res.attempted }

/-- The conversion `static_cast<std::uint16_t>`. -/
def to_uint16 (n : Nat) : Nat := n % 65536

/-- The port `server::start` binds the UDP relay to, from its member `port_`. -/
def server_udp_port (port_ : Nat) : Nat := to_uint16 (port_ + 1)

/-- The value `join_room` stores in `voice_port_`, from the port it connected to. -/
def join_room_voice_port (port : Nat) : Nat := to_uint16 (port + 1)

/-- The struct `message`, without its time stamp. -/
structure message where
  from_ : List Char
  text : List Char
  deriving DecidableEq, Repr

/-- The receive thread of `join_room`, run on the results of its `recv` calls: the
messages handed to `on_message_received`, in order. -/
def join_recv_loop (has_listener : Bool) : line_receiver → List recv_result → List message
  | _, [] => []
  | r, recv_result.timeout :: rest => join_recv_loop has_listener r rest
  | _, recv_result.closed :: _ => []
  | r, recv_result.data bytes :: rest =>
    if bytes = [] then []
    else
      let r1 := r.feed bytes
      let d := r1.drain (r1.buffer_.length + 1)
      (if has_listener then d.1.map (fun line => { from_ := "room".toList, text := line })
        else []) ++ join_recv_loop has_listener d.2 rest

/-! ## Room state of the chat window -/

/-- The enum `transport_state`. -/
inductive transport_state where
  | offline
  | connecting
  | online
  deriving DecidableEq, Repr

/-- The struct `room_state`. -/
structure room_state where
  id : List Char
  code : List Char
  title : List Char
  transport : transport_state
  in_voice : Bool
  users : List Nat
  deriving DecidableEq, Repr

/-- A value-initialised `room_state`. -/
def room_state.empty : room_state :=
  { id := [], code := [], title := [], transport := transport_state.offline,
    in_voice := false, users := [] }

/-- The handler `chat_room::on_transport_disconnected`. -/
def on_transport_disconnected (s : room_state) : room_state :=
  { s with transport := transport_state.offline, users := [], id := [], code := [] }

/-- The handler `chat_room::on_room_left`. -/
def on_room_left (s : room_state) : room_state :=
  { s with id := [], code := [], title := [], users := [], in_voice := false }

/-- The handler `chat_room::on_room_joined`. -/
def on_room_joined (_s : room_state) (state : room_state) : room_state := state

/-! ## Chat history -/

/-- The members of `text_chat::impl`. -/
structure text_chat where
  capacity_ : Nat
  messages_ : List message
  deriving DecidableEq, Repr

/-- The constructor `text_chat::text_chat(capacity)`, `capacity` a `std::size_t`: the
capacity kept is `std::max<std::size_t>(1, cap)`, and the constructor calls
`messages_.reserve(capacity_)` on the empty history.  `reserve n` tells whether
that call returns for `n` elements: it throws `std::length_error` above
`max_size()` and `std::bad_alloc` when the memory is not to be had, and then no
object is constructed (`none`). -/
def text_chat.create (reserve : Nat → Bool) (capacity : Nat) : Option text_chat :=
  let cap := max 1 (capacity % 2 ^ 64)
  if reserve cap then some { capacity_ := cap, messages_ := [] } else none

/-- The method `text_chat::add_message`: `erase(begin())` when the history is full,
then `push_back`. -/
def text_chat.add_message (t : text_chat) (msg : message) : text_chat :=
  let kept := if t.messages_.length ≥ t.capacity_ then t.messages_.drop 1 else t.messages_
  { t with messages_ := kept ++ [msg] }

/-- The method `text_chat::get_messages`. -/
def text_chat.get_messages (t : text_chat) : List message := t.messages_

/-- The method `text_chat::size`. -/
def text_chat.size (t : text_chat) : Nat := t.messages_.length

/-- The method `text_chat::capacity`. -/
def text_chat.capacity (t : text_chat) : Nat := t.capacity_

/-! ## Writing decoded voice into the playback ring -/

/-- The constant `frame_size`. -/
def frame_size : Nat := 960

/-- The constant `channels`. -/
def channels : Nat := 1

/-- The loop of `on_voice_data` over the decoded samples:
`ring[write_pos] = sample; write_pos = (write_pos + 1) % ring_size`, with
`write_pos` and `ring_size` of type `unsigned int`. -/
def ring_write (ring_size : Nat) : List Int → Nat → List Int → List Int × Nat
  | ring, write_pos, [] => (ring, write_pos)
  | ring, write_pos, sample :: rest =>
    ring_write ring_size (ring.set write_pos sample) (((write_pos + 1) % 2 ^ 32) % ring_size) rest

/-- The method `voice_chat::on_voice_data` at steady-clock time `now_ms`.  The Opus
decoder is not part of the repository: `decoder_` is `none` for a null decoder,
else the function that gives, for a packet, the buffer `decoded` and the return
value `decoded_samples` of `opus_decode`. -/
def on_voice_data (now_ms : Nat) (decoder_ : Option (List Nat → List Int × Int))
    (encoded_packet : List Nat) (st : playback_state) : playback_state :=
  if encoded_packet = [] then st
  else
    match decoder_ with
    | none => st
    | some opus_decode =>
      let decoded := (opus_decode encoded_packet).1
      let decoded_samples := (opus_decode encoded_packet).2
      if decoded_samples ≤ 0 then st
      else if st.playback_ring_ = [] then st
      else
        let ring_size := st.playback_ring_.length % 2 ^ 32
        let res := ring_write ring_size st.playback_ring_ st.playback_write_pos_
          (decoded.take (decoded_samples.toNat * channels))
        { st with
          playback_ring_ := res.1
          playback_write_pos_ := res.2
          last_voice_packet_ms_ := now_ms
          playback_has_data_ := true }

/-! ## The join input buffer of the chat window -/

/-- The call `std::snprintf(join_buf_.data(), join_buf_.size(), "%s", token)` on the
64-byte `join_buf_`: the C string that the buffer holds afterwards, at most 63
characters of the token up to its first zero byte. -/
def store_join_buf (token : List Char) : List Char :=
  (token.takeWhile (fun c => decide (c ≠ Char.ofNat 0))).take 63

/-! ## Settings file -/

/-- The text `json_escape` writes for one character. -/
def json_escape_char (c : Char) : List Char :=
  if c = '\\' then ['\\', '\\']
  else if c = '"' then ['\\', '"']
  else if c = '\n' then ['\\', 'n']
  else if c = '\r' then ['\\', 'r']
  else if c = '\t' then ['\\', 't']
  else [c]

/-- The function `json_escape`. -/
def json_escape : List Char → List Char
  | [] => []
  | c :: rest => json_escape_char c ++ json_escape rest

/-- The call `s.find(c, pos)` of `std::string` for a character. -/
def find_char (c : Char) (s : List Char) (pos : Nat) : Option Nat :=
  if c ∈ s.drop pos then some (pos + (s.drop pos).indexOf c) else none

/-- The loop of `extract_raw_value` that looks for the closing quote, on the
characters from `end` on with `prev = src[end - 1]`: the number of times `end`
is advanced before the loop breaks or the text ends. -/
def closing_quote (prev : Char) : List Char → Nat
  | [] => 0
  | c :: rest => if c = '"' ∧ prev ≠ '\\' then 0 else 1 + closing_quote c rest

/-- The function `extract_raw_value`. -/
def extract_raw_value (src key : List Char) : Option (List Char) :=
  let needle := "\"".toList ++ key ++ "\"".toList
  match string_find needle src with
  | none => none
  | some key_pos =>
    match find_char ':' src (key_pos + needle.length) with
    | none => none
    | some colon =>
      let start := colon + 1 + ((src.drop (colon + 1)).takeWhile is_space).length
      if start ≥ src.length then none
      else if src.getD start ' ' = '"' then
        let stop := start + 1 + closing_quote '"' (src.drop (start + 1))
        if stop ≥ src.length then none
        else some ((src.drop start).take (stop - start + 1))
      else
        let stop := start + ((src.drop start).takeWhile
          (fun c => decide (c ≠ ',' ∧ c ≠ '\n' ∧ c ≠ '}'))).length
        some ((src.drop start).take (stop - start))

/-- The `switch` of `parse_string` on the character after a backslash. -/
def unescape_char (c : Char) : Char :=
  if c = '\\' then '\\'
  else if c = '"' then '"'
  else if c = 'n' then '\n'
  else if c = 'r' then '\r'
  else if c = 't' then '\t'
  else c

/-- The loop of `parse_string` over the characters between the two quotes; the first
argument bounds the number of passes. -/
def unescape : Nat → List Char → List Char
  | 0, _ => []
  | _ + 1, [] => []
  | _ + 1, [c] => [c]
  | fuel + 1, c :: d :: rest =>
    if c = '\\' then unescape_char d :: unescape fuel rest
    else c :: unescape fuel (d :: rest)

/-- The function `parse_string`. -/
def parse_string (src key : List Char) : Option (List Char) :=
  match extract_raw_value src key with
  | none => none
  | some raw =>
    if raw.length < 2 ∨ raw.head? ≠ some '"' ∨ raw.getLast? ≠ some '"' then none
    else some (unescape raw.length ((raw.drop 1).dropLast))

/-- The text `settings_store::save` writes for a string field, after the separator:
two blanks, the key in quotes, a colon and a blank, the escaped value in quotes. -/
def save_field (key value : List Char) : List Char :=
  "  \"".toList ++ key ++ "\": \"".toList ++ json_escape value ++ "\"".toList

/-! ## The Winsock transport adapter -/

/-- The constant `local_user_id`. -/
def local_user_id : Nat := 1

/-- A call on the `transport_evt_listener` of the adapter. -/
inductive listener_event where
  | on_transport_connected
  | on_transport_disconnected
  | on_transport_error (error : List Char)
  | on_room_joined (state : room_state)
  | on_room_left
  | on_message_received (msg : message)
  | on_user_joined (id : Nat)
  | on_user_left (id : Nat)
  deriving DecidableEq, Repr

/-- The struct `winsock_transport_options`. -/
structure winsock_transport_options where
  display_name : List Char
  room_password : List Char
  host_port : Nat
  deriving DecidableEq, Repr

/-- The members of the class `server` that `create_room` and `join_room` depend on. -/
structure server where
  password_ : List Char
  join_key_ : List Char
  port_ : Nat
  running_ : Bool
  deriving DecidableEq, Repr

/-- What `server::start` meets when it sets up the TCP listener: `socket` fails,
`bind` fails, `listen` fails, or the listener is up. -/
inductive start_outcome where
  | socket_failed
  | bind_failed
  | listen_failed
  | listening
  deriving DecidableEq, Repr

/-- The method `server::start`: its return value and the server afterwards. -/
def server.start (outcome : start_outcome) (s : server) : Bool × server :=
  if s.join_key_ = [] then (false, s)
  else
    match outcome with
    | start_outcome.socket_failed => (false, s)
    | start_outcome.bind_failed => (false, { s with running_ := false })
    | start_outcome.listen_failed => (false, { s with running_ := false })
    | start_outcome.listening => (true, { s with running_ := true })

/-- The members of `winsock_transport::impl` that the calls below read or write;
`listener_` tells whether a listener is set, `server_` is `none` for a null
pointer, `recv_thread_` tells whether the thread object is joinable. -/
structure winsock_transport where
  options_ : winsock_transport_options
  listener_ : Bool
  wsa_ok_ : Bool
  server_ : Option server
  recv_running_ : Bool
  recv_thread_ : Bool
  voice_port_ : Nat
  deriving DecidableEq, Repr

/-- Result of a call on the adapter: the value of the returned future, the listener
calls made, the endpoints `connect` was called on, and the adapter afterwards. -/
structure call_result where
  returned : Bool
  events : List listener_event
  attempted : List endpoint
  impl : winsock_transport
  deriving DecidableEq, Repr

/-- A listener call behind the test `if (impl_->listener_)`. -/
def winsock_transport.notify (t : winsock_transport) (ev : listener_event) :
    List listener_event :=
  if t.listener_ then [ev] else []

/-- The method `winsock_transport::set_display_name`. -/
def winsock_transport.set_display_name (t : winsock_transport) (display_name : List Char) :
    winsock_transport :=
  { t with options_ := { t.options_ with
      display_name := if display_name = [] then "LocalUser".toList else display_name } }

/-- The method `winsock_transport::connect`. -/
def winsock_transport.connect (t : winsock_transport) : call_result :=
  if t.wsa_ok_ = false then
    { returned := false,
      events := t.notify (listener_event.on_transport_error "WSAStartup failed.".toList),
      attempted := [], impl := t }
  else
    { returned := true, events := t.notify listener_event.on_transport_connected,
      attempted := [], impl := t }

/-- The method `winsock_transport::disconnect` (and `leave_room`, which calls it). -/
def winsock_transport.disconnect (t : winsock_transport) : call_result :=
  { returned := true, events := t.notify listener_event.on_transport_disconnected,
    attempted := [],
    impl := { t with recv_running_ := false, recv_thread_ := false, server_ := none,
                     voice_port_ := 0 } }

/-- What a `join_room` call meets on the network: the outcome of each pass of the
connect loop, the value of `WSAGetLastError` after the failing `connect` of a
pass, the results of the two `send_all` calls, and the result of the `recv` for
the response. -/
structure join_env where
  outcome : Nat → connect_outcome
  wsa_error : Nat → Nat
  send_key : Bool
  send_handshake : Bool
  response : recv_result

/-- The room state `join_room` hands to `on_room_joined`. -/
def joined_state (code : List Char) : room_state :=
  { id := "room-joined".toList, code := code, title := "Fox Chat".toList,
    transport := transport_state.online, in_voice := false, users := [local_user_id] }

/-- The room state `create_room` hands to `on_room_joined`. -/
def host_state (code : List Char) : room_state :=
  { id := "room-host".toList, code := code, title := "Fox Chat".toList,
    transport := transport_state.online, in_voice := false, users := [local_user_id] }

/-- The method `winsock_transport::join_room`.  The decoded list is never empty
(`parse_join_key` returns none for it), so `endpoints.front()` has a value; the
empty list stands in where it has none.  After an accepted handshake the new
receive thread is move-assigned to `recv_thread_`: when that still holds a
joinable thread, left by an earlier join without a `disconnect`, the assignment
calls `std::terminate`. -/
def winsock_transport.join_room (env : join_env) (t : winsock_transport) (code : List Char) :
    Except fault call_result :=
  match parse_join_key code t.options_.room_password with
  | .error e => .error e
  | .ok none =>
    .ok { returned := false,
          events := t.notify (listener_event.on_transport_error
            "Invalid join key or wrong room password.".toList),
          attempted := [], impl := t }
  | .ok (some endpoint) =>
    let is_local_host_join := t.server_.isSome
    let endpoints := (join_candidates is_local_host_join endpoint).getD []
    let res := try_endpoints env.outcome 0 endpoints
    match res.status with
    | connect_status.no_socket =>
      .ok { returned := false, events := [], attempted := res.attempted, impl := t }
    | connect_status.unreachable =>
      let last_wsa_error :=
        if res.attempted = [] then 0 else env.wsa_error (res.attempted.length - 1)
      .ok { returned := false,
            events := t.notify (listener_event.on_transport_error
              ("Unable to connect to host (WSA=".toList ++ to_string last_wsa_error ++
                "). Check host IP/port forwarding and firewall.".toList)),
            attempted := res.attempted, impl := t }
    | connect_status.connected ep =>
      if env.send_key = false then
        .ok { returned := false, events := [], attempted := res.attempted, impl := t }
      else if env.send_handshake = false then
        .ok { returned := false, events := [], attempted := res.attempted, impl := t }
      else
        let verdict := join_room_verdict t.listener_ env.response
        if verdict.1 = false then
          .ok { returned := false,
                events := verdict.2.filterMap (fun a =>
                  match a with
                  | client_action.closesocket => none
                  | client_action.on_transport_error error =>
                    some (listener_event.on_transport_error error)),
                attempted := res.attempted, impl := t }
        else if t.recv_thread_ then .error fault.terminate
        else
          .ok { returned := true,
                events := t.notify (listener_event.on_room_joined (joined_state code)),
                attempted := res.attempted,
                impl := { t with recv_running_ := true, recv_thread_ := true,
                                 voice_port_ := join_room_voice_port ep.2 } }

/-- What a `create_room` call meets: the addresses found for the room code, the
outcome of `server::start`, and the network as the inner `join_room` meets it. -/
structure create_env where
  advertised_ip : List Char
  local_ip : List Char
  start : start_outcome
  join : join_env

/-- The method `winsock_transport::create_room`. -/
def winsock_transport.create_room (env : create_env) (t : winsock_transport) :
    Except fault call_result :=
  match make_join_key env.advertised_ip env.local_ip t.options_.host_port
      t.options_.room_password with
  | .error e => .error e
  | .ok code =>
    let started := server.start env.start
      { password_ := t.options_.room_password, join_key_ := code,
        port_ := t.options_.host_port, running_ := false }
    let t1 := { t with server_ := some started.2 }
    if started.1 = false then
      .ok { returned := false,
            events := t1.notify (listener_event.on_transport_error
              "Failed to start host server.".toList),
            attempted := [], impl := t1 }
    else
      match winsock_transport.join_room env.join t1 code with
      | .error e => .error e
      | .ok joined =>
        if joined.returned = false then
          .ok { joined with returned := false }
        else
          .ok { returned := true,
                events := joined.events ++
                  joined.impl.notify (listener_event.on_room_joined (host_state code)),
                attempted := joined.attempted, impl := joined.impl }

/-! ## The chat window as listener -/

/-- The members of `chat_room::impl` that the transport events and the requests read
or write. -/
structure chat_room where
  display_name : List Char
  room_state_ : room_state
  last_error_ : List Char
  text_chat_ : Option text_chat
  transport_ : Option winsock_transport
  deriving DecidableEq, Repr

/-- The handlers of `chat_room` for the calls of `transport_evt_listener`. -/
def chat_room.handle (c : chat_room) : listener_event → chat_room
  | listener_event.on_transport_connected =>
    { c with room_state_ := { c.room_state_ with transport := transport_state.online } }
  | listener_event.on_transport_disconnected =>
    { c with room_state_ := on_transport_disconnected c.room_state_ }
  | listener_event.on_transport_error error => { c with last_error_ := error }
  | listener_event.on_room_joined state =>
    { c with room_state_ := on_room_joined c.room_state_ state }
  | listener_event.on_room_left => { c with room_state_ := on_room_left c.room_state_ }
  | listener_event.on_message_received msg =>
    { c with text_chat_ := c.text_chat_.map (fun t => t.add_message msg) }
  | listener_event.on_user_joined id =>
    if id ∈ c.room_state_.users then c
    else { c with room_state_ := { c.room_state_ with users := c.room_state_.users ++ [id] } }
  | listener_event.on_user_left id =>
    { c with room_state_ :=
        { c.room_state_ with users := c.room_state_.users.filter (fun u => decide (u ≠ id)) } }

/-- The listener calls of one adapter call, handled in order. -/
def chat_room.deliver (c : chat_room) (events : List listener_event) : chat_room :=
  events.foldl chat_room.handle c

/-- The method `chat_room::request_connect`. -/
def chat_room.request_connect (c : chat_room) : Bool × chat_room :=
  match c.transport_ with
  | none => (false, c)
  | some t =>
    let c1 := { c with
      room_state_ := { c.room_state_ with transport := transport_state.connecting } }
    let res := (t.set_display_name c.display_name).connect
    (res.returned, { c1.deliver res.events with transport_ := some res.impl })

/-- The method `chat_room::request_join_room`. -/
def chat_room.request_join_room (env : join_env) (c : chat_room) (code : List Char) :
    Except fault (Bool × chat_room) :=
  match c.transport_ with
  | none => .ok (false, c)
  | some t =>
    match (t.set_display_name c.display_name).join_room env code with
    | .error e => .error e
    | .ok res => .ok (res.returned, { c.deliver res.events with transport_ := some res.impl })

/-- The method `chat_room::request_create_room`. -/
def chat_room.request_create_room (env : create_env) (c : chat_room) :
    Except fault (Bool × chat_room) :=
  match c.transport_ with
  | none => .ok (false, c)
  | some t =>
    match (t.set_display_name c.display_name).create_room env with
    | .error e => .error e
    | .ok res => .ok (res.returned, { c.deliver res.events with transport_ := some res.impl })

/-- The receive thread of `join_room` as the chat window sees it: one
`on_message_received` call for each message. -/
def chat_room.receive (c : chat_room) (receiver : line_receiver)
    (events : List recv_result) : chat_room :=
  c.deliver ((join_recv_loop true receiver events).map listener_event.on_message_received)

end fox

namespace fox

namespace base64

theorem and_63 (x : Nat) : x &&& 0x3F = x % 64 := Nat.and_pow_two_sub_one_eq_mod x 6

theorem and_255 (x : Nat) : x &&& 0xFF = x % 256 := Nat.and_pow_two_sub_one_eq_mod x 8

theorem table_sym : ∀ i : Fin 64, table (sym i.val) = (i.val : Int) := by decide

theorem table_sym_nat (i : Nat) (h : i < 64) : table (sym i) = (i : Int) := table_sym ⟨i, h⟩

theorem table_pad : table '=' = -1 := by decide

theorem enc_step6 (val a : Nat) (cs : List Nat) :
    encode_loop val (-6) (a :: cs) =
      sym (((((val <<< 8) + a) % 2 ^ 32) >>> 2) &&& 0x3F) :: encode_loop (((val <<< 8) + a) % 2 ^ 32) (-4) cs := rfl

theorem enc_step4 (val a : Nat) (cs : List Nat) :
    encode_loop val (-4) (a :: cs) =
      sym (((((val <<< 8) + a) % 2 ^ 32) >>> 4) &&& 0x3F) :: encode_loop (((val <<< 8) + a) % 2 ^ 32) (-2) cs := rfl

theorem enc_step2 (val a : Nat) (cs : List Nat) :
    encode_loop val (-2) (a :: cs) =
      sym (((((val <<< 8) + a) % 2 ^ 32) >>> 6) &&& 0x3F) :: sym (((((val <<< 8) + a) % 2 ^ 32) >>> 0) &&& 0x3F) ::
        encode_loop (((val <<< 8) + a) % 2 ^ 32) (-6) cs := rfl

theorem enc_nil6 (val : Nat) : encode_loop val (-6) [] = [] := rfl

theorem enc_nil4 (val : Nat) :
    encode_loop val (-4) [] = [sym ((((val <<< 8) % 2 ^ 32) >>> 4) &&& 0x3F)] := rfl

theorem enc_nil2 (val : Nat) :
    encode_loop val (-2) [] = [sym ((((val <<< 8) % 2 ^ 32) >>> 6) &&& 0x3F)] := rfl

theorem enc_chunk (val a b c : Nat) (ha : a < 256) (hb : b < 256) (hc : c < 256) (cs : List Nat) :
    encode_loop val (-6) (a :: b :: c :: cs) =
      sym (a / 4) :: sym (a % 4 * 16 + b / 16) :: sym (b % 16 * 4 + c / 64) :: sym (c % 64) ::
        encode_loop ((((((val * 256 + a) % 2 ^ 32) * 256 + b) % 2 ^ 32) * 256 + c) % 2 ^ 32) (-6) cs := by
  rw [enc_step6, enc_step4, enc_step2]
  simp only [and_63, Nat.shiftLeft_eq, Nat.shiftRight_eq_div_pow]
  have e1 : (val * 2 ^ 8 + a) % 2 ^ 32 / 2 ^ 2 % 64 = a / 4 := by omega
  have e2 : ((val * 2 ^ 8 + a) % 2 ^ 32 * 2 ^ 8 + b) % 2 ^ 32 / 2 ^ 4 % 64 = a % 4 * 16 + b / 16 := by omega
  have e3 : (((val * 2 ^ 8 + a) % 2 ^ 32 * 2 ^ 8 + b) % 2 ^ 32 * 2 ^ 8 + c) % 2 ^ 32 / 2 ^ 6 % 64
      = b % 16 * 4 + c / 64 := by omega
  have e4 : (((val * 2 ^ 8 + a) % 2 ^ 32 * 2 ^ 8 + b) % 2 ^ 32 * 2 ^ 8 + c) % 2 ^ 32 / 2 ^ 0 % 64
      = c % 64 := by omega
  rw [e1, e2, e3, e4]

theorem dec_step8 (v i : Nat) (h : i < 64) (cs : List Char) :
    decode_loop v (-8) (sym i :: cs) = decode_loop (((v <<< 6) + i) % 2 ^ 32) (-2) cs := by
  have ht := table_sym_nat i h
  have hne : ¬ ((i : Int) = -1) := by omega
  simp [decode_loop, ht, hne]

theorem dec_step2 (v i : Nat) (h : i < 64) (cs : List Char) :
    decode_loop v (-2) (sym i :: cs) =
      (((((v <<< 6) + i) % 2 ^ 32) >>> 4) &&& 0xFF) :: decode_loop (((v <<< 6) + i) % 2 ^ 32) (-4) cs := by
  have ht := table_sym_nat i h
  have hne : ¬ ((i : Int) = -1) := by omega
  simp [decode_loop, ht, hne]

theorem dec_step4 (v i : Nat) (h : i < 64) (cs : List Char) :
    decode_loop v (-4) (sym i :: cs) =
      (((((v <<< 6) + i) % 2 ^ 32) >>> 2) &&& 0xFF) :: decode_loop (((v <<< 6) + i) % 2 ^ 32) (-6) cs := by
  have ht := table_sym_nat i h
  have hne : ¬ ((i : Int) = -1) := by omega
  simp [decode_loop, ht, hne]

theorem dec_step6 (v i : Nat) (h : i < 64) (cs : List Char) :
    decode_loop v (-6) (sym i :: cs) =
      (((((v <<< 6) + i) % 2 ^ 32) >>> 0) &&& 0xFF) :: decode_loop (((v <<< 6) + i) % 2 ^ 32) (-8) cs := by
  have ht := table_sym_nat i h
  have hne : ¬ ((i : Int) = -1) := by omega
  simp [decode_loop, ht, hne]

theorem dec_pad (v : Nat) (b : Int) (cs : List Char) : decode_loop v b ('=' :: cs) = [] := by
  simp [decode_loop, table_pad]

theorem encode_pad_chunk (w x y z : Char) :
    ∀ (fuel : Nat) (ys : List Char),
      encode_pad fuel (w :: x :: y :: z :: ys) = w :: x :: y :: z :: encode_pad fuel ys
  | 0, _ => rfl
  | fuel + 1, ys => by
    have hlen : (w :: x :: y :: z :: ys).length % 4 = ys.length % 4 := by
      simp only [List.length_cons]; omega
    simp only [encode_pad, hlen]
    by_cases h : ys.length % 4 = 0
    · simp [h]
    · simp only [h, ne_eq, not_false_eq_true, if_true, List.cons_append]
      exact encode_pad_chunk w x y z fuel (ys ++ ['='])

theorem encode_pad_two (x y : Char) : encode_pad 3 [x, y] = [x, y, '=', '='] := by
  simp [encode_pad]

theorem encode_pad_three (x y z : Char) : encode_pad 3 [x, y, z] = [x, y, z, '='] := by
  simp [encode_pad]

theorem enc_one (val a : Nat) (ha : a < 256) :
    encode_loop val (-6) [a] = [sym (a / 4), sym (a % 4 * 16)] := by
  rw [enc_step6, enc_nil4]
  simp only [and_63, Nat.shiftLeft_eq, Nat.shiftRight_eq_div_pow]
  have e1 : (val * 2 ^ 8 + a) % 2 ^ 32 / 2 ^ 2 % 64 = a / 4 := by omega
  have e2 : (val * 2 ^ 8 + a) % 2 ^ 32 * 2 ^ 8 % 2 ^ 32 / 2 ^ 4 % 64 = a % 4 * 16 := by omega
  rw [e1, e2]

theorem enc_two (val a b : Nat) (ha : a < 256) (hb : b < 256) :
    encode_loop val (-6) [a, b] = [sym (a / 4), sym (a % 4 * 16 + b / 16), sym (b % 16 * 4)] := by
  rw [enc_step6, enc_step4, enc_nil2]
  simp only [and_63, Nat.shiftLeft_eq, Nat.shiftRight_eq_div_pow]
  have e1 : (val * 2 ^ 8 + a) % 2 ^ 32 / 2 ^ 2 % 64 = a / 4 := by omega
  have e2 : ((val * 2 ^ 8 + a) % 2 ^ 32 * 2 ^ 8 + b) % 2 ^ 32 / 2 ^ 4 % 64 = a % 4 * 16 + b / 16 := by
    omega
  have e3 : ((val * 2 ^ 8 + a) % 2 ^ 32 * 2 ^ 8 + b) % 2 ^ 32 * 2 ^ 8 % 2 ^ 32 / 2 ^ 6 % 64
      = b % 16 * 4 := by omega
  rw [e1, e2, e3]

theorem dec_chunk (v i j k l : Nat) (hi : i < 64) (hj : j < 64) (hk : k < 64) (hl : l < 64)
    (cs : List Char) :
    decode_loop v (-8) (sym i :: sym j :: sym k :: sym l :: cs) =
      (i * 4 + j / 16) :: (j % 16 * 16 + k / 4) :: (k % 4 * 64 + l) ::
        decode_loop ((((((((v * 64 + i) % 2 ^ 32) * 64 + j) % 2 ^ 32) * 64 + k) % 2 ^ 32) * 64 + l)
          % 2 ^ 32) (-8) cs := by
  rw [dec_step8 _ _ hi, dec_step2 _ _ hj, dec_step4 _ _ hk, dec_step6 _ _ hl]
  simp only [and_255, Nat.shiftLeft_eq, Nat.shiftRight_eq_div_pow]
  have e1 : ((v * 2 ^ 6 + i) % 2 ^ 32 * 2 ^ 6 + j) % 2 ^ 32 / 2 ^ 4 % 256 = i * 4 + j / 16 := by omega
  have e2 : (((v * 2 ^ 6 + i) % 2 ^ 32 * 2 ^ 6 + j) % 2 ^ 32 * 2 ^ 6 + k) % 2 ^ 32 / 2 ^ 2 % 256
      = j % 16 * 16 + k / 4 := by omega
  have e3 : ((((v * 2 ^ 6 + i) % 2 ^ 32 * 2 ^ 6 + j) % 2 ^ 32 * 2 ^ 6 + k) % 2 ^ 32 * 2 ^ 6 + l)
      % 2 ^ 32 / 2 ^ 0 % 256 = k % 4 * 64 + l := by omega
  rw [e1, e2, e3]

theorem dec_two (v i j : Nat) (hi : i < 64) (hj : j < 64) (cs : List Char) :
    decode_loop v (-8) (sym i :: sym j :: '=' :: cs) = [i * 4 + j / 16] := by
  rw [dec_step8 _ _ hi, dec_step2 _ _ hj, dec_pad]
  simp only [and_255, Nat.shiftLeft_eq, Nat.shiftRight_eq_div_pow]
  have e1 : ((v * 2 ^ 6 + i) % 2 ^ 32 * 2 ^ 6 + j) % 2 ^ 32 / 2 ^ 4 % 256 = i * 4 + j / 16 := by omega
  rw [e1]

theorem dec_three (v i j k : Nat) (hi : i < 64) (hj : j < 64) (hk : k < 64) (cs : List Char) :
    decode_loop v (-8) (sym i :: sym j :: sym k :: '=' :: cs) =
      [i * 4 + j / 16, j % 16 * 16 + k / 4] := by
  rw [dec_step8 _ _ hi, dec_step2 _ _ hj, dec_step4 _ _ hk, dec_pad]
  simp only [and_255, Nat.shiftLeft_eq, Nat.shiftRight_eq_div_pow]
  have e1 : ((v * 2 ^ 6 + i) % 2 ^ 32 * 2 ^ 6 + j) % 2 ^ 32 / 2 ^ 4 % 256 = i * 4 + j / 16 := by omega
  have e2 : (((v * 2 ^ 6 + i) % 2 ^ 32 * 2 ^ 6 + j) % 2 ^ 32 * 2 ^ 6 + k) % 2 ^ 32 / 2 ^ 2 % 256
      = j % 16 * 16 + k / 4 := by omega
  rw [e1, e2]

/-- Decoding undoes encoding, from any pair of accumulator values. -/
theorem decode_encode_loop :
    ∀ (data : List Nat), (∀ b ∈ data, b < 256) → ∀ (val v : Nat),
      decode_loop v (-8) (encode_pad 3 (encode_loop val (-6) data)) = data
  | [], _, val, v => by rw [enc_nil6]; rfl
  | [a], h, val, v => by
    have ha : a < 256 := h a (by simp)
    rw [enc_one val a ha, encode_pad_two, dec_two v _ _ (by omega) (by omega)]
    congr 1; omega
  | [a, b], h, val, v => by
    have ha : a < 256 := h a (by simp)
    have hb : b < 256 := h b (by simp)
    rw [enc_two val a b ha hb, encode_pad_three, dec_three v _ _ _ (by omega) (by omega) (by omega)]
    congr 1
    · omega
    · congr 1; omega
  | a :: b :: c :: rest, h, val, v => by
    have ha : a < 256 := h a (by simp)
    have hb : b < 256 := h b (by simp)
    have hc : c < 256 := h c (by simp)
    have hrest : ∀ x ∈ rest, x < 256 := fun x hx => h x (by simp [hx])
    rw [enc_chunk val a b c ha hb hc, encode_pad_chunk,
      dec_chunk v _ _ _ _ (by omega) (by omega) (by omega) (by omega),
      decode_encode_loop rest hrest]
    congr 1
    · omega
    · congr 1
      · omega
      · congr 1; omega

/-- Round trip of the text encoding: `decode (encode data) = data` for every byte vector. -/
theorem decode_encode (data : List Nat) (h : ∀ b ∈ data, b < 256) : decode (encode data) = data :=
  decode_encode_loop data h 0 0

end base64

/-! ### The XOR stream -/

theorem xor_twice (b k : Nat) : ((b ^^^ k) % 256 ^^^ k) % 256 = b % 256 := by
  apply Nat.eq_of_testBit_eq
  intro i
  have h256 : (256 : Nat) = 2 ^ 8 := rfl
  simp only [h256, Nat.testBit_mod_two_pow, Nat.testBit_xor]
  cases decide (i < 8) <;> cases b.testBit i <;> cases k.testBit i <;> rfl

/-- Applying the XOR stream twice with the same password gives the bytes back. -/
theorem xor_password_twice (password : List Char) (hp : password ≠ []) :
    ∀ (data : List Nat) (i : Nat), (∀ b ∈ data, b < 256) →
      ∃ out, xor_password password i data = .ok out ∧ xor_password password i out = .ok data
  | [], i, _ => ⟨[], rfl, rfl⟩
  | b :: bs, i, h => by
    have hl : password.length ≠ 0 := by
      intro h; exact hp (List.length_eq_zero.mp h)
    obtain ⟨rest, h1, h2⟩ := xor_password_twice password hp bs (i + 1)
      (fun x hx => h x (by simp [hx]))
    refine ⟨((b ^^^ key_byte password i) % 256) :: rest, ?_, ?_⟩
    · simp [xor_password, hl, h1]
    · have hb : b < 256 := h b (by simp)
      simp only [xor_password, hl, if_false, h2, xor_twice]
      rw [Nat.mod_eq_of_lt hb]

theorem xor_password_bytes (password : List Char) :
    ∀ (data : List Nat) (i : Nat) (out : List Nat),
      xor_password password i data = .ok out → ∀ b ∈ out, b < 256
  | [], i, out, h => by
    simp only [xor_password, Except.ok.injEq] at h
    subst h; simp
  | b :: bs, i, out, h => by
    simp only [xor_password] at h
    split at h
    · cases h
    · split at h
      · cases h
      · rename_i rest hrest
        simp only [Except.ok.injEq] at h
        subst h
        intro x hx
        rcases List.mem_cons.mp hx with rfl | hx
        · exact Nat.mod_lt _ (by decide)
        · exact xor_password_bytes password bs (i + 1) rest hrest x hx

/-! ### Decimal conversion -/

theorem digit_char_toNat : ∀ d : Fin 10, (digit_char d.val).toNat = 48 + d.val := by decide

theorem digit_char_is_digit (d : Nat) (h : d < 10) : is_digit (digit_char d) = true := by
  have := digit_char_toNat ⟨d, h⟩
  simp only [is_digit, decide_eq_true_eq] at this ⊢
  omega

theorem digit_char_value (d : Nat) (h : d < 10) : (digit_char d).toNat - 48 = d := by
  have := digit_char_toNat ⟨d, h⟩
  simp only at this
  omega

theorem digits_value_snoc (ds : List Char) (c : Char) :
    digits_value (ds ++ [c]) = digits_value ds * 10 + (c.toNat - 48) := by
  simp [digits_value, List.foldl_append]

theorem to_string_digits_spec :
    ∀ (fuel n : Nat), n < fuel →
      digits_value (to_string_digits fuel n) = n ∧
      (∀ c ∈ to_string_digits fuel n, is_digit c = true) ∧
      to_string_digits fuel n ≠ []
  | 0, n, h => absurd h (Nat.not_lt_zero n)
  | fuel + 1, n, h => by
    unfold to_string_digits
    by_cases h10 : n < 10
    · simp only [h10, if_true]
      refine ⟨?_, ?_, by simp⟩
      · simp [digits_value, digit_char_value n h10]
      · intro c hc
        simp only [List.mem_singleton] at hc
        subst hc
        exact digit_char_is_digit n h10
    · simp only [h10, if_false]
      have hlt : n / 10 < fuel := by omega
      obtain ⟨hv, hd, _⟩ := to_string_digits_spec fuel (n / 10) hlt
      refine ⟨?_, ?_, by simp⟩
      · rw [digits_value_snoc, hv, digit_char_value _ (Nat.mod_lt _ (by decide))]
        omega
      · intro c hc
        rcases List.mem_append.mp hc with hc | hc
        · exact hd c hc
        · simp only [List.mem_singleton] at hc
          subst hc
          exact digit_char_is_digit _ (Nat.mod_lt _ (by decide))

theorem to_string_value (n : Nat) : digits_value (to_string n) = n :=
  (to_string_digits_spec (n + 1) n (Nat.lt_succ_self n)).1

theorem to_string_digits_only (n : Nat) : ∀ c ∈ to_string n, is_digit c = true :=
  (to_string_digits_spec (n + 1) n (Nat.lt_succ_self n)).2.1

theorem to_string_ne_nil (n : Nat) : to_string n ≠ [] :=
  (to_string_digits_spec (n + 1) n (Nat.lt_succ_self n)).2.2

theorem is_digit_not_space (c : Char) (h : is_digit c = true) : is_space c = false := by
  simp only [is_digit, decide_eq_true_eq] at h
  have h1 : c ≠ ' ' := by rintro rfl; revert h; decide
  have h2 : c ≠ '\t' := by rintro rfl; revert h; decide
  have h3 : c ≠ '\n' := by rintro rfl; revert h; decide
  have h4 : c ≠ Char.ofNat 11 := by rintro rfl; revert h; decide
  have h5 : c ≠ Char.ofNat 12 := by rintro rfl; revert h; decide
  have h6 : c ≠ '\r' := by rintro rfl; revert h; decide
  simp [is_space, h1, h2, h3, h4, h5, h6]

theorem is_digit_not_sign (c : Char) (h : is_digit c = true) : c ≠ '-' ∧ c ≠ '+' := by
  simp only [is_digit, decide_eq_true_eq] at h
  constructor <;> (rintro rfl; revert h; decide)

/-- The routine `stoi` on a string made only of digits returns their value. -/
theorem stoi_digits (s : List Char) (hne : s ≠ []) (hd : ∀ c ∈ s, is_digit c = true)
    (hv : digits_value s ≤ 2147483647) : stoi s = some (digits_value s : Int) := by
  obtain ⟨c, cs, rfl⟩ := List.exists_cons_of_ne_nil hne
  have hc := hd c (by simp)
  have hsp := is_digit_not_space c hc
  have hsg := is_digit_not_sign c hc
  have htw : List.takeWhile is_digit (c :: cs) = c :: cs :=
    List.takeWhile_eq_self_iff.mpr hd
  have hdw : List.dropWhile is_space (c :: cs) = c :: cs := by
    simp [List.dropWhile, hsp]
  simp only [stoi, hdw, List.head?_cons, Option.some.injEq, hsg.1, hsg.2, or_self, if_false, htw]
  simp only [reduceCtorEq, if_false]
  have h1 : ¬ ((digits_value (c :: cs) : Int) < -2147483648 ∨
      (digits_value (c :: cs) : Int) > 2147483647) := by
    omega
  rw [if_neg h1]

theorem stoi_to_string (n : Nat) (h : n ≤ 2147483647) : stoi (to_string n) = some (n : Int) := by
  have := stoi_digits (to_string n) (to_string_ne_nil n) (to_string_digits_only n)
    (by rw [to_string_value]; exact h)
  rw [to_string_value] at this
  exact this

/-! ### Field splitting and address validation -/

theorem split_at_ne_nil (sep : Char) : ∀ s : List Char, split_at sep s ≠ []
  | [] => by simp [split_at]
  | c :: cs => by
    unfold split_at
    by_cases h : c = sep
    · simp [h]
    · simp only [h, if_false]
      split <;> simp

theorem split_at_cons_of_ne (sep c : Char) (cs f : List Char) (fs : List (List Char))
    (h : c ≠ sep) (hs : split_at sep cs = f :: fs) :
    split_at sep (c :: cs) = (c :: f) :: fs := by
  simp [split_at, h, hs]

theorem split_at_no_sep (sep : Char) : ∀ s : List Char, sep ∉ s → split_at sep s = [s]
  | [], _ => rfl
  | c :: cs, h => by
    have hc : c ≠ sep := fun e => h (by simp [e])
    have hcs : sep ∉ cs := fun e => h (by simp [e])
    exact split_at_cons_of_ne sep c cs cs [] hc (split_at_no_sep sep cs hcs)

theorem split_at_append (sep : Char) (rest : List Char) :
    ∀ s : List Char, sep ∉ s → split_at sep (s ++ sep :: rest) = s :: split_at sep rest
  | [], _ => by simp [split_at]
  | c :: cs, h => by
    have hc : c ≠ sep := fun e => h (by simp [e])
    have hcs : sep ∉ cs := fun e => h (by simp [e])
    rw [List.cons_append]
    exact split_at_cons_of_ne sep c _ cs _ hc (split_at_append sep rest cs hcs)

theorem mem_of_split_at (sep : Char) (P : Char → Prop) :
    ∀ s : List Char, (∀ f ∈ split_at sep s, ∀ c ∈ f, P c) → ∀ c ∈ s, c = sep ∨ P c
  | [], _, c, hc => by simp at hc
  | d :: ds, h, c, hc => by
    unfold split_at at h
    by_cases hd : d = sep
    · simp only [hd, if_true, List.mem_cons] at h
      rcases List.mem_cons.mp hc with rfl | hc
      · exact Or.inl hd
      · exact mem_of_split_at sep P ds (fun f hf => h f (Or.inr hf)) c hc
    · simp only [hd, if_false] at h
      cases hs : split_at sep ds with
      | nil => exact absurd hs (split_at_ne_nil sep ds)
      | cons f fs =>
        rw [hs] at h
        simp only [List.mem_cons, forall_eq_or_imp] at h
        rcases List.mem_cons.mp hc with rfl | hc
        · exact Or.inr (h.1.1)
        · refine mem_of_split_at sep P ds ?_ c hc
          intro g hg x hx
          rw [hs] at hg
          rcases List.mem_cons.mp hg with rfl | hg
          · exact h.1.2 x hx
          · exact h.2 g hg x hx

/-- A string accepted by `inet_pton` is not empty and consists of digits and dots. -/
theorem inet_pton_chars (ip : List Char) (h : inet_pton ip = true) :
    ip ≠ [] ∧ ∀ c ∈ ip, c = '.' ∨ is_digit c = true := by
  simp only [inet_pton, Bool.and_eq_true, decide_eq_true_eq, List.all_eq_true] at h
  constructor
  · rintro rfl
    simp [split_at] at h
  · apply mem_of_split_at '.' (fun c => is_digit c = true)
    intro f hf c hc
    have := h.2 f hf
    simp only [ipv4_field, Bool.and_eq_true, List.all_eq_true] at this
    exact this.1.1.2 c hc

/-- A string accepted by `inet_pton` holds no zero byte: it is its own C string. -/
theorem c_str_valid (ip : List Char) (h : inet_pton ip = true) : c_str ip = ip := by
  unfold c_str
  rw [List.takeWhile_eq_self_iff]
  intro c hc
  rcases (inet_pton_chars ip h).2 c hc with rfl | hd
  · decide
  · simp only [is_digit, decide_eq_true_eq] at hd
    apply decide_eq_true
    intro e
    rw [e] at hd
    revert hd
    decide

theorem inet_pton_no_bar (ip : List Char) (h : inet_pton ip = true) : '|' ∉ ip := by
  intro hm
  rcases (inet_pton_chars ip h).2 '|' hm with h1 | h1
  · revert h1; decide
  · revert h1; decide

theorem to_string_no_bar (n : Nat) : '|' ∉ to_string n := by
  intro hm
  have := to_string_digits_only n '|' hm
  revert this; decide

/-! ### Join-code round trip -/

theorem payload_bytes (pub lan : List Char) (port : Nat) (hpub : inet_pton pub = true)
    (hlan : inet_pton lan = true) : ∀ c ∈ join_payload pub lan port, c.toNat < 256 := by
  have hdig : ∀ c : Char, is_digit c = true → c.toNat < 256 := by
    intro c hc
    simp only [is_digit, decide_eq_true_eq] at hc
    omega
  have hip : ∀ ip : List Char, inet_pton ip = true → ∀ c ∈ ip, c.toNat < 256 := by
    intro ip h c hc
    rcases (inet_pton_chars ip h).2 c hc with rfl | hd
    · decide
    · exact hdig c hd
  intro c hc
  simp only [join_payload, List.mem_append] at hc
  rcases hc with ((((hc | hc) | hc) | hc) | hc) | hc
  · revert c; decide
  · exact hip pub hpub c hc
  · revert c; decide
  · exact hip lan hlan c hc
  · revert c; decide
  · exact hdig c (to_string_digits_only port c hc)

theorem map_ofNat_toNat (s : List Char) : (s.map Char.toNat).map Char.ofNat = s := by
  induction s with
  | nil => rfl
  | cons c cs ih => simp [ih]

/-- Deciphering a key with the password it was made with gives the payload back. -/
theorem decipher_make_join_key (pub lan password : List Char) (port : Nat)
    (hpw : password ≠ []) (hpub : inet_pton pub = true) (hlan : inet_pton lan = true) :
    ∃ key, make_join_key pub lan port password = .ok key ∧
      decipher key password = .ok (join_payload pub lan port) := by
  have hb : ∀ b ∈ (join_payload pub lan port).map Char.toNat, b < 256 := by
    intro b hb
    obtain ⟨c, hc, rfl⟩ := List.mem_map.mp hb
    exact payload_bytes pub lan port hpub hlan c hc
  obtain ⟨xored, h1, h2⟩ := xor_password_twice password hpw _ 0 hb
  refine ⟨base64.encode xored, ?_, ?_⟩
  · simp [make_join_key, h1]
  · have hx := xor_password_bytes password _ 0 xored h1
    simp only [decipher, base64.decode_encode xored hx, h2, map_ofNat_toNat]

theorem join_payload_split (pub lan : List Char) (port : Nat) (hpub : inet_pton pub = true)
    (hlan : inet_pton lan = true) :
    split_at '|' (join_payload pub lan port) = ["v2".toList, pub, lan, to_string port] := by
  have e : join_payload pub lan port
      = "v2".toList ++ '|' :: (pub ++ '|' :: (lan ++ '|' :: to_string port)) := by
    simp [join_payload]
  rw [e, split_at_append '|' _ _ (by decide),
    split_at_append '|' _ _ (inet_pton_no_bar pub hpub),
    split_at_append '|' _ _ (inet_pton_no_bar lan hlan),
    split_at_no_sep '|' _ (to_string_no_bar port)]

/-- Parsing the payload that `make_join_key` builds. -/
theorem parse_join_payload (pub lan : List Char) (port : Nat) (hpub : inet_pton pub = true)
    (hlan : inet_pton lan = true) (hp1 : 1 ≤ port) (hp2 : port ≤ 65535) :
    parse_payload (join_payload pub lan port) =
      some (if pub = lan then [(pub, port)] else [(pub, port), (lan, port)]) := by
  have hpre : "v2|".toList.isPrefixOf (join_payload pub lan port) = true := by
    simp [join_payload, List.isPrefixOf]
  have hst := stoi_to_string port (by omega)
  have hr : ¬ ((port : Int) ≤ 0 ∨ (port : Int) > 65535) := by omega
  have hcast : ((port : Int) % 65536).toNat = port := by omega
  have hpn := (inet_pton_chars pub hpub).1
  have hln := (inet_pton_chars lan hlan).1
  have hpc := c_str_valid pub hpub
  have hlc := c_str_valid lan hlan
  simp only [parse_payload, parse_endpoints, hpre, if_true, join_payload_split pub lan port hpub hlan,
    List.length_cons, List.length_nil, List.getD_cons_succ, List.getD_cons_zero, hst]
  simp only [ne_eq, not_true_eq_false, if_false, hr, add_endpoint, hpn, hpc, hlc, hpub, hcast,
    List.any_nil, List.nil_append, hln, hlan, List.any_cons, Bool.or_false, decide_eq_true_eq]
  by_cases h : pub = lan
  · subst h; simp
  · have h2 : ¬ lan = pub := fun e => h e.symm
    simp [h, h2]

/-- Join-code round trip for every non-empty password. -/
theorem join_key_round_trip (pub lan password : List Char) (port : Nat)
    (hpw : password ≠ []) (hpub : inet_pton pub = true) (hlan : inet_pton lan = true)
    (hp1 : 1 ≤ port) (hp2 : port ≤ 65535) :
    ∃ key, make_join_key pub lan port password = .ok key ∧
      parse_join_key key password =
        .ok (some (if pub = lan then [(pub, port)] else [(pub, port), (lan, port)])) := by
  obtain ⟨key, h1, h2⟩ := decipher_make_join_key pub lan password port hpw hpub hlan
  refine ⟨key, h1, ?_⟩
  simp [parse_join_key, h2, parse_join_payload pub lan port hpub hlan hp1 hp2]

/-- Claim C1 at the empty password: `make_join_key` computes `i % 0` in the first pass
of its loop and produces no key, whatever the addresses and the port. -/
theorem make_join_key_empty_password (pub lan : List Char) (port : Nat) :
    make_join_key pub lan port [] = .error fault.division_by_zero := by
  simp [make_join_key, join_payload, xor_password]

/-! ### Decimal strings are canonical -/

theorem takeWhile_length_le (p : Char → Bool) :
    ∀ l : List Char, (l.takeWhile p).length ≤ l.length
  | [] => by simp
  | a :: l => by
    by_cases h : p a
    · simp only [List.takeWhile_cons, h, if_true, List.length_cons]
      exact Nat.succ_le_succ (takeWhile_length_le p l)
    · simp [List.takeWhile_cons, h]

theorem takeWhile_full (p : Char → Bool) :
    ∀ l : List Char, (l.takeWhile p).length = l.length → l.takeWhile p = l
  | [], _ => rfl
  | a :: l, h => by
    by_cases ha : p a
    · simp only [List.takeWhile_cons, ha, if_true, List.length_cons, Nat.add_right_cancel_iff] at h ⊢
      rw [takeWhile_full p l h]
    · simp [List.takeWhile_cons, ha] at h

theorem dropWhile_length_le (p : Char → Bool) :
    ∀ l : List Char, (l.dropWhile p).length ≤ l.length
  | [] => by simp
  | a :: l => by
    by_cases h : p a
    · simp only [List.dropWhile_cons, h, if_true, List.length_cons]
      exact Nat.le_succ_of_le (dropWhile_length_le p l)
    · simp [List.dropWhile_cons, h]

theorem dropWhile_full (p : Char → Bool) (l : List Char)
    (h : (l.dropWhile p).length = l.length) : l.dropWhile p = l := by
  cases l with
  | nil => rfl
  | cons a l =>
    by_cases ha : p a
    · simp only [List.dropWhile_cons, ha, if_true, List.length_cons] at h
      have := dropWhile_length_le p l
      omega
    · simp [List.dropWhile_cons, ha]

theorem digits_value_lt : ∀ (n : Nat) (ds : List Char), ds.length = n →
    (∀ c ∈ ds, is_digit c = true) → digits_value ds < 10 ^ n
  | 0, ds, hl, _ => by
    have : ds = [] := List.length_eq_zero.mp hl
    subst this
    simp [digits_value]
  | n + 1, ds, hl, hd => by
    rcases List.eq_nil_or_concat ds with rfl | ⟨L, b, rfl⟩
    · simp at hl
    · rw [List.concat_eq_append] at hl hd ⊢
      have hL : L.length = n := by simpa using hl
      have ih := digits_value_lt n L hL (fun c hc => hd c (by simp [hc]))
      have hb := hd b (by simp)
      simp only [is_digit, decide_eq_true_eq] at hb
      rw [digits_value_snoc, pow_succ]
      omega

theorem char_eq_of_toNat (c d : Char) (h : c.toNat = d.toNat) : c = d := by
  rw [← Char.ofNat_toNat c, ← Char.ofNat_toNat d, h]

/-- Two digit strings of the same length and the same value are equal. -/
theorem digits_value_inj : ∀ (n : Nat) (a b : List Char), a.length = n → b.length = n →
    (∀ c ∈ a, is_digit c = true) → (∀ c ∈ b, is_digit c = true) →
    digits_value a = digits_value b → a = b
  | 0, a, b, ha, hb, _, _, _ => by
    rw [List.length_eq_zero.mp ha, List.length_eq_zero.mp hb]
  | n + 1, a, b, ha, hb, hda, hdb, hv => by
    rcases List.eq_nil_or_concat a with rfl | ⟨A, x, rfl⟩
    · simp at ha
    rcases List.eq_nil_or_concat b with rfl | ⟨B, y, rfl⟩
    · simp at hb
    simp only [List.concat_eq_append] at ha hb hda hdb hv ⊢
    have hA : A.length = n := by simpa using ha
    have hB : B.length = n := by simpa using hb
    have hx := hda x (by simp)
    have hy := hdb y (by simp)
    simp only [is_digit, decide_eq_true_eq] at hx hy
    rw [digits_value_snoc, digits_value_snoc] at hv
    have h1 : digits_value A = digits_value B := by omega
    have h2 : x.toNat = y.toNat := by omega
    rw [digits_value_inj n A B hA hB (fun c hc => hda c (by simp [hc]))
      (fun c hc => hdb c (by simp [hc])) h1, char_eq_of_toNat x y h2]

theorem to_string_digits_lower :
    ∀ (fuel n : Nat), n < fuel → 1 ≤ n →
      10 ^ ((to_string_digits fuel n).length - 1) ≤ n
  | 0, n, h, _ => absurd h (Nat.not_lt_zero n)
  | fuel + 1, n, h, h1 => by
    unfold to_string_digits
    by_cases h10 : n < 10
    · simp [h10]; exact h1
    · simp only [h10, if_false, List.length_append, List.length_singleton, Nat.add_sub_cancel]
      have hlt : n / 10 < fuel := by omega
      have ih := to_string_digits_lower fuel (n / 10) hlt (by omega)
      have hne := (to_string_digits_spec fuel (n / 10) hlt).2.2
      have hpos : 0 < (to_string_digits fuel (n / 10)).length :=
        List.length_pos.mpr hne
      have e : (to_string_digits fuel (n / 10)).length
          = ((to_string_digits fuel (n / 10)).length - 1) + 1 := by omega
      rw [e, pow_succ]
      omega

theorem to_string_lower (n : Nat) (h : 1 ≤ n) : 10 ^ ((to_string n).length - 1) ≤ n :=
  to_string_digits_lower (n + 1) n (Nat.lt_succ_self n) h

/-- What a successful `stoi` has read. -/
theorem stoi_some (x : List Char) (v : Int) (h : stoi x = some v) :
    ∃ s2 ds : List Char, s2.length ≤ x.length ∧ ds = s2.takeWhile is_digit ∧ ds ≠ [] ∧
      (s2.length = x.length → s2 = x) ∧
      (v = (digits_value ds : Int) ∨ v = -(digits_value ds : Int)) := by
  simp only [stoi] at h
  generalize hs1 : List.dropWhile is_space x = s1 at h
  have hl1 : s1.length ≤ x.length := by rw [← hs1]; exact dropWhile_length_le is_space x
  have hf1 : s1.length = x.length → s1 = x := by
    intro e; rw [← hs1] at e ⊢; exact dropWhile_full is_space x e
  generalize hs2 : (if s1.head? = some '-' ∨ s1.head? = some '+' then s1.tail else s1) = s2 at h
  have hl2 : s2.length ≤ s1.length ∧ (s2.length = s1.length → s2 = s1) := by
    rw [← hs2]
    split
    · rename_i hc
      have hne : s1 ≠ [] := by
        rintro rfl; simp at hc
      have := List.length_pos.mpr hne
      simp only [List.length_tail]
      constructor
      · omega
      · intro e; omega
    · exact ⟨le_refl _, fun _ => rfl⟩
  refine ⟨s2, s2.takeWhile is_digit, by omega, rfl, ?_, ?_, ?_⟩
  · intro e
    rw [e] at h
    simp at h
  · intro e
    have e1 : s2 = s1 := hl2.2 (by omega)
    rw [e1]; exact hf1 (by omega)
  · split_ifs at h <;> first
      | (cases h; done)
      | (simp only [Option.some.injEq] at h; rw [← h]; exact Or.inr rfl)
      | (simp only [Option.some.injEq] at h; rw [← h]; exact Or.inl rfl)

/-- A string as long as the decimal form of `p` that `stoi` converts to `p` is that
decimal form. -/
theorem stoi_canonical (x : List Char) (p : Nat) (hp : 1 ≤ p)
    (hs : stoi x = some (p : Int)) (hl : x.length = (to_string p).length) :
    x = to_string p := by
  obtain ⟨s2, ds, hl2, hds, hne, hfull, hv⟩ := stoi_some x p hs
  have hval : digits_value ds = p := by
    rcases hv with hv | hv
    · exact_mod_cast hv.symm
    · omega
  have hdig : ∀ c ∈ ds, is_digit c = true := by
    intro c hc; rw [hds] at hc; exact List.mem_takeWhile_imp hc
  have hlt := digits_value_lt _ ds rfl hdig
  rw [hval] at hlt
  have hlow := to_string_lower p hp
  have hlen1 : ds.length ≤ s2.length := by rw [hds]; exact takeWhile_length_le is_digit s2
  have hpos : 0 < (to_string p).length := List.length_pos.mpr (to_string_ne_nil p)
  have hk : (to_string p).length ≤ ds.length := by
    by_contra hcon
    have hlt2 : ds.length ≤ (to_string p).length - 1 := by omega
    have := Nat.pow_le_pow_right (show 0 < 10 by decide) hlt2
    omega
  have e1 : s2 = x := hfull (by omega)
  have e2 : ds = s2 := by rw [hds]; exact takeWhile_full is_digit s2 (by rw [← hds]; omega)
  rw [e1] at e2
  rw [e2] at hdig hval
  exact digits_value_inj _ x (to_string p) rfl hl.symm hdig (to_string_digits_only p)
    (by rw [hval, to_string_value])

/-! ### What a successful parse has read -/

theorem split_at_single (sep : Char) :
    ∀ (s f : List Char), split_at sep s = [f] → s = f
  | [], f, h => by
    simp only [split_at, List.cons.injEq, and_true] at h
    exact h
  | c :: cs, f, h => by
    by_cases hc : c = sep
    · simp only [split_at, hc, if_true, List.cons.injEq] at h
      exact absurd h.2 (split_at_ne_nil sep cs)
    · cases hs : split_at sep cs with
      | nil => exact absurd hs (split_at_ne_nil sep cs)
      | cons g gs =>
        rw [split_at_cons_of_ne sep c cs g gs hc hs] at h
        simp only [List.cons.injEq] at h
        obtain ⟨rfl, rfl⟩ := h
        rw [split_at_single sep cs g hs]

theorem split_at_cons_cons (sep : Char) :
    ∀ (s f g : List Char) (gs : List (List Char)), split_at sep s = f :: g :: gs →
      ∃ rest, s = f ++ sep :: rest ∧ split_at sep rest = g :: gs
  | [], f, g, gs, h => by simp [split_at] at h
  | c :: cs, f, g, gs, h => by
    by_cases hc : c = sep
    · simp only [split_at, hc, if_true, List.cons.injEq] at h
      obtain ⟨rfl, h2⟩ := h
      exact ⟨cs, by simp [hc], h2⟩
    · cases hs : split_at sep cs with
      | nil => exact absurd hs (split_at_ne_nil sep cs)
      | cons f1 fs =>
        rw [split_at_cons_of_ne sep c cs f1 fs hc hs] at h
        simp only [List.cons.injEq] at h
        obtain ⟨rfl, rfl⟩ := h
        obtain ⟨rest, e, h2⟩ := split_at_cons_cons sep cs f1 g gs hs
        exact ⟨rest, by rw [e]; rfl, h2⟩

theorem split_at_four (sep : Char) (s a b c d : List Char)
    (h : split_at sep s = [a, b, c, d]) :
    s = a ++ sep :: (b ++ sep :: (c ++ sep :: d)) := by
  obtain ⟨r1, e1, h1⟩ := split_at_cons_cons sep s a b _ h
  obtain ⟨r2, e2, h2⟩ := split_at_cons_cons sep r1 b c _ h1
  obtain ⟨r3, e3, h3⟩ := split_at_cons_cons sep r2 c d _ h2
  rw [e1, e2, e3, split_at_single sep r3 d h3]

theorem add_endpoint_cases (endpoints : List endpoint) (port : Int) (ip : List Char) :
    add_endpoint endpoints port ip = endpoints ∨
      (add_endpoint endpoints port ip = endpoints ++ [(ip, (port % 65536).toNat)] ∧
        (ip, (port % 65536).toNat) ∉ endpoints) := by
  by_cases h1 : ip = []
  · left; simp only [add_endpoint, h1, if_true]
  by_cases h2 : inet_pton (c_str ip) = false
  · left; simp only [add_endpoint, h1, h2, if_true, if_false]
  by_cases h3 : endpoints.any (fun e => decide (e.1 = ip ∧ e.2 = (port % 65536).toNat)) = true
  · left
    have hm : (ip, (port % 65536).toNat) ∈ endpoints := by
      rw [List.any_eq_true] at h3
      obtain ⟨⟨a, b⟩, hm, hc⟩ := h3
      simp only [decide_eq_true_eq] at hc
      obtain ⟨rfl, rfl⟩ := hc
      exact hm
    simp [add_endpoint, h1, h2, hm]
  · right
    refine ⟨by simp only [add_endpoint, h1, h2, h3, if_false]; simp, ?_⟩
    intro hm
    apply h3
    rw [List.any_eq_true]
    exact ⟨_, hm, by simp⟩

theorem length_four (l : List (List Char)) (h : l.length = 4) :
    ∃ a b c d, l = [a, b, c, d] := by
  match l, h with
  | [a, b, c, d], _ => exact ⟨a, b, c, d, rfl⟩

theorem split_at_v2 (payload : List Char) (hpre : "v2|".toList.isPrefixOf payload = true) :
    ∃ r, payload = "v2".toList ++ '|' :: r ∧
      split_at '|' payload = "v2".toList :: split_at '|' r := by
  have e : "v2|".toList = ['v', '2', '|'] := rfl
  rw [e] at hpre
  cases payload with
  | nil => simp [List.isPrefixOf] at hpre
  | cons a t =>
    cases t with
    | nil => simp [List.isPrefixOf] at hpre
    | cons b t =>
      cases t with
      | nil => simp [List.isPrefixOf] at hpre
      | cons c r =>
        simp only [List.isPrefixOf, Bool.and_eq_true, beq_iff_eq, Bool.and_true] at hpre
        obtain ⟨rfl, rfl, rfl⟩ := hpre
        exact ⟨r, rfl, split_at_append '|' r "v2".toList (by decide)⟩

/-- A successful parse of a `v2|` payload: the four fields and the endpoints kept. -/
theorem parse_payload_v2 (payload : List Char) (eps : List endpoint)
    (hpre : "v2|".toList.isPrefixOf payload = true) (h : parse_payload payload = some eps) :
    ∃ (x1 x2 x3 : List Char) (P : Nat), split_at '|' payload = ["v2".toList, x1, x2, x3] ∧
      stoi x3 = some (P : Int) ∧ 1 ≤ P ∧ P ≤ 65535 ∧
      (eps = [(x1, P)] ∨ eps = [(x2, P)] ∨ (eps = [(x1, P), (x2, P)] ∧ x1 ≠ x2)) := by
  simp only [parse_payload, parse_endpoints, hpre, if_true] at h
  by_cases hlen : (split_at '|' payload).length = 4
  swap
  · simp [hlen] at h
  obtain ⟨ver, x1, x2, x3, hparts⟩ := length_four _ hlen
  obtain ⟨r, _, hv⟩ := split_at_v2 payload hpre
  have hver : ver = "v2".toList := by
    rw [hparts] at hv
    simp only [List.cons.injEq] at hv
    exact hv.1
  subst hver
  simp only [hparts, List.length_cons, List.length_nil, ne_eq, not_true_eq_false, if_false,
    List.getD_cons_succ, List.getD_cons_zero] at h
  cases hst : stoi x3 with
  | none => simp [hst] at h
  | some port =>
    simp only [hst] at h
    by_cases hr : port ≤ 0 ∨ port > 65535
    · simp [hr] at h
    simp only [hr, if_false] at h
    have hP : ((port % 65536).toNat : Int) = port := by omega
    refine ⟨x1, x2, x3, (port % 65536).toNat, hparts, by rw [hP, hst], by omega, by omega, ?_⟩
    split at h
    · cases h
    rename_i hne
    simp only [Option.some.injEq] at h
    rcases add_endpoint_cases [] port x1 with e1 | ⟨e1, _⟩
    · rw [e1] at h hne
      rcases add_endpoint_cases [] port x2 with e2 | ⟨e2, _⟩
      · exact absurd e2 hne
      · rw [e2] at h
        exact Or.inr (Or.inl h.symm)
    · rw [e1] at h
      rcases add_endpoint_cases ([] ++ [(x1, (port % 65536).toNat)]) port x2 with e2 | ⟨e2, hn⟩
      · rw [e2] at h
        exact Or.inl h.symm
      · rw [e2] at h
        refine Or.inr (Or.inr ⟨h.symm, ?_⟩)
        intro e
        apply hn
        simp [e]

/-- A successful parse of a legacy payload yields a single endpoint. -/
theorem parse_payload_legacy (payload : List Char) (eps : List endpoint)
    (hpre : ¬ "v2|".toList.isPrefixOf payload = true) (h : parse_payload payload = some eps) :
    ∃ (ip : List Char) (P : Nat), eps = [(ip, P)] ∧ 1 ≤ P ∧ P ≤ 65535 := by
  unfold parse_payload at h
  cases he : parse_endpoints payload with
  | none => simp [he] at h
  | some l =>
    simp only [he] at h
    split at h
    · cases h
    simp only [Option.some.injEq] at h
    subst h
    unfold parse_endpoints at he
    rw [if_neg hpre] at he
    split at he
    · cases he
    split at he
    · cases he
    split at he
    · cases he
    rename_i hr
    simp only [Option.some.injEq] at he
    exact ⟨_, _, he.symm, by omega, by omega⟩

/-! ### Decoded endpoint lists -/

theorem parse_payload_well_formed (payload : List Char) (eps : List endpoint)
    (h : parse_payload payload = some eps) :
    eps ≠ [] ∧ eps.Nodup ∧ ∀ e ∈ eps, 1 ≤ e.2 ∧ e.2 ≤ 65535 := by
  by_cases hpre : "v2|".toList.isPrefixOf payload = true
  · obtain ⟨x1, x2, x3, P, _, _, h1, h2, hc⟩ := parse_payload_v2 payload eps hpre h
    rcases hc with rfl | rfl | ⟨rfl, hne⟩
    · simp [h1, h2]
    · simp [h1, h2]
    · simp [h1, h2, hne]
  · obtain ⟨ip, P, rfl, h1, h2⟩ := parse_payload_legacy payload eps hpre h
    simp [h1, h2]

theorem parse_join_key_ok (key password : List Char) (r : Option (List endpoint))
    (h : parse_join_key key password = .ok r) :
    ∃ payload, decipher key password = .ok payload ∧ parse_payload payload = r := by
  unfold parse_join_key at h
  split at h
  · cases h
  · rename_i payload hd
    simp only [Except.ok.injEq] at h
    exact ⟨payload, hd, h⟩

/-- Claim C10: whenever `parse_join_key` succeeds, the endpoint list it returns is not
empty, has no duplicate entry and only ports in 1..65535; for a `v2|` payload with
fields `v2|pub|lan|port` it is `[(pub,port)]`, `[(lan,port)]` or
`[(pub,port),(lan,port)]`, so it has at most two entries, the public one first. -/
theorem parse_join_key_well_formed (key password : List Char) (eps : List endpoint)
    (h : parse_join_key key password = .ok (some eps)) :
    eps ≠ [] ∧ eps.Nodup ∧ (∀ e ∈ eps, 1 ≤ e.2 ∧ e.2 ≤ 65535) ∧
      ∃ payload, decipher key password = .ok payload ∧
        ("v2|".toList.isPrefixOf payload = true →
          ∃ (pub lan portf : List Char) (port : Nat),
            split_at '|' payload = ["v2".toList, pub, lan, portf] ∧
            stoi portf = some (port : Int) ∧ eps.length ≤ 2 ∧
            (eps = [(pub, port)] ∨ eps = [(lan, port)] ∨ eps = [(pub, port), (lan, port)])) := by
  obtain ⟨payload, hd, hp⟩ := parse_join_key_ok key password _ h
  obtain ⟨h1, h2, h3⟩ := parse_payload_well_formed payload eps hp
  refine ⟨h1, h2, h3, payload, hd, ?_⟩
  intro hpre
  obtain ⟨x1, x2, x3, P, hs, hst, _, _, hc⟩ := parse_payload_v2 payload eps hpre hp
  refine ⟨x1, x2, x3, P, hs, hst, ?_, ?_⟩
  · rcases hc with rfl | rfl | ⟨rfl, _⟩ <;> simp
  · rcases hc with rfl | rfl | ⟨rfl, _⟩ <;> simp

theorem parse_join_key_well_formed_witness :
    parse_join_key "EF0EUkZTWgIcBU5XX1ZTRlFaAE4FClZfSA==".toList "foxchat1212".toList
        = .ok (some [("1.2.3.4".toList, 48000), ("10.0.0.1".toList, 48000)]) ∧
      [("1.2.3.4".toList, 48000), ("10.0.0.1".toList, 48000)] ≠ ([] : List endpoint) :=
  ⟨by decide, (parse_join_key_well_formed "EF0EUkZTWgIcBU5XX1ZTRlFaAE4FClZfSA==".toList
    "foxchat1212".toList [("1.2.3.4".toList, 48000), ("10.0.0.1".toList, 48000)]
    (by decide)).1⟩

/-! ### Decoding with another password -/

theorem xor_password_length (password : List Char) :
    ∀ (data : List Nat) (i : Nat) (out : List Nat),
      xor_password password i data = .ok out → out.length = data.length
  | [], i, out, h => by
    simp only [xor_password, Except.ok.injEq] at h
    subst h; rfl
  | b :: bs, i, out, h => by
    simp only [xor_password] at h
    split at h
    · cases h
    · split at h
      · cases h
      · rename_i rest hrest
        simp only [Except.ok.injEq] at h
        subst h
        simp [xor_password_length password bs (i + 1) rest hrest]

theorem xor_key_eq (c k1 k2 : Nat) (h : ((c ^^^ k1) % 256 ^^^ k2) % 256 = c) :
    k1 % 256 = k2 % 256 := by
  apply Nat.eq_of_testBit_eq
  intro j
  have hj := congrArg (fun n => Nat.testBit n j) h
  have h256 : (256 : Nat) = 2 ^ 8 := rfl
  simp only [h256, Nat.testBit_mod_two_pow, Nat.testBit_xor] at hj ⊢
  revert hj
  cases decide (j < 8) <;> cases c.testBit j <;> cases k1.testBit j <;> cases k2.testBit j <;> simp

/-- If enciphering with one password and deciphering with another gives the bytes
back, the two key streams agree on every position of the data. -/
theorem xor_streams_agree (p1 p2 : List Char) :
    ∀ (data : List Nat) (i : Nat) (out : List Nat),
      xor_password p1 i data = .ok out → xor_password p2 i out = .ok data →
      ∀ j, j < data.length → key_byte p1 (i + j) % 256 = key_byte p2 (i + j) % 256
  | [], _, _, _, _, j, hj => absurd hj (Nat.not_lt_zero j)
  | b :: bs, i, out, h1, h2, j, hj => by
    simp only [xor_password] at h1
    split at h1
    · cases h1
    split at h1
    · cases h1
    rename_i rest hrest
    simp only [Except.ok.injEq] at h1
    subst h1
    simp only [xor_password] at h2
    split at h2
    · cases h2
    split at h2
    · cases h2
    rename_i rest2 hrest2
    simp only [Except.ok.injEq, List.cons.injEq] at h2
    obtain ⟨hb, rfl⟩ := h2
    cases j with
    | zero => exact xor_key_eq b _ _ hb
    | succ j =>
      have := xor_streams_agree p1 p2 rest2 (i + 1) rest hrest hrest2 j
        (by simpa using hj)
      have e : i + (j + 1) = i + 1 + j := by omega
      rw [e]; exact this

set_option maxRecDepth 8000 in
theorem toNat_ofNat_byte : ∀ b : Fin 256, (Char.ofNat b.val).toNat = b.val := by decide

theorem map_toNat_ofNat (bs : List Nat) (h : ∀ b ∈ bs, b < 256) :
    (bs.map Char.ofNat).map Char.toNat = bs := by
  induction bs with
  | nil => rfl
  | cons b bs ih =>
    have hb := toNat_ofNat_byte ⟨b, h b (by simp)⟩
    simp only at hb
    simp only [List.map_cons, hb, List.cons.injEq, true_and]
    exact ih (fun x hx => h x (by simp [hx]))

/-- Claim C2 as amended: when the public and the LAN address differ and the key
streams of the two passwords differ somewhere within the payload, decoding with the
other password does not return the original endpoints. -/
theorem wrong_password_detected (pub lan p1 p2 : List Char) (port : Nat)
    (hp1 : p1 ≠ []) (hpub : inet_pton pub = true) (hlan : inet_pton lan = true)
    (hport1 : 1 ≤ port) (hport2 : port ≤ 65535) (hne : pub ≠ lan)
    (hdiff : ∃ i, i < (join_payload pub lan port).length ∧
      key_byte p1 i % 256 ≠ key_byte p2 i % 256) :
    ∃ key, make_join_key pub lan port p1 = .ok key ∧
      parse_join_key key p1 = .ok (some [(pub, port), (lan, port)]) ∧
      parse_join_key key p2 ≠ parse_join_key key p1 := by
  have hb : ∀ b ∈ (join_payload pub lan port).map Char.toNat, b < 256 := by
    intro b hb
    obtain ⟨c, hc, rfl⟩ := List.mem_map.mp hb
    exact payload_bytes pub lan port hpub hlan c hc
  obtain ⟨xored, hx1, hx2⟩ := xor_password_twice p1 hp1 _ 0 hb
  have hxb := xor_password_bytes p1 _ 0 xored hx1
  have hkey : make_join_key pub lan port p1 = .ok (base64.encode xored) := by
    simp [make_join_key, hx1]
  have hdec1 : decipher (base64.encode xored) p1 = .ok (join_payload pub lan port) := by
    simp only [decipher, base64.decode_encode xored hxb, hx2, map_ofNat_toNat]
  have hparse1 : parse_join_key (base64.encode xored) p1
      = .ok (some [(pub, port), (lan, port)]) := by
    simp [parse_join_key, hdec1, parse_join_payload pub lan port hpub hlan hport1 hport2, hne]
  refine ⟨base64.encode xored, hkey, hparse1, ?_⟩
  rw [hparse1]
  intro hparse2
  obtain ⟨payload2, hd2, hpp⟩ := parse_join_key_ok _ p2 _ hparse2
  simp only [decipher, base64.decode_encode xored hxb] at hd2
  split at hd2
  · cases hd2
  rename_i bytes2 hx3
  simp only [Except.ok.injEq] at hd2
  subst hd2
  have hlen2 : bytes2.length = (join_payload pub lan port).length := by
    rw [xor_password_length p2 _ 0 _ hx3, xor_password_length p1 _ 0 _ hx1, List.length_map]
  -- the payload read back is the original payload
  have hsame : bytes2.map Char.ofNat = join_payload pub lan port := by
    by_cases hpre : "v2|".toList.isPrefixOf (bytes2.map Char.ofNat) = true
    · obtain ⟨x1, x2, x3, P, hs, hst, hP1, _, hc⟩ := parse_payload_v2 _ _ hpre hpp
      rcases hc with hc | hc | ⟨hc, _⟩
      · simp at hc
      · simp at hc
      · simp only [List.cons.injEq, Prod.mk.injEq, and_true] at hc
        obtain ⟨⟨rfl, rfl⟩, ⟨rfl, _⟩⟩ := hc
        have e := split_at_four '|' _ _ _ _ _ hs
        have hl3 : x3.length = (to_string port).length := by
          have := congrArg List.length e
          rw [List.length_map, hlen2] at this
          simp only [join_payload, List.length_append, List.length_cons] at this
          have e1 : "v2|".toList.length = 3 := rfl
          have e2 : "|".toList.length = 1 := rfl
          have e3 : "v2".toList.length = 2 := rfl
          omega
        rw [e, stoi_canonical x3 port hP1 hst hl3]
        simp [join_payload]
    · obtain ⟨ip, P, hc, _, _⟩ := parse_payload_legacy _ _ hpre hpp
      simp at hc
  have hbytes2 : bytes2 = (join_payload pub lan port).map Char.toNat := by
    rw [← hsame, map_toNat_ofNat bytes2 (xor_password_bytes p2 _ 0 bytes2 hx3)]
  rw [hbytes2] at hx3
  obtain ⟨i, hi, hk⟩ := hdiff
  have := xor_streams_agree p1 p2 _ 0 xored hx1 hx3 i (by simpa using hi)
  rw [Nat.zero_add] at this
  exact hk this

theorem wrong_password_detected_witness :
    ∃ key, make_join_key "1.2.3.4".toList "10.0.0.1".toList 48000 "fox".toList = .ok key ∧
      parse_join_key key "fox".toList
        = .ok (some [("1.2.3.4".toList, 48000), ("10.0.0.1".toList, 48000)]) ∧
      parse_join_key key "dog".toList ≠ parse_join_key key "fox".toList :=
  wrong_password_detected "1.2.3.4".toList "10.0.0.1".toList "fox".toList "dog".toList 48000
    (by decide) (by decide) (by decide) (by decide) (by decide) (by decide)
    ⟨0, by decide, by decide⟩

/-- Claim C2 fails as stated: a password and its repetition decipher alike, and when
the public and the LAN address coincide a password that only garbles the public
address field still yields the original endpoint. -/
theorem wrong_password_counterexample :
    ("a".toList ≠ "aa".toList ∧
      make_join_key "1.2.3.4".toList "10.0.0.1".toList 48000 "a".toList
        = .ok "F1MdUE9TT1JPVR1QUU9RT1FPUB1VWVFRUQ==".toList ∧
      parse_join_key "F1MdUE9TT1JPVR1QUU9RT1FPUB1VWVFRUQ==".toList "a".toList
        = .ok (some [("1.2.3.4".toList, 48000), ("10.0.0.1".toList, 48000)]) ∧
      parse_join_key "F1MdUE9TT1JPVR1QUU9RT1FPUB1VWVFRUQ==".toList "aa".toList
        = .ok (some [("1.2.3.4".toList, 48000), ("10.0.0.1".toList, 48000)])) ∧
    ("a".toList ≠ "aaaqaaaaaaaaaaaaaaaaa".toList ∧
      make_join_key "1.2.3.4".toList "1.2.3.4".toList 80 "a".toList
        = .ok "F1MdUE9TT1JPVR1QT1NPUk9VHVlR".toList ∧
      parse_join_key "F1MdUE9TT1JPVR1QT1NPUk9VHVlR".toList "a".toList
        = .ok (some [("1.2.3.4".toList, 80)]) ∧
      parse_join_key "F1MdUE9TT1JPVR1QT1NPUk9VHVlR".toList "aaaqaaaaaaaaaaaaaaaaa".toList
        = .ok (some [("1.2.3.4".toList, 80)])) := by
  decide

/-! ### First occurrence of a byte -/

theorem indexOf_split (c : Char) :
    ∀ l : List Char, c ∈ l →
      l = l.take (l.indexOf c) ++ c :: l.drop (l.indexOf c + 1) ∧ c ∉ l.take (l.indexOf c)
  | [], h => by simp at h
  | d :: l, h => by
    by_cases hd : d = c
    · subst hd
      simp [List.indexOf_cons_self]
    · have hc : c ∈ l := by
        rcases List.mem_cons.mp h with e | e
        · exact absurd e.symm hd
        · exact e
      obtain ⟨h1, h2⟩ := indexOf_split c l hc
      rw [List.indexOf_cons_ne l hd]
      simp only [List.take_succ_cons, List.drop_succ_cons, List.cons_append, List.cons.injEq,
        true_and, List.mem_cons, not_or]
      exact ⟨h1, fun e => hd e.symm, h2⟩

theorem indexOf_middle (c : Char) (b : List Char) :
    ∀ a : List Char, c ∉ a → (a ++ c :: b).indexOf c = a.length
  | [], _ => by simp [List.indexOf_cons_self]
  | d :: a, h => by
    have hd : d ≠ c := fun e => h (by simp [e])
    have ha : c ∉ a := fun e => h (by simp [e])
    rw [List.cons_append, List.indexOf_cons_ne _ hd, indexOf_middle c b a ha]
    rfl

/-! ### The password handshake -/

/-- The handshake test accepts exactly the lines `PASS <password> <name>` with a
non-empty name, and only for a password without a space. -/
theorem handshake_name_iff (password line name : List Char) :
    handshake_name password line = some name ↔
      (' ' ∉ password ∧ name ≠ [] ∧
        line = "PASS ".toList ++ password ++ " ".toList ++ name) := by
  have e5 : "PASS ".toList = ['P', 'A', 'S', 'S', ' '] := rfl
  have e1 : " ".toList = [' '] := rfl
  constructor
  · intro h
    unfold handshake_name at h
    split at h
    swap
    · cases h
    rename_i hpre
    have hline : line = "PASS ".toList ++ line.drop 5 := by
      rw [e5] at hpre ⊢
      match line, hpre with
      | a :: b :: c :: d :: e :: r, hpre =>
        simp only [List.isPrefixOf, Bool.and_eq_true, beq_iff_eq, Bool.and_true] at hpre
        obtain ⟨rfl, rfl, rfl, rfl, rfl⟩ := hpre
        rfl
    simp only at h
    split at h
    swap
    · cases h
    rename_i hsp
    split at h
    swap
    · cases h
    rename_i hok
    simp only [Option.some.injEq] at h
    obtain ⟨h1, h2⟩ := indexOf_split ' ' (line.drop 5) hsp
    rw [hok.1] at h1 h2
    rw [h] at h1
    refine ⟨h2, ?_, ?_⟩
    · rw [← h]; exact hok.2
    · rw [hline, h1, e1]
      simp
  · rintro ⟨hsp, hname, rfl⟩
    have hpre : "PASS ".toList.isPrefixOf ("PASS ".toList ++ password ++ " ".toList ++ name)
        = true := by
      rw [e5]; simp [List.isPrefixOf]
    have hdrop : ("PASS ".toList ++ password ++ " ".toList ++ name).drop 5
        = password ++ ' ' :: name := by
      rw [e5, e1]; simp
    have hmem : ' ' ∈ password ++ ' ' :: name := by simp
    unfold handshake_name
    rw [if_pos hpre]
    simp only [hdrop, hmem, if_true, indexOf_middle ' ' name password hsp, List.take_left,
      List.drop_left']
    have hd : (password ++ ' ' :: name).drop (password.length + 1) = name := by
      rw [← List.drop_drop]
      simp
    rw [hd]
    simp [hname]

/-- Claim C4 as amended: on the first line of a session the server replies `OK` and
names the session `name` exactly when the room password contains no space and the
line is `PASS <password> <name>` with a non-empty name. -/
theorem handshake_accepted_iff (password line name : List Char) (st : session_state)
    (hd : st.handshake_done = false) :
    ((process_line password st line).1.handshake_done = true ∧
        (process_line password st line).1.client.name = name ∧
        ∃ more, (process_line password st line).1.trace =
          st.trace ++ net_action.send st.client.socket "OK\n".toList :: more) ↔
      (' ' ∉ password ∧ name ≠ [] ∧
        line = "PASS ".toList ++ password ++ " ".toList ++ name) := by
  rw [← handshake_name_iff]
  cases hn : handshake_name password line with
  | none =>
    simp only [process_line, hd, if_true, hn, session_state.set_client, session_state.emit,
      reduceCtorEq, iff_false, not_and]
    intro h
    simp at h
  | some n =>
    simp only [process_line, hd, if_true, hn, session_state.set_client, session_state.emit,
      Option.some.injEq, true_and]
    constructor
    · intro h; exact h.1
    · intro h
      refine ⟨h, broadcast (st.clients_.map
        (fun e => if e.1 = st.client.socket then (e.1, { st.client with name := n }) else e))
        ("* ".toList ++ n ++ " joined *\n".toList) st.client.socket, ?_⟩
      rw [List.append_assoc]
      rfl

theorem handshake_accepted_iff_witness :
    (process_line "foxchat1212".toList
        { clients_ := [(3, new_client 3)], client := new_client 3, handshake_done := false,
          trace := [] }
        "PASS foxchat1212 Bob".toList).1.handshake_done = true :=
  ((handshake_accepted_iff "foxchat1212".toList "PASS foxchat1212 Bob".toList "Bob".toList
    { clients_ := [(3, new_client 3)], client := new_client 3, handshake_done := false,
      trace := [] } rfl).mpr ⟨by decide, by decide, by decide⟩).1

/-- Claim C4 fails as stated: with a room password that contains a space the line
`PASS <password> <name>` is rejected. -/
theorem handshake_space_counterexample :
    handshake_name "a b".toList ("PASS ".toList ++ "a b".toList ++ " ".toList ++ "Bob".toList)
        = none ∧
      (process_line "a b".toList
        { clients_ := [(3, new_client 3)], client := new_client 3, handshake_done := false,
          trace := [] }
        ("PASS ".toList ++ "a b".toList ++ " ".toList ++ "Bob".toList)).1.trace
        = [net_action.send 3 "ERR Invalid password or name\n".toList] := by
  decide

/-! ### Chat lines -/

/-- Claim C3 as amended: a chat line received from a session after its handshake is
sent, as `[<name>] <line>` and a newline, to every named session of the table, the
sending session included, and to no one else. -/
theorem chat_line_broadcast (password line : List Char) (st : session_state)
    (hd : st.handshake_done = true) :
    ∃ new, (process_line password st line).1.trace = st.trace ++ new ∧
      (∀ e ∈ st.clients_, e.2.name ≠ [] → e.1 ≠ INVALID_SOCKET →
        net_action.send e.1 ("[".toList ++ st.client.name ++ "] ".toList ++ line ++ "\n".toList)
          ∈ new) ∧
      ((st.client.socket, st.client) ∈ st.clients_ → st.client.name ≠ [] →
        st.client.socket ≠ INVALID_SOCKET →
        net_action.send st.client.socket
          ("[".toList ++ st.client.name ++ "] ".toList ++ line ++ "\n".toList) ∈ new) ∧
      (∀ a ∈ new, ∃ e ∈ st.clients_, e.2.name ≠ [] ∧
        a = net_action.send e.1
          ("[".toList ++ st.client.name ++ "] ".toList ++ line ++ "\n".toList)) := by
  refine ⟨broadcast st.clients_
    ("[".toList ++ st.client.name ++ "] ".toList ++ line ++ "\n".toList) INVALID_SOCKET, ?_, ?_, ?_, ?_⟩
  · simp [process_line, hd, session_state.emit]
  · intro e he hn hs
    simp only [broadcast, List.mem_map, List.mem_filter, Bool.and_eq_true, decide_eq_true_eq]
    exact ⟨e, ⟨he, hs, hn⟩, rfl⟩
  · intro he hn hs
    simp only [broadcast, List.mem_map, List.mem_filter, Bool.and_eq_true, decide_eq_true_eq]
    exact ⟨(st.client.socket, st.client), ⟨he, hs, hn⟩, rfl⟩
  · intro a ha
    simp only [broadcast, List.mem_map, List.mem_filter, Bool.and_eq_true,
      decide_eq_true_eq] at ha
    obtain ⟨e, ⟨he, _, hn⟩, rfl⟩ := ha
    exact ⟨e, he, hn, rfl⟩

theorem chat_line_broadcast_witness :
    ∃ new, (process_line "pw".toList
        { clients_ := [(1, { new_client 1 with name := "A".toList }),
                       (2, { new_client 2 with name := "B".toList })],
          client := { new_client 1 with name := "A".toList }, handshake_done := true,
          trace := [] } "hi".toList).1.trace = [] ++ new ∧
      net_action.send 1 "[A] hi\n".toList ∈ new :=
  let ⟨new, h1, _, h3, _⟩ := chat_line_broadcast "pw".toList "hi".toList
    { clients_ := [(1, { new_client 1 with name := "A".toList }),
                   (2, { new_client 2 with name := "B".toList })],
      client := { new_client 1 with name := "A".toList }, handshake_done := true,
      trace := [] } rfl
  ⟨new, h1, h3 (by decide) (by decide) (by decide)⟩

/-- Claim C3 fails as stated: with the named sessions A (socket 1) and B (socket 2)
in the table, the line `hi` received from A is sent to B and also back to A. -/
theorem broadcast_exclusion_counterexample :
    (process_line "pw".toList
        { clients_ := [(1, { new_client 1 with name := "A".toList }),
                       (2, { new_client 2 with name := "B".toList })],
          client := { new_client 1 with name := "A".toList }, handshake_done := true,
          trace := [] } "hi".toList).1.trace
      = [net_action.send 1 "[A] hi\n".toList, net_action.send 2 "[A] hi\n".toList] := by
  decide

/-! ### The join-key gate of the accept loop -/

theorem recv_exact_enough :
    ∀ (events : List recv_result) (n : Nat), n ≤ (delivered events).length →
      ∃ rest, recv_exact n events = exact_result.ok ((delivered events).take n) rest
  | events, 0, _ => ⟨events, by simp [recv_exact]⟩
  | [], n + 1, h => by simp [delivered] at h
  | recv_result.timeout :: rs, n + 1, h => by
    simp only [delivered] at h ⊢
    obtain ⟨rest, hr⟩ := recv_exact_enough rs (n + 1) h
    exact ⟨rest, by simp only [recv_exact, hr]⟩
  | recv_result.closed :: rs, n + 1, h => by simp [delivered] at h
  | recv_result.data bytes :: rs, n + 1, h => by
    by_cases hb : bytes = []
    · simp [delivered, hb] at h
    simp only [delivered, hb, if_false, List.length_append] at h ⊢
    by_cases hlt : n + 1 < bytes.length
    · refine ⟨recv_result.data (bytes.drop (n + 1)) :: rs, ?_⟩
      simp only [recv_exact, hb, if_false, hlt, if_true]
      rw [List.take_append_of_le_length (by omega)]
    · obtain ⟨rest, hr⟩ := recv_exact_enough rs (n + 1 - bytes.length) (by omega)
      refine ⟨rest, ?_⟩
      simp only [recv_exact, hb, if_false, hlt, hr]
      have e : List.take (n + 1) bytes = bytes := List.take_of_length_le (by omega)
      rw [List.take_append_eq_append_take, e]

theorem recv_exact_closed :
    ∀ (events : List recv_result) (n : Nat), (delivered events).length < n →
      connection_closed events = true → recv_exact n events = exact_result.failed
  | _, 0, h, _ => absurd h (Nat.not_lt_zero _)
  | [], n + 1, _, hc => by simp [connection_closed] at hc
  | recv_result.timeout :: rs, n + 1, h, hc => by
    simp only [delivered, connection_closed] at h hc
    simp only [recv_exact, recv_exact_closed rs (n + 1) h hc]
  | recv_result.closed :: rs, n + 1, _, _ => by simp [recv_exact]
  | recv_result.data bytes :: rs, n + 1, h, hc => by
    by_cases hb : bytes = []
    · simp [recv_exact, hb]
    simp only [delivered, connection_closed, hb, if_false, List.length_append] at h hc
    have hlt : ¬ n + 1 < bytes.length := by omega
    simp only [recv_exact, hb, if_false, hlt,
      recv_exact_closed rs (n + 1 - bytes.length) (by omega) hc]

/-- Claim C6: a connection whose first `len(join_key)` bytes are not the join key,
or that ends before it has supplied that many bytes, is closed without any byte
sent to it, and the session table stays as it was. -/
theorem join_key_gate (join_key : List Char) (clients : client_table) (client_sock : SOCKET)
    (events : List recv_result)
    (hbad : (delivered events).take join_key.length ≠ join_key)
    (hend : join_key.length ≤ (delivered events).length ∨ connection_closed events = true) :
    accept_connection join_key clients client_sock events =
      { clients_ := clients, trace := [net_action.close client_sock],
        status := accept_status.rejected } := by
  unfold accept_connection
  by_cases hlen : join_key.length ≤ (delivered events).length
  · obtain ⟨rest, hr⟩ := recv_exact_enough events join_key.length hlen
    rw [hr]
    simp only [ne_eq, hbad, not_false_eq_true, if_true]
  · have hc : connection_closed events = true := by
      rcases hend with h | h
      · exact absurd h hlen
      · exact h
    rw [recv_exact_closed events join_key.length (by omega) hc]

theorem join_key_gate_witness :
    accept_connection "KEY".toList [] 3
        [recv_result.data "K".toList, recv_result.timeout, recv_result.data "EXPASS".toList]
      = { clients_ := [], trace := [net_action.close 3], status := accept_status.rejected } :=
  join_key_gate "KEY".toList [] 3
    [recv_result.data "K".toList, recv_result.timeout, recv_result.data "EXPASS".toList]
    (by decide) (Or.inl (by decide))

/-! ### A rejected handshake -/

theorem get_line_none (buf : List Char) (h : '\n' ∉ buf) :
    line_receiver.get_line { buffer_ := buf } = none := by
  simp [line_receiver.get_line, h]

theorem get_line_mem (buf line : List Char) (r : line_receiver)
    (h : line_receiver.get_line { buffer_ := buf } = some (line, r)) : '\n' ∈ buf := by
  by_contra hn
  rw [get_line_none buf hn] at h
  cases h

theorem filter_set_client (T : client_table) (c : server_client) :
    (T.map (fun e => if e.1 = c.socket then (e.1, c) else e)).filter
        (fun e => decide (e.1 ≠ c.socket)) =
      T.filter (fun e => decide (e.1 ≠ c.socket)) := by
  induction T with
  | nil => rfl
  | cons e es ih =>
    simp only [List.map_cons, List.filter_cons]
    by_cases he : e.1 = c.socket
    · simp only [he, if_true, ne_eq, not_true_eq_false, decide_False, Bool.false_eq_true,
        if_false]
      exact ih
    · simp only [he, if_false, ne_eq, not_false_eq_true, decide_True, if_true, ih]

theorem client_recv_iterate_stopped (password : List Char) (events : List recv_result)
    (st : session_state) (h : st.client.running = false) :
    client_recv_iterate password events st = (st, true) := by
  cases events with
  | nil => simp [client_recv_iterate, h]
  | cons r rs => simp [client_recv_iterate, h]

/-- The receive loop up to and including a rejected first line. -/
theorem client_recv_iterate_reject (password : List Char) (client : server_client)
    (chunk rest_bytes line : List Char) (rest : List recv_result)
    (hrun : client.running = true) (hbad : handshake_name password line = none) :
    ∀ (pre : List recv_result) (b : List Char) (T : client_table),
      (∀ r ∈ pre, r.incomplete = true) →
      '\n' ∉ b →
      line_receiver.get_line { buffer_ := b ++ delivered pre ++ chunk }
        = some (line, { buffer_ := rest_bytes }) →
      ∃ T', T'.filter (fun e => decide (e.1 ≠ client.socket))
            = T.filter (fun e => decide (e.1 ≠ client.socket)) ∧
        client_recv_iterate password (pre ++ recv_result.data chunk :: rest)
            { clients_ := T, client := { client with receiver := { buffer_ := b } },
              handshake_done := false, trace := [] } =
          ({ clients_ := T',
             client := { client with receiver := { buffer_ := rest_bytes }, running := false },
             handshake_done := false,
             trace := [net_action.send client.socket "ERR Invalid password or name\n".toList] },
            true)
  | [], b, T, _, hb, hline => by
    simp only [delivered, List.append_nil] at hline
    have hnl : '\n' ∈ chunk := by
      have := get_line_mem _ _ _ hline
      rcases List.mem_append.mp this with h | h
      · exact absurd h hb
      · exact h
    have hne : chunk ≠ [] := by
      rintro rfl; simp at hnl
    refine ⟨((T.map (fun e => if e.1 = client.socket then
        (e.1, { client with receiver := { buffer_ := b ++ chunk } }) else e)).map
        (fun e => if e.1 = client.socket then
          (e.1, { client with receiver := { buffer_ := rest_bytes } }) else e)).map
        (fun e => if e.1 = client.socket then
          (e.1, { client with receiver := { buffer_ := rest_bytes }, running := false })
          else e), ?_, ?_⟩
    · have h1 := filter_set_client T { client with receiver := { buffer_ := b ++ chunk } }
      have h2 := filter_set_client (T.map (fun e => if e.1 = client.socket then
        (e.1, { client with receiver := { buffer_ := b ++ chunk } }) else e))
        { client with receiver := { buffer_ := rest_bytes } }
      have h3 := filter_set_client ((T.map (fun e => if e.1 = client.socket then
        (e.1, { client with receiver := { buffer_ := b ++ chunk } }) else e)).map
        (fun e => if e.1 = client.socket then
          (e.1, { client with receiver := { buffer_ := rest_bytes } }) else e))
        { client with receiver := { buffer_ := rest_bytes }, running := false }
      simp only at h1 h2 h3
      rw [h3, h2, h1]
    · simp only [List.nil_append, client_recv_iterate, hrun, Bool.true_eq_false, if_false, hne,
        client_recv_step, session_state.set_client, line_receiver.feed, process_lines, hline,
        process_line, hbad, if_true, session_state.emit, List.nil_append, Bool.false_eq_true]
      rw [client_recv_iterate_stopped _ _ _ rfl]
  | recv_result.timeout :: pre, b, T, hpre, hb, hline => by
    simp only [delivered] at hline
    obtain ⟨T', hT, hit⟩ := client_recv_iterate_reject password client chunk rest_bytes line rest
      hrun hbad pre b T (fun r hr => hpre r (by simp [hr])) hb hline
    refine ⟨T', hT, ?_⟩
    simp only [List.cons_append, client_recv_iterate, hrun, Bool.true_eq_false, if_false]
    simp only [hrun] at hit
    exact hit
  | recv_result.closed :: pre, b, T, hpre, _, _ => by
    have h := hpre recv_result.closed (by simp)
    simp [recv_result.incomplete] at h
  | recv_result.data bytes :: pre, b, T, hpre, hb, hline => by
    have hby : bytes ≠ [] ∧ '\n' ∉ bytes := by
      have h := hpre (recv_result.data bytes) (by simp)
      simpa [recv_result.incomplete] using h
    simp only [delivered, hby.1, if_false] at hline
    have hb2 : '\n' ∉ b ++ bytes := by
      intro h
      rcases List.mem_append.mp h with h | h
      · exact hb h
      · exact hby.2 h
    have hline2 : line_receiver.get_line { buffer_ := (b ++ bytes) ++ delivered pre ++ chunk }
        = some (line, { buffer_ := rest_bytes }) := by
      rw [← hline]; simp [List.append_assoc]
    obtain ⟨T', hT, hit⟩ := client_recv_iterate_reject password client chunk rest_bytes line rest
      hrun hbad pre (b ++ bytes)
      (T.map (fun e => if e.1 = client.socket then
        (e.1, { client with receiver := { buffer_ := b ++ bytes } }) else e))
      (fun r hr => hpre r (by simp [hr])) hb2 hline2
    refine ⟨T', ?_, ?_⟩
    · rw [hT]
      exact filter_set_client T { client with receiver := { buffer_ := b ++ bytes } }
    · simp only [List.cons_append, client_recv_iterate, hrun, Bool.true_eq_false, if_false,
        hby.1, client_recv_step, session_state.set_client, line_receiver.feed, process_lines,
        get_line_none _ hb2]
      simp only [hrun] at hit
      exact hit

/-- Claim C5: when the first line of a session is not `PASS <password> <name>` with
the room password and a non-empty name, the session thread sends exactly the error
reply to it, never a broadcast, closes the socket, removes the session from the
table and reads no further line. -/
theorem handshake_rejected (password : List Char) (clients : client_table)
    (client : server_client) (pre : List recv_result) (chunk line rest_bytes : List Char)
    (rest : List recv_result)
    (hfresh : client.receiver = { buffer_ := [] }) (hrun : client.running = true)
    (hpre : ∀ r ∈ pre, r.incomplete = true)
    (hline : line_receiver.get_line { buffer_ := delivered pre ++ chunk }
      = some (line, { buffer_ := rest_bytes }))
    (hbad : ¬ ∃ name, name ≠ [] ∧
      line = "PASS ".toList ++ password ++ " ".toList ++ name) :
    client_recv_loop password clients client (pre ++ recv_result.data chunk :: rest) =
      ({ clients_ := clients.filter (fun e => decide (e.1 ≠ client.socket)),
         client := { client with receiver := { buffer_ := rest_bytes }, running := false },
         handshake_done := false,
         trace := [net_action.send client.socket "ERR Invalid password or name\n".toList,
                   net_action.close client.socket] }, true) := by
  have hnone : handshake_name password line = none := by
    cases h : handshake_name password line with
    | none => rfl
    | some n =>
      have := (handshake_name_iff password line n).mp h
      exact absurd ⟨n, this.2.1, this.2.2⟩ hbad
  have hst : ({ clients_ := clients, client := client, handshake_done := false, trace := [] } :
      session_state) =
      { clients_ := clients, client := { client with receiver := { buffer_ := [] } },
        handshake_done := false, trace := [] } := by
    cases client
    simp only at hfresh
    subst hfresh
    rfl
  obtain ⟨T', hT, hit⟩ := client_recv_iterate_reject password client chunk rest_bytes line rest
    hrun hnone pre [] clients hpre (by simp) (by simpa using hline)
  unfold client_recv_loop
  rw [hst, hit]
  simp only [if_true, Bool.false_eq_true, if_false, session_state.emit, List.singleton_append, hT]

theorem handshake_rejected_witness :
    client_recv_loop "foxchat1212".toList [(3, new_client 3)] (new_client 3)
        ([recv_result.data "PA".toList, recv_result.timeout] ++
          recv_result.data "SS nope Bob\nhello\n".toList :: [recv_result.closed])
      = ({ clients_ := [],
           client := { new_client 3 with receiver := { buffer_ := "hello\n".toList },
                                         running := false },
           handshake_done := false,
           trace := [net_action.send 3 "ERR Invalid password or name\n".toList,
                     net_action.close 3] }, true) :=
  handshake_rejected "foxchat1212".toList [(3, new_client 3)] (new_client 3)
    [recv_result.data "PA".toList, recv_result.timeout] "SS nope Bob\nhello\n".toList
    "PASS nope Bob".toList "hello\n".toList [recv_result.closed] rfl rfl
    (by decide) (by decide)
    (by
      rintro ⟨name, _, h⟩
      have h2 : ("PASS nope Bob".toList).take 6 = "PASS f".toList := by rw [h]; rfl
      revert h2
      decide)

/-! ### UDP voice relay -/

theorem sockaddr_ne_iff (a b : sockaddr_in) :
    (a.sin_addr ≠ b.sin_addr ∨ a.sin_port ≠ b.sin_port) ↔ a ≠ b := by
  cases a; cases b
  simp only [ne_eq, sockaddr_in.mk.injEq, not_and]
  tauto

/-- Claim C7: a datagram from an address that is not authenticated, shorter than the
join key or not beginning with it, changes nothing and is relayed to nobody. -/
theorem udp_gatekeeping (join_key : List Char) (getpeername : SOCKET → sockaddr_in)
    (st : relay_state) (sender_addr : sockaddr_in) (datagram : List Char)
    (hnew : sender_addr ∉ st.authenticated_udp_peers_)
    (hbad : datagram.length < join_key.length ∨ ¬ ∃ rest, datagram = join_key ++ rest) :
    udp_relay_step join_key getpeername st sender_addr datagram = (st, []) := by
  unfold udp_relay_step
  by_cases hbig : datagram.length > udp_buffer_size
  · rw [if_pos hbig]
  rw [if_neg hbig]
  by_cases h0 : datagram.length ≤ 0
  · rw [if_pos h0]
  · rw [if_neg h0, if_pos]
    refine ⟨hnew, ?_⟩
    rcases hbad with h | h
    · exact Or.inl h
    · right
      intro e
      exact h ⟨datagram.drop join_key.length, by
        conv_lhs => rw [← List.take_append_drop join_key.length datagram, e]⟩

theorem udp_gatekeeping_witness :
    udp_relay_step "KEY".toList (fun _ => { sin_addr := 7, sin_port := 0 })
      { clients_ := [], authenticated_udp_peers_ := [] } { sin_addr := 7, sin_port := 5000 }
      "KEXvoice".toList
      = ({ clients_ := [], authenticated_udp_peers_ := [] }, []) :=
  udp_gatekeeping "KEY".toList (fun _ => { sin_addr := 7, sin_port := 0 })
    { clients_ := [], authenticated_udp_peers_ := [] } { sin_addr := 7, sin_port := 5000 }
    "KEXvoice".toList (by decide)
    (Or.inr (by
      rintro ⟨rest, h⟩
      have h2 : ("KEXvoice".toList).take 3 = "KEY".toList := by rw [h]; rfl
      revert h2
      decide))

theorem udp_relay_step_fresh (join_key : List Char) (getpeername : SOCKET → sockaddr_in)
    (st : relay_state) (sender_addr : sockaddr_in) (payload : List Char)
    (hd : join_key ++ payload ≠ []) (hnew : sender_addr ∉ st.authenticated_udp_peers_)
    (hsize : (join_key ++ payload).length ≤ udp_buffer_size) :
    udp_relay_step join_key getpeername st sender_addr (join_key ++ payload) =
      if payload = [] then
        ({ st with authenticated_udp_peers_ := st.authenticated_udp_peers_ ++ [sender_addr] }, [])
      else
        ({ clients_ := register_udp getpeername sender_addr st.clients_,
           authenticated_udp_peers_ := st.authenticated_udp_peers_ ++ [sender_addr] },
          relay_sends sender_addr payload (register_udp getpeername sender_addr st.clients_)) := by
  have hpos : 0 < (join_key ++ payload).length := List.length_pos.mpr hd
  have h0 : ¬ (join_key ++ payload).length ≤ 0 := by omega
  have h1 : ¬ (sender_addr ∉ st.authenticated_udp_peers_ ∧
      ((join_key ++ payload).length < join_key.length ∨
        (join_key ++ payload).take join_key.length ≠ join_key)) := by
    rintro ⟨_, h | h⟩
    · simp only [List.length_append] at h; omega
    · exact h (by simp)
  unfold udp_relay_step
  rw [if_neg (Nat.not_lt.mpr hsize), if_neg h0, if_neg h1]
  simp only [hnew, not_false_eq_true, decide_True, if_true, List.drop_left]
  by_cases hp : payload = []
  · subst hp
    simp
  · have h2 : ¬ (join_key ++ payload).length ≤ join_key.length := by
      have := List.length_pos.mpr hp
      simp only [List.length_append]; omega
    rw [if_neg h2, if_neg hp]

theorem udp_relay_step_known (join_key : List Char) (getpeername : SOCKET → sockaddr_in)
    (st : relay_state) (sender_addr : sockaddr_in) (datagram : List Char)
    (hold : sender_addr ∈ st.authenticated_udp_peers_) (hd : datagram ≠ [])
    (hsize : datagram.length ≤ udp_buffer_size) :
    udp_relay_step join_key getpeername st sender_addr datagram =
      ({ clients_ := register_udp getpeername sender_addr st.clients_,
         authenticated_udp_peers_ := st.authenticated_udp_peers_ },
        relay_sends sender_addr datagram (register_udp getpeername sender_addr st.clients_)) := by
  have hpos := List.length_pos.mpr hd
  have h0 : ¬ datagram.length ≤ 0 := by omega
  have h1 : ¬ (sender_addr ∉ st.authenticated_udp_peers_ ∧
      (datagram.length < join_key.length ∨ datagram.take join_key.length ≠ join_key)) :=
    fun h => h.1 hold
  unfold udp_relay_step
  rw [if_neg (Nat.not_lt.mpr hsize), if_neg h0, if_neg h1]
  simp only [hold, not_true_eq_false, decide_False, Bool.false_eq_true, if_false, List.drop_zero]
  rw [if_neg h0]

theorem relay_sends_payload (sender_addr : sockaddr_in) (p : List Char) (cl : client_table) :
    ∀ s ∈ relay_sends sender_addr p cl, s.2 = p := by
  intro s hs
  simp only [relay_sends, List.mem_map] at hs
  obtain ⟨e, _, rfl⟩ := hs
  rfl

/-- Sessions registered by a datagram get the sender's own address, so the
registration pass does not change who the datagram is relayed to. -/
theorem relay_sends_register (getpeername : SOCKET → sockaddr_in) (sender_addr : sockaddr_in)
    (payload : List Char) :
    ∀ clients : client_table,
      relay_sends sender_addr payload (register_udp getpeername sender_addr clients) =
        relay_sends sender_addr payload clients
  | [] => rfl
  | e :: es => by
    have ih := relay_sends_register getpeername sender_addr payload es
    simp only [relay_sends, register_udp] at ih ⊢
    simp only [List.map_cons, List.filter_cons]
    by_cases hc : e.2.udp_registered = false ∧ e.2.name ≠ [] ∧
        (getpeername e.1).sin_addr = sender_addr.sin_addr
    · rw [if_pos hc]
      simp only [ne_eq, not_true_eq_false, or_self, decide_False, Bool.and_false,
        Bool.false_eq_true, if_false, hc.1, Bool.false_and]
      exact ih
    · rw [if_neg hc]
      split
      · simp only [List.map_cons, List.cons.injEq, true_and]
        exact ih
      · exact ih

/-- The `sendto` calls of the relay loop, written out: one for every UDP-registered
session whose registered address is not the sender's, in table order. -/
theorem relay_sends_eq (sender_addr : sockaddr_in) (payload : List Char) (cl : client_table) :
    relay_sends sender_addr payload cl =
      (cl.filter (fun e => e.2.udp_registered && decide (e.2.udp_addr ≠ sender_addr))).map
        (fun e => (e.2.udp_addr, payload)) := by
  unfold relay_sends
  congr 2
  funext e
  congr 1
  exact decide_eq_decide.mpr (sockaddr_ne_iff e.2.udp_addr sender_addr)

theorem udp_relay_step_oversize (join_key : List Char) (getpeername : SOCKET → sockaddr_in)
    (st : relay_state) (sender_addr : sockaddr_in) (datagram : List Char)
    (h : udp_buffer_size < datagram.length) :
    udp_relay_step join_key getpeername st sender_addr datagram = (st, []) := by
  unfold udp_relay_step
  rw [if_pos h]

/-- Claim C8, as amended: for a datagram of at most 4096 bytes, the size of the receive
buffer: when it comes from an address that is not yet authenticated and begins
with the join key, the address is added to the authenticated set and what is
relayed is the datagram without its first `len(join_key)` bytes, sent once to
every UDP-registered session with another address (nothing when no byte is left);
when it comes from an authenticated address, the set stays and the whole datagram
is relayed in the same way, also when it begins with the join key. -/
theorem udp_authentication (join_key : List Char) (getpeername : SOCKET → sockaddr_in)
    (st : relay_state) (sender_addr : sockaddr_in) :
    (∀ payload : List Char, sender_addr ∉ st.authenticated_udp_peers_ →
      join_key ++ payload ≠ [] → (join_key ++ payload).length ≤ udp_buffer_size →
      (udp_relay_step join_key getpeername st sender_addr (join_key ++ payload)).1.authenticated_udp_peers_
          = st.authenticated_udp_peers_ ++ [sender_addr] ∧
        (udp_relay_step join_key getpeername st sender_addr (join_key ++ payload)).2 =
          if payload = [] then []
          else
            (st.clients_.filter
              (fun e => e.2.udp_registered && decide (e.2.udp_addr ≠ sender_addr))).map
              (fun e => (e.2.udp_addr, payload))) ∧
    (∀ datagram : List Char, sender_addr ∈ st.authenticated_udp_peers_ →
      datagram.length ≤ udp_buffer_size →
      (udp_relay_step join_key getpeername st sender_addr datagram).1.authenticated_udp_peers_
          = st.authenticated_udp_peers_ ∧
        (udp_relay_step join_key getpeername st sender_addr datagram).2 =
          if datagram = [] then []
          else
            (st.clients_.filter
              (fun e => e.2.udp_registered && decide (e.2.udp_addr ≠ sender_addr))).map
              (fun e => (e.2.udp_addr, datagram))) := by
  constructor
  · intro payload hnew hd hsize
    rw [udp_relay_step_fresh join_key getpeername st sender_addr payload hd hnew hsize]
    by_cases hp : payload = []
    · subst hp
      simp
    · rw [if_neg hp, if_neg hp]
      exact ⟨rfl, by rw [relay_sends_register, relay_sends_eq]⟩
  · intro datagram hold hsize
    by_cases hd : datagram = []
    · subst hd
      simp [udp_relay_step]
    · rw [udp_relay_step_known join_key getpeername st sender_addr datagram hold hd hsize,
        if_neg hd]
      exact ⟨rfl, by rw [relay_sends_register, relay_sends_eq]⟩

theorem udp_authentication_witness :
    (udp_relay_step "KEY".toList (fun _ => { sin_addr := 7, sin_port := 0 })
          { clients_ :=
              [(2, { socket := 2, name := "B".toList, running := true,
                     receiver := { buffer_ := [] },
                     udp_addr := { sin_addr := 9, sin_port := 6000 }, udp_registered := true })],
            authenticated_udp_peers_ := [] }
          { sin_addr := 7, sin_port := 5000 }
          ("KEY".toList ++ "hi".toList)).1.authenticated_udp_peers_
        = [] ++ [{ sin_addr := 7, sin_port := 5000 }] ∧
      (udp_relay_step "KEY".toList (fun _ => { sin_addr := 7, sin_port := 0 })
          { clients_ :=
              [(2, { socket := 2, name := "B".toList, running := true,
                     receiver := { buffer_ := [] },
                     udp_addr := { sin_addr := 9, sin_port := 6000 }, udp_registered := true })],
            authenticated_udp_peers_ := [] }
          { sin_addr := 7, sin_port := 5000 }
          ("KEY".toList ++ "hi".toList)).2
        = [({ sin_addr := 9, sin_port := 6000 }, "hi".toList)] :=
  (udp_authentication "KEY".toList (fun _ => { sin_addr := 7, sin_port := 0 })
    { clients_ :=
        [(2, { socket := 2, name := "B".toList, running := true, receiver := { buffer_ := [] },
               udp_addr := { sin_addr := 9, sin_port := 6000 }, udp_registered := true })],
      authenticated_udp_peers_ := [] }
    { sin_addr := 7, sin_port := 5000 }).1
    "hi".toList (by decide) (by decide) (by decide)

/-- A datagram of 4097 bytes that begins with the join key, from an address that is
not authenticated, with a UDP-registered session at another address: its payload
is not relayed to that session. -/
theorem udp_oversize_key_counterexample :
    ("KEY".toList ++ List.replicate 4094 'v').length = 4097 ∧
      (({ sin_addr := 9, sin_port := 6000 }, List.replicate 4094 'v') : udp_send) ∉
        (udp_relay_step "KEY".toList (fun _ => { sin_addr := 7, sin_port := 0 })
          { clients_ :=
              [(2, { socket := 2, name := "B".toList, running := true,
                     receiver := { buffer_ := [] },
                     udp_addr := { sin_addr := 9, sin_port := 6000 }, udp_registered := true })],
            authenticated_udp_peers_ := [] }
          { sin_addr := 7, sin_port := 5000 }
          ("KEY".toList ++ List.replicate 4094 'v')).2 := by
  have hlen : ("KEY".toList ++ List.replicate 4094 'v').length = 4097 := by
    rw [List.length_append, List.length_replicate]
    rfl
  refine ⟨hlen, ?_⟩
  rw [udp_relay_step_oversize _ _ _ _ _ (by rw [hlen]; decide)]
  exact List.not_mem_nil _

/-- Claim C9, as amended: an authenticated datagram of at most 4096 bytes with a
non-empty payload is sent, byte for byte, once to each UDP-registered session
whose registered address differs from the sender's, and to no other address;
never to the sender's own address. -/
theorem udp_relay_recipients (join_key : List Char) (getpeername : SOCKET → sockaddr_in)
    (st : relay_state) (sender_addr : sockaddr_in) (datagram payload : List Char)
    (hauth : (sender_addr ∈ st.authenticated_udp_peers_ ∧ datagram = payload) ∨
      (sender_addr ∉ st.authenticated_udp_peers_ ∧ datagram = join_key ++ payload))
    (hp : payload ≠ []) (hsize : datagram.length ≤ udp_buffer_size) :
    (udp_relay_step join_key getpeername st sender_addr datagram).2 =
        ((udp_relay_step join_key getpeername st sender_addr datagram).1.clients_.filter
          (fun e => e.2.udp_registered && decide (e.2.udp_addr ≠ sender_addr))).map
          (fun e => (e.2.udp_addr, payload)) ∧
      (udp_relay_step join_key getpeername st sender_addr datagram).2 =
        (st.clients_.filter
          (fun e => e.2.udp_registered && decide (e.2.udp_addr ≠ sender_addr))).map
          (fun e => (e.2.udp_addr, payload)) ∧
      ∀ s ∈ (udp_relay_step join_key getpeername st sender_addr datagram).2,
        s.1 ≠ sender_addr ∧ s.2 = payload := by
  have hstep : udp_relay_step join_key getpeername st sender_addr datagram =
      ((udp_relay_step join_key getpeername st sender_addr datagram).1,
        relay_sends sender_addr payload (register_udp getpeername sender_addr st.clients_)) ∧
      (udp_relay_step join_key getpeername st sender_addr datagram).1.clients_ =
        register_udp getpeername sender_addr st.clients_ := by
    rcases hauth with ⟨hold, rfl⟩ | ⟨hnew, rfl⟩
    · rw [udp_relay_step_known join_key getpeername st sender_addr datagram hold hp hsize]
      exact ⟨rfl, rfl⟩
    · rw [udp_relay_step_fresh join_key getpeername st sender_addr payload
        (fun h => hp (List.append_eq_nil.mp h).2) hnew hsize, if_neg hp]
      exact ⟨rfl, rfl⟩
  have h2 : (udp_relay_step join_key getpeername st sender_addr datagram).2 =
      relay_sends sender_addr payload (register_udp getpeername sender_addr st.clients_) := by
    conv_lhs => rw [hstep.1]
  refine ⟨?_, ?_, ?_⟩
  · rw [h2, hstep.2, relay_sends_eq]
  · rw [h2, relay_sends_register, relay_sends_eq]
  · intro s hs
    rw [h2, relay_sends_eq] at hs
    simp only [List.mem_map, List.mem_filter, Bool.and_eq_true, decide_eq_true_eq] at hs
    obtain ⟨e, ⟨_, _, hne⟩, rfl⟩ := hs
    exact ⟨hne, rfl⟩

theorem udp_relay_recipients_witness :
    (udp_relay_step "KEY".toList (fun _ => { sin_addr := 7, sin_port := 0 })
        { clients_ :=
            [(1, { socket := 1, name := "A".toList, running := true, receiver := { buffer_ := [] },
                   udp_addr := { sin_addr := 7, sin_port := 5000 }, udp_registered := true }),
             (2, { socket := 2, name := "B".toList, running := true, receiver := { buffer_ := [] },
                   udp_addr := { sin_addr := 9, sin_port := 6000 }, udp_registered := true })],
          authenticated_udp_peers_ := [{ sin_addr := 7, sin_port := 5000 }] }
        { sin_addr := 7, sin_port := 5000 } "voice".toList).2
      = [({ sin_addr := 9, sin_port := 6000 }, "voice".toList)] :=
  (udp_relay_recipients "KEY".toList (fun _ => { sin_addr := 7, sin_port := 0 })
    { clients_ :=
        [(1, { socket := 1, name := "A".toList, running := true, receiver := { buffer_ := [] },
               udp_addr := { sin_addr := 7, sin_port := 5000 }, udp_registered := true }),
         (2, { socket := 2, name := "B".toList, running := true, receiver := { buffer_ := [] },
               udp_addr := { sin_addr := 9, sin_port := 6000 }, udp_registered := true })],
      authenticated_udp_peers_ := [{ sin_addr := 7, sin_port := 5000 }] }
    { sin_addr := 7, sin_port := 5000 } "voice".toList "voice".toList
    (Or.inl ⟨by decide, rfl⟩) (by decide) (by decide)).2.1

/-- An authenticated address sends a datagram of 4097 bytes while a session is
UDP-registered at another address: the datagram is not sent to that session byte
for byte. -/
theorem udp_oversize_relay_counterexample :
    (List.replicate 4097 'v').length = 4097 ∧
      (({ sin_addr := 9, sin_port := 6000 }, List.replicate 4097 'v') : udp_send) ∉
        (udp_relay_step "KEY".toList (fun _ => { sin_addr := 7, sin_port := 0 })
          { clients_ :=
              [(2, { socket := 2, name := "B".toList, running := true,
                     receiver := { buffer_ := [] },
                     udp_addr := { sin_addr := 9, sin_port := 6000 }, udp_registered := true })],
            authenticated_udp_peers_ := [{ sin_addr := 7, sin_port := 5000 }] }
          { sin_addr := 7, sin_port := 5000 }
          (List.replicate 4097 'v')).2 := by
  have hlen : (List.replicate 4097 'v').length = 4097 := List.length_replicate _ _
  refine ⟨hlen, ?_⟩
  rw [udp_relay_step_oversize _ _ _ _ _ (by rw [hlen]; decide)]
  exact List.not_mem_nil _

/-! ### Rejected payloads -/

theorem parse_payload_none_of_endpoints (payload : List Char)
    (h : parse_endpoints payload = none ∨ parse_endpoints payload = some []) :
    parse_payload payload = none := by
  unfold parse_payload
  rcases h with h | h <;> simp [h]

theorem add_endpoint_invalid (endpoints : List endpoint) (port : Int) (ip : List Char)
    (h : inet_pton (c_str ip) = false) : add_endpoint endpoints port ip = endpoints := by
  unfold add_endpoint
  by_cases h1 : ip = []
  · rw [if_pos h1]
  · rw [if_neg h1, if_pos h]

/-- Claim C11 as amended: a `v2|` payload is rejected when it does not have exactly
four fields, when `std::stoi` reads no integer at the start of the port field, when
the integer read is outside 1..65535, and when neither address field, read as a C
string up to its first zero byte, is a valid IPv4 address.  (What follows the
integer in the port field is not looked at.) -/
theorem parse_rejects_bad_structure (key password payload : List Char)
    (hd : decipher key password = .ok payload)
    (hpre : "v2|".toList.isPrefixOf payload = true)
    (hbad : (split_at '|' payload).length ≠ 4 ∨
      stoi ((split_at '|' payload).getD 3 []) = none ∨
      (∃ port, stoi ((split_at '|' payload).getD 3 []) = some port ∧
        (port < 1 ∨ port > 65535)) ∨
      (inet_pton (c_str ((split_at '|' payload).getD 1 [])) = false ∧
        inet_pton (c_str ((split_at '|' payload).getD 2 [])) = false)) :
    parse_join_key key password = .ok none := by
  have hp : parse_payload payload = none := by
    apply parse_payload_none_of_endpoints
    simp only [parse_endpoints, hpre, if_true]
    by_cases hlen : (split_at '|' payload).length = 4
    swap
    · left; simp [hlen]
    simp only [hlen, ne_eq, not_true_eq_false, if_false]
    cases hst : stoi ((split_at '|' payload).getD 3 []) with
    | none => left; rfl
    | some port =>
      simp only
      by_cases hr : port ≤ 0 ∨ port > 65535
      · left; rw [if_pos hr]
      · rw [if_neg hr]
        right
        rcases hbad with h | h | ⟨q, hq, hq2⟩ | ⟨h1, h2⟩
        · exact absurd hlen h
        · rw [hst] at h; cases h
        · rw [hst] at hq
          simp only [Option.some.injEq] at hq
          subst hq
          exact absurd (by omega) hr
        · rw [add_endpoint_invalid _ _ _ h1, add_endpoint_invalid _ _ _ h2]
  simp only [parse_join_key, hd, hp]

theorem parse_rejects_bad_structure_witness :
    parse_join_key "EF0EUkZTWgIcBU5XX1ZTRlFaAE4IC19WQQ==".toList "foxchat1212".toList = .ok none :=
  parse_rejects_bad_structure "EF0EUkZTWgIcBU5XX1ZTRlFaAE4IC19WQQ==".toList
    "foxchat1212".toList "v2|1.2.3.4|10.0.0.1|99999".toList (by decide) (by decide)
    (Or.inr (Or.inr (Or.inl ⟨99999, by decide, by decide⟩)))

/-- Claim C11 fails as stated: the payload `v2|1.2.3.4|10.0.0.1|80abc`, whose port field
is digits followed by other characters, is accepted with port 80. -/
theorem parse_trailing_garbage_counterexample :
    decipher "EF0EUkZTWgIcBU5XX1ZTRlFaAE4JAgcNGw==".toList "foxchat1212".toList
        = .ok "v2|1.2.3.4|10.0.0.1|80abc".toList ∧
      parse_join_key "EF0EUkZTWgIcBU5XX1ZTRlFaAE4JAgcNGw==".toList "foxchat1212".toList
        = .ok (some [("1.2.3.4".toList, 80), ("10.0.0.1".toList, 80)]) := by
  decide

/-! ### Faults of the decoder -/

/-- With a non-empty password `parse_join_key` always returns. -/
theorem parse_join_key_returns (key password : List Char) (hp : password ≠ []) :
    ∃ r, parse_join_key key password = .ok r := by
  have hb : ∀ (data : List Nat) (i : Nat), ∃ out, xor_password password i data = .ok out := by
    intro data
    induction data with
    | nil => intro i; exact ⟨[], rfl⟩
    | cons b bs ih =>
      intro i
      obtain ⟨rest, hrest⟩ := ih (i + 1)
      have hl : password.length ≠ 0 := fun h => hp (List.length_eq_zero.mp h)
      exact ⟨((b ^^^ key_byte password i) % 256) :: rest, by
        simp only [xor_password, hl, if_false, hrest]⟩
  obtain ⟨out, hout⟩ := hb (base64.decode key) 0
  exact ⟨parse_payload (out.map Char.ofNat), by simp only [parse_join_key, decipher, hout]⟩

/-- Claim C12 at the empty password: `parse_join_key` returns the failure value only
when the key decodes to no byte at all; on every other key its first loop pass
computes `i % 0`. -/
theorem parse_join_key_empty_password (key : List Char) :
    parse_join_key key [] =
      if base64.decode key = [] then .ok none else .error fault.division_by_zero := by
  cases h : base64.decode key with
  | nil => simp [parse_join_key, decipher, h, xor_password, parse_payload, parse_endpoints,
      rfind, List.isPrefixOf]
  | cons b bs => simp [parse_join_key, decipher, h, xor_password]

/-! ### Shape of the text encoding -/

theorem sym_mem_fin : ∀ i : Fin 64, base64.sym i.val ∈ base64.chars := by decide

theorem sym_mem_chars (i : Nat) : base64.sym i ∈ base64.chars := by
  by_cases h : i < 64
  · exact sym_mem_fin ⟨i, h⟩
  · have hl : base64.chars.length ≤ i := by
      have : base64.chars.length = 64 := by decide
      omega
    have hA : 'A' ∈ base64.chars := by decide
    unfold base64.sym
    rw [List.getD_eq_default _ _ hl]
    exact hA

theorem pad_not_symbol : '=' ∉ base64.chars := by decide

theorem encode_loop_format :
    ∀ (data : List Nat) (val : Nat),
      ∃ (body : List Char) (k : Nat),
        base64.encode_pad 3 (base64.encode_loop val (-6) data) = body ++ List.replicate k '=' ∧
        k ≤ 2 ∧ (∀ c ∈ body, c ∈ base64.chars) ∧
        body.length + k = 4 * ((data.length + 2) / 3)
  | [], val => ⟨[], 0, by rw [base64.enc_nil6]; rfl, by omega, by simp, by simp⟩
  | [a], val => by
    refine ⟨(base64.encode_pad 3 (base64.encode_loop val (-6) [a])).take 2, 2, ?_, le_refl 2,
      ?_, ?_⟩ <;>
      rw [base64.enc_step6, base64.enc_nil4, base64.encode_pad_two]
    · rfl
    · intro c hc
      simp only [List.take_succ_cons, List.take_zero, List.mem_cons, List.mem_singleton,
        List.not_mem_nil, or_false] at hc
      rcases hc with rfl | rfl <;> exact sym_mem_chars _
    · simp
  | [a, b], val => by
    refine ⟨(base64.encode_pad 3 (base64.encode_loop val (-6) [a, b])).take 3, 1, ?_, by omega,
      ?_, ?_⟩ <;>
      rw [base64.enc_step6, base64.enc_step4, base64.enc_nil2, base64.encode_pad_three]
    · rfl
    · intro c hc
      simp only [List.take_succ_cons, List.take_zero, List.mem_cons, List.mem_singleton,
        List.not_mem_nil, or_false] at hc
      rcases hc with rfl | rfl | rfl <;> exact sym_mem_chars _
    · simp
  | a :: b :: c :: rest, val => by
    rw [base64.enc_step6, base64.enc_step4, base64.enc_step2, base64.encode_pad_chunk]
    obtain ⟨body, k, h1, h2, h3, h4⟩ := encode_loop_format rest
      (let v1 := ((val <<< 8) + a) % 2 ^ 32
       let v2 := ((v1 <<< 8) + b) % 2 ^ 32
       ((v2 <<< 8) + c) % 2 ^ 32)
    simp only at h1
    refine ⟨_ :: _ :: _ :: _ :: body, k, by rw [h1]; rfl, h2, ?_, ?_⟩
    · intro x hx
      simp only [List.mem_cons] at hx
      rcases hx with rfl | rfl | rfl | rfl | hx
      · exact sym_mem_chars _
      · exact sym_mem_chars _
      · exact sym_mem_chars _
      · exact sym_mem_chars _
      · exact h3 x hx
    · simp only [List.length_cons] at h4 ⊢
      omega

/-- Claim C13: for every byte sequence of length `n`, `base64::encode` returns
`4 * ceil(n / 3)` characters: symbols of the 64-character alphabet followed by at
most two `=`, which is not in the alphabet and so occurs only at the end.  The
accumulator is reduced modulo `2 ^ 32` throughout. -/
theorem encode_format (data : List Nat) :
    (base64.encode data).length = 4 * ((data.length + 2) / 3) ∧
      (base64.encode data).length % 4 = 0 ∧
      '=' ∉ base64.chars ∧
      ∃ (body : List Char) (k : Nat),
        base64.encode data = body ++ List.replicate k '=' ∧ k ≤ 2 ∧
          ∀ c ∈ body, c ∈ base64.chars := by
  obtain ⟨body, k, h1, h2, h3, h4⟩ := encode_loop_format data 0
  have hlen : (base64.encode data).length = 4 * ((data.length + 2) / 3) := by
    unfold base64.encode
    rw [h1, List.length_append, List.length_replicate, h4]
  refine ⟨hlen, by rw [hlen]; omega, pad_not_symbol, body, k, h1, h2, h3⟩

/-! ### Line splitting -/

theorem split_at_no_sep_mem (sep : Char) :
    ∀ (s : List Char), ∀ f ∈ split_at sep s, sep ∉ f
  | [], f, hf => by
    simp only [split_at, List.mem_singleton] at hf
    subst hf; simp
  | c :: cs, f, hf => by
    by_cases hc : c = sep
    · simp only [split_at, hc, if_true, List.mem_cons] at hf
      rcases hf with rfl | hf
      · simp
      · exact split_at_no_sep_mem sep cs f hf
    · cases hs : split_at sep cs with
      | nil => exact absurd hs (split_at_ne_nil sep cs)
      | cons g gs =>
        rw [split_at_cons_of_ne sep c cs g gs hc hs] at hf
        have ih := split_at_no_sep_mem sep cs
        rw [hs] at ih
        rcases List.mem_cons.mp hf with rfl | hf
        · intro hm
          rcases List.mem_cons.mp hm with e | e
          · exact hc e.symm
          · exact ih g (by simp) e
        · exact ih f (by simp [hf])

/-- Splitting a concatenation: the complete segments of the first part, then the
segments of its last segment followed by the second part. -/
theorem split_at_concat (sep : Char) (y : List Char) :
    ∀ x : List Char,
      split_at sep (x ++ y) =
        (split_at sep x).dropLast ++ split_at sep ((split_at sep x).getLastD [] ++ y)
  | [] => by simp [split_at]
  | c :: cs => by
    have ih := split_at_concat sep y cs
    by_cases hc : c = sep
    · subst hc
      have e1 : split_at c (c :: cs) = [] :: split_at c cs := by simp [split_at]
      have e2 : split_at c (c :: cs ++ y) = [] :: split_at c (cs ++ y) := by simp [split_at]
      rw [e1, e2, ih, List.dropLast_cons_of_ne_nil (split_at_ne_nil c cs)]
      cases hs : split_at c cs with
      | nil => exact absurd hs (split_at_ne_nil c cs)
      | cons g gs => simp [List.getLastD_cons, List.getLastD_nil]
    · cases hs : split_at sep cs with
      | nil => exact absurd hs (split_at_ne_nil sep cs)
      | cons g gs =>
        rw [split_at_cons_of_ne sep c cs g gs hc hs]
        rw [hs] at ih
        cases gs with
        | nil =>
          simp only [List.dropLast_single, List.getLastD_cons, List.getLastD_nil,
            List.nil_append, List.cons_append] at ih ⊢
          cases hs2 : split_at sep (g ++ y) with
          | nil => exact absurd hs2 (split_at_ne_nil sep _)
          | cons u us =>
            rw [hs2] at ih
            rw [split_at_cons_of_ne sep c (g ++ y) u us hc hs2]
            exact split_at_cons_of_ne sep c (cs ++ y) u us hc ih
        | cons g2 gs2 =>
          have hd : (g :: g2 :: gs2).dropLast = g :: (g2 :: gs2).dropLast := rfl
          have hd2 : ((c :: g) :: g2 :: gs2).dropLast = (c :: g) :: (g2 :: gs2).dropLast := rfl
          have hl : ((c :: g) :: g2 :: gs2).getLastD [] = (g :: g2 :: gs2).getLastD [] := by
            simp [List.getLastD_cons, List.getLastD_nil]
          rw [hd] at ih
          rw [hd2, hl, List.cons_append]
          exact split_at_cons_of_ne sep c (cs ++ y) g _ hc ih

theorem getLastD_of_ne_nil {α : Type} :
    ∀ (l : List α) (a b : α), l ≠ [] → l.getLastD a = l.getLastD b
  | [], _, _, h => absurd rfl h
  | _ :: _, _, _, _ => rfl

theorem getLastD_mem {α : Type} :
    ∀ (l : List α) (a : α), l ≠ [] → l.getLastD a ∈ l
  | [], _, h => absurd rfl h
  | [x], a, _ => by simp [List.getLastD_cons, List.getLastD_nil]
  | x :: y :: ys, a, _ => by
    have ih := getLastD_mem (y :: ys) x (by simp)
    rw [List.getLastD_cons]
    exact List.mem_cons_of_mem x ih

theorem getLastD_append {α : Type} (l2 : List α) (h : l2 ≠ []) :
    ∀ (l1 : List α) (a : α), (l1 ++ l2).getLastD a = l2.getLastD a
  | [], _ => rfl
  | x :: xs, a => by
    rw [List.cons_append, List.getLastD_cons, getLastD_append l2 h xs x]
    exact getLastD_of_ne_nil l2 x a h

theorem get_line_some (buf : List Char) (h : '\n' ∈ buf) :
    line_receiver.get_line { buffer_ := buf } =
      some (strip_cr (buf.take (buf.indexOf '\n')),
        { buffer_ := buf.drop (buf.indexOf '\n' + 1) }) := by
  simp only [line_receiver.get_line, h, if_true, strip_cr]

/-- All complete lines of a buffer, and what stays buffered. -/
theorem drain_spec :
    ∀ (fuel : Nat) (buf : List Char), buf.length < fuel →
      line_receiver.drain fuel { buffer_ := buf } =
        (((split_at '\n' buf).dropLast).map strip_cr,
          { buffer_ := (split_at '\n' buf).getLastD [] })
  | 0, buf, h => absurd h (Nat.not_lt_zero _)
  | fuel + 1, buf, h => by
    by_cases hn : '\n' ∈ buf
    · obtain ⟨hsplit, hnot⟩ := indexOf_split '\n' buf hn
      have hlen : (buf.drop (buf.indexOf '\n' + 1)).length < fuel := by
        have := congrArg List.length hsplit
        simp only [List.length_append, List.length_cons] at this
        omega
      have ih := drain_spec fuel (buf.drop (buf.indexOf '\n' + 1)) hlen
      have hs : split_at '\n' buf = buf.take (buf.indexOf '\n') ::
          split_at '\n' (buf.drop (buf.indexOf '\n' + 1)) := by
        conv_lhs => rw [hsplit]
        exact split_at_append '\n' _ _ hnot
      have hne := split_at_ne_nil '\n' (buf.drop (buf.indexOf '\n' + 1))
      simp only [line_receiver.drain, get_line_some buf hn, ih]
      rw [hs, List.dropLast_cons_of_ne_nil hne, List.getLastD_cons,
        getLastD_of_ne_nil (split_at '\n' (buf.drop (buf.indexOf '\n' + 1)))
          (buf.take (buf.indexOf '\n')) [] hne, List.map_cons]
    · simp only [line_receiver.drain, get_line_none buf hn, split_at_no_sep '\n' buf hn]
      rfl

/-- Feeding chunks into a receiver whose buffer holds no newline. -/
theorem feed_chunks_spec :
    ∀ (chunks : List (List Char)) (b : List Char), '\n' ∉ b →
      line_receiver.feed_chunks { buffer_ := b } chunks =
        (((split_at '\n' (b ++ chunks.flatten)).dropLast).map strip_cr,
          { buffer_ := (split_at '\n' (b ++ chunks.flatten)).getLastD [] })
  | [], b, hb => by
    simp only [line_receiver.feed_chunks, List.flatten_nil, List.append_nil,
      split_at_no_sep '\n' b hb]
    rfl
  | c :: cs, b, hb => by
    have hd := drain_spec ((b ++ c).length + 1) (b ++ c) (Nat.lt_succ_self _)
    have hne1 := split_at_ne_nil '\n' (b ++ c)
    have hlast : '\n' ∉ (split_at '\n' (b ++ c)).getLastD [] :=
      split_at_no_sep_mem '\n' (b ++ c) _ (getLastD_mem _ _ hne1)
    have ih := feed_chunks_spec cs _ hlast
    have hne2 := split_at_ne_nil '\n' ((split_at '\n' (b ++ c)).getLastD [] ++ cs.flatten)
    have hcat : split_at '\n' (b ++ (c :: cs).flatten) =
        (split_at '\n' (b ++ c)).dropLast ++
          split_at '\n' ((split_at '\n' (b ++ c)).getLastD [] ++ cs.flatten) := by
      rw [List.flatten_cons, ← List.append_assoc]
      exact split_at_concat '\n' cs.flatten (b ++ c)
    simp only [line_receiver.feed_chunks, line_receiver.feed, hd, ih]
    rw [hcat, List.dropLast_append_of_ne_nil _ hne2, List.map_append,
      getLastD_append _ hne2]

theorem strip_cr_no_newline (f : List Char) (h : '\n' ∉ f) : '\n' ∉ strip_cr f := by
  unfold strip_cr
  split
  · exact fun hm => h (List.dropLast_subset f hm)
  · exact h

/-- Claim C14: whatever the chunks fed, the lines returned by repeated `get_line` are
the segments of the concatenated input that a newline ends, in order, each without
one trailing carriage return; the last, unterminated segment stays buffered; no
line holds a newline, and two ways of cutting the same input give the same result. -/
theorem line_splitting (chunks : List (List Char)) :
    (line_receiver.feed_chunks { buffer_ := [] } chunks).1 =
        ((split_at '\n' chunks.flatten).dropLast).map strip_cr ∧
      (line_receiver.feed_chunks { buffer_ := [] } chunks).2.buffer_ =
        (split_at '\n' chunks.flatten).getLastD [] ∧
      (∀ l ∈ (line_receiver.feed_chunks { buffer_ := [] } chunks).1, '\n' ∉ l) ∧
      ∀ chunks2 : List (List Char), chunks2.flatten = chunks.flatten →
        line_receiver.feed_chunks { buffer_ := [] } chunks2 =
          line_receiver.feed_chunks { buffer_ := [] } chunks := by
  have h := feed_chunks_spec chunks [] (by simp)
  rw [List.nil_append] at h
  refine ⟨by rw [h], by rw [h], ?_, ?_⟩
  · intro l hl
    rw [h] at hl
    simp only [List.mem_map] at hl
    obtain ⟨f, hf, rfl⟩ := hl
    exact strip_cr_no_newline f
      (split_at_no_sep_mem '\n' _ f (List.dropLast_subset _ hf))
  · intro chunks2 h2
    have h' := feed_chunks_spec chunks2 [] (by simp)
    rw [List.nil_append, h2] at h'
    rw [h, h']

/-! ## Staleness reset of the playback ring -/

theorem string_find_iff (pat : List Char) :
    ∀ s : List Char, string_find pat s ≠ none ↔ pat <:+: s
  | [] => by
    simp only [string_find, List.infix_nil]
    by_cases h : pat = [] <;> simp [h]
  | c :: cs => by
    have ih := string_find_iff pat cs
    simp only [string_find]
    by_cases hp : pat.isPrefixOf (c :: cs) = true
    · simp only [hp, if_true, ne_eq, reduceCtorEq, not_false_eq_true, true_iff]
      exact (List.isPrefixOf_iff_prefix.mp hp).isInfix
    · have hp2 : ¬ pat <+: c :: cs := fun h => hp (List.isPrefixOf_iff_prefix.mpr h)
      simp only [hp, if_false, List.infix_cons_iff, hp2, false_or, Bool.false_eq_true]
      rw [← ih]
      cases string_find pat cs <;> simp

/-- Claim C16, as amended: `join_room` goes past the handshake exactly when its one
read returns bytes and the first 255 of them hold "OK" somewhere; in every other
case (no such text, an empty read, a timeout, a closed connection) it closes the
socket, reports the error to the listener when there is one, and returns false. -/
theorem join_verdict (has_listener : Bool) (r : recv_result) :
    ((join_room_verdict has_listener r).1 = true ↔
        ∃ bytes, r = recv_result.data bytes ∧ "OK".toList <:+: bytes.take 255) ∧
      ((join_room_verdict has_listener r).1 = true → (join_room_verdict has_listener r).2 = []) ∧
      ((join_room_verdict has_listener r).1 = false →
        (join_room_verdict has_listener r).2 =
          client_action.closesocket ::
            (if has_listener then
              [client_action.on_transport_error "Server rejected join handshake.".toList]
            else [])) := by
  have hnil : ¬ "OK".toList <:+: ([] : List Char) := by
    rw [List.infix_nil]; decide
  have key : ∀ response : List Char,
      (response.length ≤ 0 ∨ string_find "OK".toList response = none) ↔
        ¬ "OK".toList <:+: response := by
    intro response
    rw [← string_find_iff]
    constructor
    · rintro (h | h)
      · have : response = [] := List.length_eq_zero.mp (by omega)
        subst this
        decide
      · exact fun hn => hn h
    · intro h
      exact Or.inr (not_not.mp h)
  unfold join_room_verdict
  cases r with
  | data bytes =>
    by_cases h : "OK".toList <:+: bytes.take 255
    · have hk := (key (bytes.take 255)).not.mpr (not_not.mpr h)
      simp only [hk, if_false, true_iff, forall_true_left, reduceCtorEq, false_implies,
        and_true, true_and]
      exact ⟨bytes, rfl, h⟩
    · have hk := (key (bytes.take 255)).mpr h
      simp only [hk, if_true, Bool.false_eq_true, false_iff, false_implies, forall_true_left,
        and_true, true_and]
      rintro ⟨b, hb, hin⟩
      cases hb
      exact h hin
  | timeout =>
    have hk := (key []).mpr hnil
    simp only [hk, if_true, Bool.false_eq_true, false_iff, false_implies, forall_true_left,
      and_true, true_and, reduceCtorEq, false_and, exists_false, not_false_eq_true]
  | closed =>
    have hk := (key []).mpr hnil
    simp only [hk, if_true, Bool.false_eq_true, false_iff, false_implies, forall_true_left,
      and_true, true_and, reduceCtorEq, false_and, exists_false, not_false_eq_true]

/-- The response "ERR TOKEN\n" is not "OK\n", yet `join_room` accepts it: it holds
the letters "OK". -/
theorem join_verdict_counterexample :
    "ERR TOKEN\n".toList ≠ "OK\n".toList ∧
      join_room_verdict true (recv_result.data "ERR TOKEN\n".toList) = (true, []) := by
  decide

/-! ## Order of the connect attempts -/

theorem try_endpoints_in_order (outcome : Nat → connect_outcome) :
    ∀ (eps : List endpoint) (i : Nat), (try_endpoints outcome i eps).attempted <+: eps
  | [], _ => by simp [try_endpoints]
  | ep :: rest, i => by
    have ih := try_endpoints_in_order outcome rest (i + 1)
    unfold try_endpoints
    cases outcome i with
    | socket_failed => exact List.nil_prefix
    | connected => exact List.prefix_cons_inj ep |>.mpr List.nil_prefix
    | connect_failed => exact (List.prefix_cons_inj ep).mpr ih

/-- The first pass whose `connect` succeeds ends the loop: the endpoints before it
were attempted in order, it is the one used, and none after it is attempted. -/
theorem try_endpoints_first (outcome : Nat → connect_outcome) :
    ∀ (eps : List endpoint) (i k : Nat) (hk : k < eps.length),
      outcome (i + k) = connect_outcome.connected →
      (∀ j, j < k → outcome (i + j) = connect_outcome.connect_failed) →
      try_endpoints outcome i eps =
        { attempted := eps.take (k + 1), status := connect_status.connected (eps.get ⟨k, hk⟩) }
  | [], _, _, hk, _, _ => absurd hk (Nat.not_lt_zero _)
  | ep :: rest, i, 0, _, hc, _ => by
    rw [Nat.add_zero] at hc
    simp only [try_endpoints, hc, List.take_succ_cons, List.take_zero]
    rfl
  | ep :: rest, i, k + 1, hk, hc, hf => by
    have h0 : outcome i = connect_outcome.connect_failed := hf 0 (Nat.succ_pos k)
    have hk2 : k < rest.length := Nat.lt_of_succ_lt_succ hk
    have ih := try_endpoints_first outcome rest (i + 1) k hk2
      (by rw [Nat.add_assoc, Nat.add_comm 1 k]; exact hc)
      (fun j hj => by
        have := hf (j + 1) (Nat.succ_lt_succ hj)
        rw [Nat.add_assoc, Nat.add_comm 1 j]; exact this)
    simp only [try_endpoints, h0, ih, List.take_succ_cons, List.get_cons_succ]

/-- When the loop ends connected, the endpoint used is the first whose `connect`
succeeded: every pass before it failed in `connect`. -/
theorem try_endpoints_connected (outcome : Nat → connect_outcome) :
    ∀ (eps : List endpoint) (i : Nat) (ep : endpoint),
      (try_endpoints outcome i eps).status = connect_status.connected ep →
      ∃ k, ∃ hk : k < eps.length, eps.get ⟨k, hk⟩ = ep ∧
        outcome (i + k) = connect_outcome.connected ∧
        (∀ j, j < k → outcome (i + j) = connect_outcome.connect_failed) ∧
        (try_endpoints outcome i eps).attempted = eps.take (k + 1)
  | [], _, _, h => by simp [try_endpoints] at h
  | e :: rest, i, ep, h => by
    unfold try_endpoints at h ⊢
    cases ho : outcome i with
    | socket_failed => rw [ho] at h; simp at h
    | connected =>
      rw [ho] at h
      simp only [connect_status.connected.injEq] at h
      refine ⟨0, Nat.succ_pos _, ?_, ho, fun j hj => absurd hj (Nat.not_lt_zero _), ?_⟩
      · simpa using h
      · simp
    | connect_failed =>
      rw [ho] at h
      obtain ⟨k, hk, hget, hc, hf, hatt⟩ := try_endpoints_connected outcome rest (i + 1) ep h
      refine ⟨k + 1, Nat.succ_lt_succ hk, ?_, ?_, ?_, ?_⟩
      · simpa using hget
      · rw [← Nat.add_assoc, Nat.add_right_comm]; exact hc
      · intro j hj
        cases j with
        | zero => exact ho
        | succ j =>
          have := hf j (Nat.lt_of_succ_lt_succ hj)
          rw [← Nat.add_assoc, Nat.add_right_comm]; exact this
      · simp only [hatt, List.take_succ_cons]

/-- Claim C17: a join that is not the host's keeps the decoded list, the host's
replaces it by the loopback address with the port of the first decoded endpoint;
the connect loop attempts a prefix of its list in order, uses the first endpoint
whose connect succeeds and attempts none after it. -/
theorem endpoint_attempt_order (outcome : Nat → connect_outcome) (decoded : List endpoint)
    (hne : decoded ≠ []) :
    join_candidates false decoded = some decoded ∧
      join_candidates true decoded = some [("127.0.0.1".toList, (decoded.head hne).2)] ∧
      ∀ eps : List endpoint,
        (try_endpoints outcome 0 eps).attempted <+: eps ∧
        (∀ (k : Nat) (hk : k < eps.length),
          outcome k = connect_outcome.connected →
          (∀ j, j < k → outcome j = connect_outcome.connect_failed) →
          try_endpoints outcome 0 eps =
            { attempted := eps.take (k + 1),
              status := connect_status.connected (eps.get ⟨k, hk⟩) }) ∧
        ∀ ep, (try_endpoints outcome 0 eps).status = connect_status.connected ep →
          ∃ k, ∃ hk : k < eps.length, eps.get ⟨k, hk⟩ = ep ∧
            outcome k = connect_outcome.connected ∧
            (∀ j, j < k → outcome j = connect_outcome.connect_failed) ∧
            (try_endpoints outcome 0 eps).attempted = eps.take (k + 1) := by
  refine ⟨rfl, ?_, fun eps => ⟨try_endpoints_in_order outcome eps 0, ?_, ?_⟩⟩
  · cases decoded with
    | nil => exact absurd rfl hne
    | cons front rest => rfl
  · intro k hk hc hf
    exact try_endpoints_first outcome eps 0 k hk (by rw [Nat.zero_add]; exact hc)
      (fun j hj => by rw [Nat.zero_add]; exact hf j hj)
  · intro ep h
    obtain ⟨k, hk, hget, hc, hf, hatt⟩ := try_endpoints_connected outcome eps 0 ep h
    refine ⟨k, hk, hget, ?_, ?_, hatt⟩
    · rw [Nat.zero_add] at hc; exact hc
    · intro j hj
      have := hf j hj
      rw [Nat.zero_add] at this; exact this

theorem endpoint_attempt_order_witness :
    join_candidates true [("203.0.113.7".toList, 7777), ("192.168.1.5".toList, 7777)] =
        some [("127.0.0.1".toList, 7777)] ∧
      try_endpoints
          (fun i => if i = 0 then connect_outcome.connect_failed else connect_outcome.connected)
          0 [("203.0.113.7".toList, 7777), ("192.168.1.5".toList, 7777)] =
        { attempted := [("203.0.113.7".toList, 7777), ("192.168.1.5".toList, 7777)],
          status := connect_status.connected ("192.168.1.5".toList, 7777) } :=
  have h := endpoint_attempt_order
    (fun i => if i = 0 then connect_outcome.connect_failed else connect_outcome.connected)
    [("203.0.113.7".toList, 7777), ("192.168.1.5".toList, 7777)] (by decide)
  ⟨h.2.1, (h.2.2 [("203.0.113.7".toList, 7777), ("192.168.1.5".toList, 7777)]).2.1 1
    (by decide) (by decide) (by decide)⟩

/-! ## Voice port -/

/-- Claim C18: the port the server binds its UDP relay to and the port the client
sends voice to are both the room port plus one in 16-bit unsigned arithmetic: `p + 1`
for every port below 65535, and 0 for 65535. -/
theorem voice_port_convention (p : Nat) :
    server_udp_port p = (p + 1) % 2 ^ 16 ∧
      join_room_voice_port p = (p + 1) % 2 ^ 16 ∧
      join_room_voice_port p = server_udp_port p ∧
      (p < 65535 → server_udp_port p = p + 1 ∧ join_room_voice_port p = p + 1) ∧
      (p = 65535 → server_udp_port p = 0 ∧ join_room_voice_port p = 0) := by
  refine ⟨rfl, rfl, rfl, fun h => ?_, fun h => ?_⟩
  · simp only [server_udp_port, join_room_voice_port, to_uint16]
    exact ⟨Nat.mod_eq_of_lt (by omega), Nat.mod_eq_of_lt (by omega)⟩
  · subst h
    exact ⟨rfl, rfl⟩

/-! ## Room state on leave and disconnect -/

/-- Claim C19, as amended: the disconnect event leaves the transport offline and the
users, id and code empty; the room-left event leaves id, code, title and users
empty and `in_voice` false, and does not change the transport; after both
events, in either order, the room state is the empty state. -/
theorem room_state_cleared (s : room_state) :
    ((on_transport_disconnected s).transport = transport_state.offline ∧
        (on_transport_disconnected s).users = [] ∧
        (on_transport_disconnected s).id = [] ∧
        (on_transport_disconnected s).code = []) ∧
      on_room_left s = { room_state.empty with transport := s.transport } ∧
      on_room_left (on_transport_disconnected s) = room_state.empty ∧
      on_transport_disconnected (on_room_left s) = room_state.empty :=
  ⟨⟨rfl, rfl, rfl, rfl⟩, rfl, rfl, rfl⟩

/-- Neither event alone empties the state of a joined room: the title and `in_voice`
outlive the disconnect event, and the transport stays online after the room-left
event. -/
theorem room_state_counterexample :
    on_transport_disconnected
        { id := "room-joined".toList, code := "QUJD".toList, title := "Fox Chat".toList,
          transport := transport_state.online, in_voice := true, users := [1] } ≠
        room_state.empty ∧
      on_room_left
        { id := "room-joined".toList, code := "QUJD".toList, title := "Fox Chat".toList,
          transport := transport_state.online, in_voice := true, users := [1] } ≠
        room_state.empty := by
  decide

/-! ## A chat line from the server to the joined client -/

theorem text_chat_fold_capacity (msgs : List message) :
    ∀ t : text_chat, (msgs.foldl text_chat.add_message t).capacity_ = t.capacity_ := by
  induction msgs with
  | nil => intro t; rfl
  | cons m rest ih => intro t; rw [List.foldl_cons, ih]; rfl

/-- The history after a run of `add_message` calls on a history that is not over its
capacity: the last `capacity_` messages of all messages so far. -/
theorem text_chat_fold_messages (msgs : List message) :
    ∀ t : text_chat, 1 ≤ t.capacity_ → t.messages_.length ≤ t.capacity_ →
      (msgs.foldl text_chat.add_message t).messages_ =
        (t.messages_ ++ msgs).drop ((t.messages_ ++ msgs).length - t.capacity_) := by
  induction msgs with
  | nil =>
    intro t _ hlen
    simp only [List.foldl_nil, List.append_nil]
    rw [Nat.sub_eq_zero_of_le hlen, List.drop_zero]
  | cons m rest ih =>
    intro t hcap hlen
    rw [List.foldl_cons]
    by_cases hfull : t.messages_.length ≥ t.capacity_
    · have heq : t.messages_.length = t.capacity_ := Nat.le_antisymm hlen hfull
      have hadd : (t.add_message m).messages_ = t.messages_.drop 1 ++ [m] := by
        simp only [text_chat.add_message, hfull, if_true]
      have hcapeq : (t.add_message m).capacity_ = t.capacity_ := rfl
      have hl2 : (t.add_message m).messages_.length ≤ (t.add_message m).capacity_ := by
        rw [hadd, hcapeq, List.length_append, List.length_drop, List.length_singleton]
        omega
      rw [ih (t.add_message m) hcap hl2, hcapeq, hadd]
      cases hms : t.messages_ with
      | nil => rw [hms] at heq; simp at heq; omega
      | cons x xs =>
        rw [hms] at heq
        simp only [List.length_cons] at heq
        simp only [List.drop_succ_cons, List.drop_zero, List.append_assoc, List.singleton_append,
          List.length_append, List.length_cons, List.cons_append, List.nil_append,
          List.length_nil, Nat.zero_add]
        have h1 : xs.length + (rest.length + 1) - t.capacity_ = rest.length := by omega
        have h2 : xs.length + (rest.length + 1) + 1 - t.capacity_ = rest.length + 1 := by omega
        rw [h1, h2, List.drop_succ_cons]
    · have hadd : (t.add_message m).messages_ = t.messages_ ++ [m] := by
        simp only [text_chat.add_message, hfull, if_false]
      have hcapeq : (t.add_message m).capacity_ = t.capacity_ := rfl
      have hl2 : (t.add_message m).messages_.length ≤ (t.add_message m).capacity_ := by
        rw [hadd, hcapeq, List.length_append, List.length_singleton]
        omega
      rw [ih (t.add_message m) hcap hl2, hcapeq, hadd]
      simp only [List.append_assoc, List.singleton_append]

/-- When `reserve` throws, the constructor gives no `text_chat`. -/
theorem text_chat_create_throws (reserve : Nat → Bool) (c : Nat)
    (hc : c < 2 ^ 64) (h : reserve (max 1 c) = false) : text_chat.create reserve c = none := by
  simp only [text_chat.create, Nat.mod_eq_of_lt hc, h, Bool.false_eq_true, if_false]

/-- Claim C30: for every requested capacity `c` (a `std::size_t`) for which the
constructor returns a new `text_chat`, and every run of `add_message` calls on it,
the capacity is `max 1 c`, the size does not exceed it, and `get_messages` is the
last `min n (max 1 c)` added messages in insertion order. -/
theorem bounded_chat_history (reserve : Nat → Bool) (c : Nat) (t0 : text_chat)
    (msgs : List message) (hc : c < 2 ^ 64)
    (hnew : text_chat.create reserve c = some t0) :
    (msgs.foldl text_chat.add_message t0).capacity = max 1 c ∧
      (msgs.foldl text_chat.add_message t0).size ≤ max 1 c ∧
      (msgs.foldl text_chat.add_message t0).size = min msgs.length (max 1 c) ∧
      (msgs.foldl text_chat.add_message t0).get_messages =
        msgs.drop (msgs.length - min msgs.length (max 1 c)) := by
  have ht0 : t0 = { capacity_ := max 1 c, messages_ := [] } := by
    unfold text_chat.create at hnew
    simp only [Nat.mod_eq_of_lt hc] at hnew
    split at hnew
    · exact (Option.some.inj hnew).symm
    · cases hnew
  subst ht0
  have hcap := text_chat_fold_capacity msgs { capacity_ := max 1 c, messages_ := [] }
  have hmsg := text_chat_fold_messages msgs { capacity_ := max 1 c, messages_ := [] }
    (le_max_left 1 c) (Nat.zero_le _)
  simp only [List.nil_append] at hmsg hcap
  have hmin : msgs.length - min msgs.length (max 1 c) = msgs.length - max 1 c := by
    rcases Nat.le_total msgs.length (max 1 c) with h | h
    · rw [Nat.min_eq_left h, Nat.sub_self, Nat.sub_eq_zero_of_le h]
    · rw [Nat.min_eq_right h]
  have hsize : (msgs.foldl text_chat.add_message
      { capacity_ := max 1 c, messages_ := [] }).size = min msgs.length (max 1 c) := by
    unfold text_chat.size
    rw [hmsg, List.length_drop]
    omega
  refine ⟨hcap, ?_, hsize, ?_⟩
  · rw [hsize]; exact Nat.min_le_right _ _
  · unfold text_chat.get_messages
    rw [hmsg, hmin]

theorem bounded_chat_history_witness :
    (([{ from_ := "room".toList, text := "a".toList },
        { from_ := "room".toList, text := "b".toList },
        { from_ := "room".toList, text := "c".toList }] : List message).foldl
        text_chat.add_message { capacity_ := 2, messages_ := [] }).get_messages =
      [{ from_ := "room".toList, text := "b".toList },
        { from_ := "room".toList, text := "c".toList }] :=
  (bounded_chat_history (fun n => decide (n ≤ 1000)) 2 { capacity_ := 2, messages_ := [] }
    [{ from_ := "room".toList, text := "a".toList },
      { from_ := "room".toList, text := "b".toList },
      { from_ := "room".toList, text := "c".toList }]
    (by decide) (by decide)).2.2.2

/-! ## Ring write -/

theorem mod_step_ne (w k N : Nat) (hw : w < N) (hk0 : 0 < k) (hk : k < N) :
    (w + k) % N ≠ w := by
  by_cases h : w + k < N
  · rw [Nat.mod_eq_of_lt h]; omega
  · rw [Nat.mod_eq_sub_mod (by omega), Nat.mod_eq_of_lt (by omega)]; omega

theorem mod_step_add (w i N : Nat) : ((w + 1) % N + i) % N = (w + (i + 1)) % N := by
  rw [Nat.mod_add_mod]
  congr 1
  omega

/-- The write loop on a ring of `N` samples, cursor below `N`, at most `N` samples:
sample `i` lands at `(w + i) % N`, the other places and the size stay, and the
cursor ends at `(w + n) % N`. -/
theorem ring_write_spec (N : Nat) (hN : 0 < N) (hN32 : N < 2 ^ 32) :
    ∀ (samples ring : List Int) (w : Nat), ring.length = N → w < N → samples.length ≤ N →
      (ring_write N ring w samples).1.length = N ∧
      (ring_write N ring w samples).2 = (w + samples.length) % N ∧
      (∀ i, i < samples.length →
        (ring_write N ring w samples).1[(w + i) % N]? = samples[i]?) ∧
      (∀ j, j < N → (∀ i, i < samples.length → j ≠ (w + i) % N) →
        (ring_write N ring w samples).1[j]? = ring[j]?)
  | [], ring, w, hlen, hw, _ => by
    refine ⟨hlen, ?_, fun i hi => absurd hi (Nat.not_lt_zero _), fun j _ _ => rfl⟩
    simp only [ring_write, List.length_nil, Nat.add_zero]
    exact (Nat.mod_eq_of_lt hw).symm
  | s :: rest, ring, w, hlen, hw, hs => by
    have hrest : rest.length + 1 ≤ N := hs
    have hstep : ((w + 1) % 2 ^ 32) % N = (w + 1) % N := by
      rw [Nat.mod_eq_of_lt (a := w + 1) (by omega)]
    have hw1 : (w + 1) % N < N := Nat.mod_lt _ hN
    obtain ⟨h1, h2, h3, h4⟩ := ring_write_spec N hN hN32 rest (ring.set w s) ((w + 1) % N)
      (by rw [List.length_set]; exact hlen) hw1 (by omega)
    have hunf : ring_write N ring w (s :: rest) =
        ring_write N (ring.set w s) ((w + 1) % N) rest := by
      simp only [ring_write, hstep]
    rw [hunf]
    have hfree : ∀ i, i < rest.length → w ≠ ((w + 1) % N + i) % N := by
      intro i hi
      rw [mod_step_add]
      exact (mod_step_ne w (i + 1) N hw (Nat.succ_pos i) (by omega)).symm
    refine ⟨h1, ?_, ?_, ?_⟩
    · rw [h2, mod_step_add, List.length_cons]
    · intro i hi
      cases i with
      | zero =>
        have e : (w + 0) % N = w := Nat.mod_eq_of_lt hw
        rw [e, h4 w hw hfree]
        simp [List.getElem?_set, hlen, hw]
      | succ k =>
        have hk : k < rest.length := Nat.lt_of_succ_lt_succ hi
        have e := mod_step_add w k N
        rw [← e, h3 k hk]
        simp
    · intro j hj hne
      have hjw : j ≠ w := by
        have := hne 0 (Nat.succ_pos _)
        rw [Nat.add_zero, Nat.mod_eq_of_lt hw] at this
        exact this
      rw [h4 j hj (fun i hi => by
        rw [mod_step_add]
        exact hne (i + 1) (Nat.succ_lt_succ hi))]
      simp [List.getElem?_set, Ne.symm hjw]

/-- Claim C24: for a ring of `N` samples (`0 < N`, a size an `unsigned int` holds) with
write cursor `w < N` and a decoded frame of `n` samples, `0 < n ≤ N`, `on_voice_data`
stores sample `i` at index `(w + i) % N` for every `i < n`, leaves the other
indices and the ring size unchanged, sets the cursor to `(w + n) % N`, which is
below `N`, sets `has_data` and records the arrival time. -/
theorem ring_write_frame (now_ms : Nat) (opus_decode : List Nat → List Int × Int)
    (packet : List Nat) (st : playback_state) (n : Nat)
    (hp : packet ≠ []) (hN : 0 < st.playback_ring_.length)
    (hN32 : st.playback_ring_.length < 2 ^ 32)
    (hw : st.playback_write_pos_ < st.playback_ring_.length)
    (hn : 0 < n) (hnN : n ≤ st.playback_ring_.length)
    (hdec : (opus_decode packet).2 = (n : Int))
    (hbuf : n ≤ (opus_decode packet).1.length) :
    (on_voice_data now_ms (some opus_decode) packet st).playback_ring_.length =
        st.playback_ring_.length ∧
      (∀ i, i < n →
        (on_voice_data now_ms (some opus_decode) packet st).playback_ring_[
            (st.playback_write_pos_ + i) % st.playback_ring_.length]? =
          (opus_decode packet).1[i]?) ∧
      (∀ j, j < st.playback_ring_.length →
        (∀ i, i < n → j ≠ (st.playback_write_pos_ + i) % st.playback_ring_.length) →
        (on_voice_data now_ms (some opus_decode) packet st).playback_ring_[j]? =
          st.playback_ring_[j]?) ∧
      (on_voice_data now_ms (some opus_decode) packet st).playback_write_pos_ =
        (st.playback_write_pos_ + n) % st.playback_ring_.length ∧
      (on_voice_data now_ms (some opus_decode) packet st).playback_write_pos_ <
        st.playback_ring_.length ∧
      (on_voice_data now_ms (some opus_decode) packet st).playback_has_data_ = true ∧
      (on_voice_data now_ms (some opus_decode) packet st).last_voice_packet_ms_ = now_ms := by
  have hring : st.playback_ring_ ≠ [] := List.ne_nil_of_length_pos hN
  have hpos : ¬ (opus_decode packet).2 ≤ 0 := by rw [hdec]; omega
  have htake : ((opus_decode packet).1.take n).length = n := by
    rw [List.length_take]; omega
  have hsamples : (opus_decode packet).1.take ((opus_decode packet).2.toNat * channels) =
      (opus_decode packet).1.take n := by
    rw [hdec, Int.toNat_ofNat, channels, Nat.mul_one]
  have hunf : on_voice_data now_ms (some opus_decode) packet st =
      { st with
        playback_ring_ := (ring_write st.playback_ring_.length st.playback_ring_
          st.playback_write_pos_ ((opus_decode packet).1.take n)).1
        playback_write_pos_ := (ring_write st.playback_ring_.length st.playback_ring_
          st.playback_write_pos_ ((opus_decode packet).1.take n)).2
        last_voice_packet_ms_ := now_ms
        playback_has_data_ := true } := by
    simp only [on_voice_data, hp, hpos, hring, if_false, hsamples, Nat.mod_eq_of_lt hN32]
  obtain ⟨h1, h2, h3, h4⟩ := ring_write_spec st.playback_ring_.length hN hN32
    ((opus_decode packet).1.take n) st.playback_ring_ st.playback_write_pos_ rfl hw
    (by rw [htake]; exact hnN)
  rw [htake] at h2 h3 h4
  rw [hunf]
  refine ⟨h1, ?_, h4, h2, ?_, rfl, rfl⟩
  · intro i hi
    have := h3 i hi
    simp only [this, List.getElem?_take, hi, if_true]
  · simp only [h2]
    exact Nat.mod_lt _ hN

theorem ring_write_frame_witness :
    (on_voice_data 7000 (some (fun _ => ([11, 12, 13], 3))) [1]
        { playback_sound_ := true, playback_ring_ := [0, 0, 0, 0], playback_write_pos_ := 2,
          last_voice_packet_ms_ := 0, playback_has_data_ := false }).playback_write_pos_ =
      (2 + 3) % 4 :=
  (ring_write_frame 7000 (fun _ => ([11, 12, 13], 3)) [1]
    { playback_sound_ := true, playback_ring_ := [0, 0, 0, 0], playback_write_pos_ := 2,
      last_voice_packet_ms_ := 0, playback_has_data_ := false } 3
    (by decide) (by decide) (by decide) (by decide) (by decide) (by decide) rfl
    (by decide)).2.2.2.1

/-! ## Length of the join code -/

theorem to_string_digits_length :
    ∀ (fuel n k : Nat), 1 ≤ k → n < 10 ^ k → (to_string_digits fuel n).length ≤ k
  | 0, _, _, _, _ => Nat.zero_le _
  | fuel + 1, n, k, hk, hn => by
    unfold to_string_digits
    by_cases h : n < 10
    · rw [if_pos h]; exact hk
    · rw [if_neg h, List.length_append, List.length_singleton]
      have hk2 : 2 ≤ k := by
        rcases Nat.lt_or_ge k 2 with h2 | h2
        · have : k = 1 := by omega
          subst this
          exact absurd hn (by omega)
        · exact h2
      have hdiv : n / 10 < 10 ^ (k - 1) := by
        apply Nat.div_lt_of_lt_mul
        have : 10 * 10 ^ (k - 1) = 10 ^ k := by
          rw [← Nat.pow_succ']
          congr 1
          omega
        rw [this]; exact hn
      have := to_string_digits_length fuel (n / 10) (k - 1) (by omega) hdiv
      omega

theorem xor_password_returns (password : List Char) (hpw : password ≠ []) :
    ∀ (data : List Nat) (i : Nat), ∃ out, xor_password password i data = .ok out
  | [], _ => ⟨[], rfl⟩
  | b :: bs, i => by
    obtain ⟨rest, hrest⟩ := xor_password_returns password hpw bs (i + 1)
    have hl : password.length ≠ 0 := fun h => hpw (List.length_eq_zero.mp h)
    exact ⟨((b ^^^ key_byte password i) % 256) :: rest, by
      simp only [xor_password, hl, if_false, hrest]⟩

theorem chars_not_zero : ∀ c ∈ base64.chars, c ≠ Char.ofNat 0 := by decide

theorem encode_length (data : List Nat) :
    (base64.encode data).length = 4 * ((data.length + 2) / 3) := by
  obtain ⟨body, k, h1, _, _, h4⟩ := encode_loop_format data 0
  unfold base64.encode
  rw [h1, List.length_append, List.length_replicate, h4]

theorem encode_no_zero (data : List Nat) : ∀ c ∈ base64.encode data, c ≠ Char.ofNat 0 := by
  obtain ⟨body, k, h1, _, h3, _⟩ := encode_loop_format data 0
  intro c hc
  unfold base64.encode at hc
  rw [h1, List.mem_append] at hc
  rcases hc with hc | hc
  · exact chars_not_zero c (h3 c hc)
  · rw [List.eq_of_mem_replicate hc]
    decide

theorem store_join_buf_short (token : List Char) (hlen : token.length ≤ 63)
    (hz : ∀ c ∈ token, c ≠ Char.ofNat 0) : store_join_buf token = token := by
  unfold store_join_buf
  have h : token.takeWhile (fun c => decide (c ≠ Char.ofNat 0)) = token := by
    rw [List.takeWhile_eq_self_iff]
    intro c hc
    exact decide_eq_true (hz c hc)
  rw [h]
  exact List.take_of_length_le hlen

/-- Claim C28: for address strings of at most 15 characters each, a 16-bit port and a
non-empty password, `make_join_key` returns a code of at most 56 characters, and
the 64-byte join buffer holds it whole. -/
theorem join_code_fits (pub lan password : List Char) (port : Nat)
    (hpub : pub.length ≤ 15) (hlan : lan.length ≤ 15) (hport : port < 65536)
    (hpw : password ≠ []) :
    ∃ code, make_join_key pub lan port password = .ok code ∧ code.length ≤ 56 ∧
      store_join_buf code = code := by
  obtain ⟨xored, hx⟩ := xor_password_returns password hpw
    ((join_payload pub lan port).map Char.toNat) 0
  have hxl := xor_password_length password _ 0 xored hx
  have hport5 : (to_string port).length ≤ 5 :=
    to_string_digits_length (port + 1) port 5 (by omega) (by omega)
  have hpl : (join_payload pub lan port).length ≤ 40 := by
    simp only [join_payload, List.length_append]
    have h1 : "v2|".toList.length = 3 := rfl
    have h2 : "|".toList.length = 1 := rfl
    rw [h1, h2]
    omega
  rw [List.length_map] at hxl
  have hlen : (base64.encode xored).length ≤ 56 := by
    rw [encode_length, hxl]
    omega
  refine ⟨base64.encode xored, ?_, hlen, ?_⟩
  · simp only [make_join_key, hx]
  · exact store_join_buf_short _ (by omega) (encode_no_zero xored)

theorem join_code_fits_witness :
    ∃ code, make_join_key "203.100.113.255".toList "192.168.100.200".toList 65535
        "foxchat".toList = .ok code ∧ code.length ≤ 56 ∧ store_join_buf code = code :=
  join_code_fits "203.100.113.255".toList "192.168.100.200".toList "foxchat".toList 65535
    (by decide) (by decide) (by decide) (by decide)

/-! ## A peer that stays silent during the key read -/

/-- While the connection is open and fewer than `n` bytes have arrived, `recv_exact`
is still waiting, however many receive timeouts there were. -/
theorem recv_exact_waits :
    ∀ (events : List recv_result) (n : Nat), (delivered events).length < n →
      connection_closed events = false → recv_exact n events = exact_result.pending
  | _, 0, h, _ => absurd h (Nat.not_lt_zero _)
  | [], n + 1, _, _ => rfl
  | recv_result.timeout :: rs, n + 1, h, hc => by
    simp only [delivered, connection_closed] at h hc
    simp only [recv_exact, recv_exact_waits rs (n + 1) h hc]
  | recv_result.closed :: rs, n + 1, _, hc => by simp [connection_closed] at hc
  | recv_result.data bytes :: rs, n + 1, h, hc => by
    by_cases hb : bytes = []
    · simp [connection_closed, hb] at hc
    simp only [delivered, connection_closed, hb, if_false, List.length_append] at h hc
    have hlt : ¬ n + 1 < bytes.length := by omega
    simp only [recv_exact, hb, if_false, hlt,
      recv_exact_waits rs (n + 1 - bytes.length) (by omega) hc]

/-- Claim C22, as amended: for a peer that has sent fewer bytes than the join key is
long, the key read neither fails nor returns while the connection stays open:
receive timeouts are retried and the accept loop keeps waiting in `recv_exact`;
the read fails, the socket is closed and the accept loop goes on once a receive
reports the end of the connection. -/
theorem hung_peer_key_read (join_key : List Char) (clients : client_table)
    (client_sock : SOCKET) (events : List recv_result)
    (hshort : (delivered events).length < join_key.length) :
    (connection_closed events = false →
        recv_exact join_key.length events = exact_result.pending ∧
        accept_connection join_key clients client_sock events =
          { clients_ := clients, trace := [], status := accept_status.pending }) ∧
      (connection_closed events = true →
        recv_exact join_key.length events = exact_result.failed ∧
        accept_connection join_key clients client_sock events =
          { clients_ := clients, trace := [net_action.close client_sock],
            status := accept_status.rejected }) := by
  constructor
  · intro hc
    have h := recv_exact_waits events join_key.length hshort hc
    exact ⟨h, by simp only [accept_connection, h]⟩
  · intro hc
    have h := recv_exact_closed events join_key.length hshort hc
    exact ⟨h, by simp only [accept_connection, h]⟩

theorem hung_peer_key_read_witness :
    recv_exact "QUJD".toList.length
        [recv_result.data "QU".toList, recv_result.timeout, recv_result.timeout] =
        exact_result.pending ∧
      accept_connection "QUJD".toList [] 9
          [recv_result.data "QU".toList, recv_result.timeout, recv_result.timeout] =
        { clients_ := [], trace := [], status := accept_status.pending } :=
  (hung_peer_key_read "QUJD".toList [] 9
    [recv_result.data "QU".toList, recv_result.timeout, recv_result.timeout]
    (by decide)).1 (by decide)

/-- A peer sends two of the four key bytes and stays silent: after a receive timeout
(and after any more of them) the key read has not failed and the socket is not
closed. -/
theorem hung_peer_counterexample :
    recv_exact 4 [recv_result.data "QU".toList, recv_result.timeout] ≠ exact_result.failed ∧
      (accept_connection "QUJD".toList [] 9
          [recv_result.data "QU".toList, recv_result.timeout]).trace = [] ∧
      (accept_connection "QUJD".toList [] 9
          [recv_result.data "QU".toList, recv_result.timeout, recv_result.timeout,
            recv_result.timeout]).status = accept_status.pending := by
  decide

/-! ## The end of a session -/

theorem broadcast_iff (clients : client_table) (msg : List Char) (exclude : SOCKET)
    (a : net_action) :
    a ∈ broadcast clients msg exclude ↔
      ∃ e ∈ clients, e.1 ≠ exclude ∧ e.2.name ≠ [] ∧ a = net_action.send e.1 msg := by
  simp only [broadcast, List.mem_map, List.mem_filter, Bool.and_eq_true, decide_eq_true_eq]
  constructor
  · rintro ⟨e, ⟨he, h1, h2⟩, rfl⟩
    exact ⟨e, he, h1, h2, rfl⟩
  · rintro ⟨e, he, h1, h2, rfl⟩
    exact ⟨e, ⟨he, h1, h2⟩, rfl⟩

theorem process_line_socket (password : List Char) (st : session_state) (line : List Char) :
    (process_line password st line).1.client.socket = st.client.socket := by
  unfold process_line
  split
  · split <;> rfl
  · rfl

theorem process_lines_socket (password : List Char) :
    ∀ (fuel : Nat) (st : session_state),
      (process_lines password fuel st).1.client.socket = st.client.socket
  | 0, _ => rfl
  | fuel + 1, st => by
    unfold process_lines
    split
    · rfl
    · rename_i line r _
      have h1 := process_line_socket password
        (st.set_client { st.client with receiver := r }) line
      simp only
      by_cases hres : (process_line password
          (st.set_client { st.client with receiver := r }) line).2 = true
      · rw [if_pos hres, process_lines_socket password fuel, h1]; rfl
      · rw [if_neg hres, h1]; rfl

theorem client_recv_iterate_socket (password : List Char) :
    ∀ (events : List recv_result) (st : session_state),
      (client_recv_iterate password events st).1.client.socket = st.client.socket
  | [], _ => rfl
  | r :: rs, st => by
    unfold client_recv_iterate
    split
    · rfl
    · cases r with
      | timeout => exact client_recv_iterate_socket password rs st
      | closed => rfl
      | data bytes =>
        simp only
        split
        · rfl
        · rw [client_recv_iterate_socket password rs]
          unfold client_recv_step
          rw [process_lines_socket]
          rfl

/-- Claim C25: when the receive loop of a session has ended in state `st`, the thread
sends "* <name> left *\n" to every other named session when the handshake was
completed and sends nothing when it was not, closes the socket and removes the
session from the table; a broadcast reaches exactly the named sessions other than
the excluded one, so a session without a name never receives one. -/
theorem disconnect_handling (password : List Char) (clients : client_table)
    (client : server_client) (events : List recv_result) (st : session_state)
    (hit : client_recv_iterate password events
      { clients_ := clients, client := client, handshake_done := false, trace := [] } =
        (st, true)) :
    client_recv_loop password clients client events =
        ({ clients_ := st.clients_.filter (fun e => decide (e.1 ≠ client.socket)),
           client := st.client,
           handshake_done := st.handshake_done,
           trace := st.trace ++
             (if st.handshake_done then
               broadcast st.clients_
                 ("* ".toList ++ st.client.name ++ " left *\n".toList) client.socket
             else []) ++ [net_action.close client.socket] }, true) ∧
      (∀ e ∈ (client_recv_loop password clients client events).1.clients_,
        e.1 ≠ client.socket) ∧
      (∀ (msg : List Char) (exclude : SOCKET) (a : net_action),
        a ∈ broadcast st.clients_ msg exclude ↔
          ∃ e ∈ st.clients_, e.1 ≠ exclude ∧ e.2.name ≠ [] ∧ a = net_action.send e.1 msg) := by
  have hsock : st.client.socket = client.socket := by
    have := client_recv_iterate_socket password events
      { clients_ := clients, client := client, handshake_done := false, trace := [] }
    rw [hit] at this
    exact this
  have hloop : client_recv_loop password clients client events =
      ({ clients_ := st.clients_.filter (fun e => decide (e.1 ≠ client.socket)),
         client := st.client,
         handshake_done := st.handshake_done,
         trace := st.trace ++
           (if st.handshake_done then
             broadcast st.clients_
               ("* ".toList ++ st.client.name ++ " left *\n".toList) client.socket
           else []) ++ [net_action.close client.socket] }, true) := by
    unfold client_recv_loop
    simp only [hit, if_true, hsock]
    cases hd : st.handshake_done <;>
      simp [session_state.emit, hd, hsock]
  refine ⟨hloop, ?_, fun msg exclude a => broadcast_iff _ _ _ _⟩
  rw [hloop]
  intro e he
  simp only [List.mem_filter, decide_eq_true_eq] at he
  exact he.2

theorem disconnect_handling_witness :
    (client_recv_loop "pw".toList
        [(1, new_client 1), (2, { new_client 2 with name := "Ann".toList }), (3, new_client 3)]
        (new_client 1)
        [recv_result.data "PASS pw Bob\n".toList, recv_result.closed]).1.trace =
      [net_action.send 1 "OK\n".toList, net_action.send 2 "* Bob joined *\n".toList,
        net_action.send 2 "* Bob left *\n".toList, net_action.close 1] :=
  congrArg (fun r => r.1.trace)
    (disconnect_handling "pw".toList
      [(1, new_client 1), (2, { new_client 2 with name := "Ann".toList }), (3, new_client 3)]
      (new_client 1)
      [recv_result.data "PASS pw Bob\n".toList, recv_result.closed]
      { clients_ := [(1, { new_client 1 with name := "Bob".toList }),
                     (2, { new_client 2 with name := "Ann".toList }), (3, new_client 3)],
        client := { new_client 1 with name := "Bob".toList },
        handshake_done := true,
        trace := [net_action.send 1 "OK\n".toList,
                  net_action.send 2 "* Bob joined *\n".toList] }
      (by decide)).1

/-! ## Binding a UDP address to a session -/

theorem string_find_here (pat rest : List Char) (hp : pat ≠ []) :
    string_find pat (pat ++ rest) = some 0 := by
  cases h : pat ++ rest with
  | nil => exact absurd (List.append_eq_nil.mp h).1 hp
  | cons c cs =>
    have hpre : pat.isPrefixOf (c :: cs) = true := by
      rw [← h]
      exact List.isPrefixOf_iff_prefix.mpr (List.prefix_append pat rest)
    simp only [string_find, hpre, if_true]

theorem string_find_after_blanks (key rest : List Char) :
    ∀ k : Nat, string_find ('"' :: key) (List.replicate k ' ' ++ ('"' :: key) ++ rest) = some k
  | 0 => by
    rw [List.replicate_zero, List.nil_append]
    exact string_find_here _ _ (by simp)
  | k + 1 => by
    have ih := string_find_after_blanks key rest k
    rw [List.replicate_succ, List.cons_append, List.cons_append]
    have hno : ('"' :: key).isPrefixOf
        (' ' :: (List.replicate k ' ' ++ ('"' :: key) ++ rest)) = false := by
      simp [List.isPrefixOf]
    simp only [string_find, hno, Bool.false_eq_true, if_false, ih, Option.map_some']

theorem getD_of_drop (s : List Char) (n : Nat) (c d : Char) (t : List Char)
    (h : s.drop n = c :: t) : s.getD n d = c := by
  have h1 : s[n]? = some c := by
    have := List.getElem?_drop (L := s) (i := n) (j := 0)
    rw [h] at this
    simpa using this.symm
  simp [List.getD_eq_getElem?_getD, h1]

theorem json_escape_char_quote (c : Char) (prev : Char) (rest : List Char) :
    closing_quote prev (json_escape_char c ++ rest) =
      (json_escape_char c).length +
        closing_quote ((json_escape_char c).getLastD prev) rest := by
  unfold json_escape_char
  by_cases h1 : c = '\\'
  · simp [h1, closing_quote]; omega
  by_cases h2 : c = '"'
  · simp [h2, closing_quote]; omega
  by_cases h3 : c = '\n'
  · simp [h3, closing_quote]; omega
  by_cases h4 : c = '\r'
  · simp [h4, closing_quote]; omega
  by_cases h5 : c = '\t'
  · simp [h5, closing_quote]; omega
  simp [h1, h2, h3, h4, h5, closing_quote]

theorem getLastD_append_default {α : Type} (a : List α) :
    ∀ (b : List α) (d : α), (a ++ b).getLastD d = b.getLastD (a.getLastD d)
  | [], d => by rw [List.append_nil]; rfl
  | x :: xs, d => by
    rw [getLastD_append (x :: xs) (by simp) a d]
    exact getLastD_of_ne_nil (x :: xs) d _ (by simp)

theorem closing_quote_escaped :
    ∀ (v : List Char) (prev : Char),
      closing_quote prev (json_escape v ++ ['"']) =
        (json_escape v).length + (if (json_escape v).getLastD prev = '\\' then 1 else 0)
  | [], prev => by
    by_cases h : prev = '\\' <;> simp [json_escape, closing_quote, h]
  | c :: rest, prev => by
    have ih := closing_quote_escaped rest ((json_escape_char c).getLastD prev)
    rw [json_escape, List.append_assoc, json_escape_char_quote, ih, List.length_append,
      getLastD_append_default]
    omega

theorem json_escape_append (a b : List Char) :
    json_escape (a ++ b) = json_escape a ++ json_escape b := by
  induction a with
  | nil => rfl
  | cons c rest ih => rw [List.cons_append, json_escape, json_escape, ih, List.append_assoc]

theorem json_escape_char_last (c d : Char) :
    (json_escape_char c).getLastD d = '\\' ↔ c = '\\' := by
  unfold json_escape_char
  by_cases h1 : c = '\\'
  · simp [h1]
  by_cases h2 : c = '"'
  · simp [h2]
  by_cases h3 : c = '\n'
  · simp [h3]
  by_cases h4 : c = '\r'
  · simp [h4]
  by_cases h5 : c = '\t'
  · simp [h5]
  simp [h1, h2, h3, h4, h5]

theorem json_escape_last (v : List Char) :
    (json_escape v).getLastD '"' = '\\' ↔ v.getLast? = some '\\' := by
  rcases List.eq_nil_or_concat v with h | ⟨v1, c, h⟩
  · subst h
    simp [json_escape]
  · subst h
    rw [List.concat_eq_append, json_escape_append, getLastD_append_default]
    have : json_escape [c] = json_escape_char c := by simp [json_escape]
    rw [this, json_escape_char_last]
    simp

theorem unescape_nil (fuel : Nat) : unescape fuel [] = [] := by
  cases fuel <;> rfl

theorem unescape_plain (fuel : Nat) (c : Char) (rest : List Char) (hc : c ≠ '\\') :
    unescape (fuel + 1) (c :: rest) = c :: unescape fuel rest := by
  cases rest with
  | nil => rw [unescape_nil]; rfl
  | cons d rest => simp only [unescape, hc, if_false]

theorem json_escape_char_cases (c : Char) :
    (∃ x, json_escape_char c = ['\\', x] ∧ unescape_char x = c) ∨
      (json_escape_char c = [c] ∧ c ≠ '\\') := by
  unfold json_escape_char
  by_cases h1 : c = '\\'
  · left; subst h1; exact ⟨'\\', by decide, by decide⟩
  by_cases h2 : c = '"'
  · left; subst h2; exact ⟨'"', by decide, by decide⟩
  by_cases h3 : c = '\n'
  · left; subst h3; exact ⟨'n', by decide, by decide⟩
  by_cases h4 : c = '\r'
  · left; subst h4; exact ⟨'r', by decide, by decide⟩
  by_cases h5 : c = '\t'
  · left; subst h5; exact ⟨'t', by decide, by decide⟩
  right
  simp only [h1, h2, h3, h4, h5, if_false]
  exact ⟨trivial, h1⟩

theorem unescape_escaped_char (fuel : Nat) (c : Char) (rest : List Char)
    (hf : (json_escape_char c).length ≤ fuel) :
    ∃ fuel1, fuel - (json_escape_char c).length ≤ fuel1 ∧
      unescape fuel (json_escape_char c ++ rest) = c :: unescape fuel1 rest := by
  rcases json_escape_char_cases c with ⟨x, hx, hu⟩ | ⟨hx, hne⟩
  · rw [hx] at hf ⊢
    simp only [List.length_cons, List.length_nil] at hf ⊢
    obtain ⟨f, rfl⟩ : ∃ f, fuel = f + 2 := ⟨fuel - 2, by omega⟩
    refine ⟨f + 1, by omega, ?_⟩
    simp only [List.cons_append, List.nil_append, unescape, if_true, hu]
    rfl
  · rw [hx] at hf ⊢
    simp only [List.length_cons, List.length_nil] at hf ⊢
    obtain ⟨f, rfl⟩ : ∃ f, fuel = f + 1 := ⟨fuel - 1, by omega⟩
    refine ⟨f, by omega, ?_⟩
    rw [List.singleton_append, unescape_plain f c rest hne]

/-- The loop of `parse_string` undoes `json_escape`. -/
theorem unescape_json_escape :
    ∀ (v : List Char) (fuel : Nat), (json_escape v).length ≤ fuel →
      unescape fuel (json_escape v) = v
  | [], fuel, _ => unescape_nil fuel
  | c :: rest, fuel, hf => by
    rw [json_escape, List.length_append] at hf
    obtain ⟨fuel1, h1, h2⟩ := unescape_escaped_char fuel c (json_escape rest) (by omega)
    rw [json_escape, h2, unescape_json_escape rest fuel1 (by omega)]

/-- The raw value `extract_raw_value` finds in a string field as `save` writes it,
after any number of blanks: the quoted escaped value, unless the value ends in a
backslash, for which the closing quote is passed over. -/
theorem extract_raw_value_field (k : Nat) (key v : List Char) :
    extract_raw_value
        (List.replicate k ' ' ++ ('"' :: (key ++ ['"'])) ++
          (':' :: ' ' :: '"' :: (json_escape v ++ ['"']))) key =
      if v.getLast? = some '\\' then none
      else some ('"' :: (json_escape v ++ ['"'])) := by
  have hneedle : "\"".toList ++ key ++ "\"".toList = '"' :: (key ++ ['"']) := rfl
  have hnl : ('"' :: (key ++ ['"'])).length = key.length + 2 := by simp
  have hfind := string_find_after_blanks (key ++ ['"'])
    (':' :: ' ' :: '"' :: (json_escape v ++ ['"'])) k
  have hd0 : (List.replicate k ' ' ++ ('"' :: (key ++ ['"'])) ++
      (':' :: ' ' :: '"' :: (json_escape v ++ ['"']))).drop (k + (key.length + 2)) =
      ':' :: ' ' :: '"' :: (json_escape v ++ ['"']) :=
    List.drop_left' (by simp)
  have hd1 : (List.replicate k ' ' ++ ('"' :: (key ++ ['"'])) ++
      (':' :: ' ' :: '"' :: (json_escape v ++ ['"']))).drop (k + (key.length + 2) + 0 + 1) =
      ' ' :: '"' :: (json_escape v ++ ['"']) := by
    have e : List.replicate k ' ' ++ ('"' :: (key ++ ['"'])) ++
        (':' :: ' ' :: '"' :: (json_escape v ++ ['"'])) =
        (List.replicate k ' ' ++ ('"' :: (key ++ ['"'])) ++ [':']) ++
          (' ' :: '"' :: (json_escape v ++ ['"'])) := by simp
    rw [e]
    exact List.drop_left' (by simp; omega)
  have hd2 : (List.replicate k ' ' ++ ('"' :: (key ++ ['"'])) ++
      (':' :: ' ' :: '"' :: (json_escape v ++ ['"']))).drop (k + (key.length + 2) + 0 + 1 + 1) =
      '"' :: (json_escape v ++ ['"']) := by
    have e : List.replicate k ' ' ++ ('"' :: (key ++ ['"'])) ++
        (':' :: ' ' :: '"' :: (json_escape v ++ ['"'])) =
        (List.replicate k ' ' ++ ('"' :: (key ++ ['"'])) ++ [':', ' ']) ++
          ('"' :: (json_escape v ++ ['"'])) := by simp
    rw [e]
    exact List.drop_left' (by simp; omega)
  have hd3 : (List.replicate k ' ' ++ ('"' :: (key ++ ['"'])) ++
      (':' :: ' ' :: '"' :: (json_escape v ++ ['"']))).drop
        (k + (key.length + 2) + 0 + 1 + 1 + 1) = json_escape v ++ ['"'] := by
    have e : List.replicate k ' ' ++ ('"' :: (key ++ ['"'])) ++
        (':' :: ' ' :: '"' :: (json_escape v ++ ['"'])) =
        (List.replicate k ' ' ++ ('"' :: (key ++ ['"'])) ++ [':', ' ', '"']) ++
          (json_escape v ++ ['"']) := by simp
    rw [e]
    exact List.drop_left' (by simp; omega)
  have hlen : (List.replicate k ' ' ++ ('"' :: (key ++ ['"'])) ++
      (':' :: ' ' :: '"' :: (json_escape v ++ ['"']))).length =
      k + (key.length + 2) + 0 + 1 + 1 + 1 + (json_escape v).length + 1 := by
    simp; omega
  have hcolon : find_char ':' (List.replicate k ' ' ++ ('"' :: (key ++ ['"'])) ++
      (':' :: ' ' :: '"' :: (json_escape v ++ ['"']))) (k + (key.length + 2)) =
      some (k + (key.length + 2) + 0) := by
    unfold find_char
    rw [hd0]
    simp
  have hsp : ((' ' :: '"' :: (json_escape v ++ ['"'])).takeWhile is_space).length = 1 := by
    have h1 : is_space ' ' = true := by decide
    have h2 : is_space '"' = false := by decide
    simp [List.takeWhile_cons, h1, h2]
  have hq := closing_quote_escaped v '"'
  have hget := getD_of_drop _ _ '"' ' ' _ hd2
  unfold extract_raw_value
  simp only [hneedle, hnl, hfind, hcolon, hd1, hsp, hget, hd3, hq, hlen, hd2, if_true]
  by_cases hb : v.getLast? = some '\\'
  · have hb2 := (json_escape_last v).mpr hb
    simp only [hb, hb2, if_true]
    rw [if_neg (by omega), if_pos (by omega)]
  · have hb2 : ¬ (json_escape v).getLastD '"' = '\\' := fun h => hb ((json_escape_last v).mp h)
    simp only [hb, hb2, if_false]
    rw [if_neg (by omega), if_neg (by omega)]
    congr 1
    apply List.take_of_length_le
    simp
    omega

theorem parse_string_field (k : Nat) (key v : List Char) :
    parse_string
        (List.replicate k ' ' ++ ('"' :: (key ++ ['"'])) ++
          (':' :: ' ' :: '"' :: (json_escape v ++ ['"']))) key =
      if v.getLast? = some '\\' then none else some v := by
  unfold parse_string
  rw [extract_raw_value_field]
  by_cases hb : v.getLast? = some '\\'
  · simp only [hb, if_true]
  · simp only [hb, if_false]
    have h1 : ¬ (('"' :: (json_escape v ++ ['"'])).length < 2 ∨
        ('"' :: (json_escape v ++ ['"'])).head? ≠ some '"' ∨
        ('"' :: (json_escape v ++ ['"'])).getLast? ≠ some '"') := by
      have hl : ('"' :: (json_escape v ++ ['"'])).getLast? = some '"' := by
        rw [show '"' :: (json_escape v ++ ['"']) = ('"' :: json_escape v) ++ ['"'] from rfl]
        exact List.getLast?_append_of_ne_nil _ (by simp)
      simp [hl]
    rw [if_neg h1]
    have h2 : (('"' :: (json_escape v ++ ['"'])).drop 1).dropLast = json_escape v := by
      simp
    rw [h2, unescape_json_escape v _ (by simp; omega)]

/-- Claim C29: for every key and every string value `v`, `parse_string` applied to the
text of the field, with or without the two blanks `save` writes before it, returns
`v` when `v` does not end in a backslash; for a value that ends in a backslash it
returns nothing, because the closing quote is taken for an escaped one. -/
theorem parse_string_save_field (key v : List Char) :
    parse_string (save_field key v) key =
        (if v.getLast? = some '\\' then none else some v) ∧
      parse_string ("\"".toList ++ key ++ "\": \"".toList ++ json_escape v ++ "\"".toList) key =
        (if v.getLast? = some '\\' then none else some v) := by
  have h1 : "  \"".toList = [' ', ' ', '"'] := rfl
  have h2 : "\": \"".toList = ['"', ':', ' ', '"'] := rfl
  have h3 : "\"".toList = ['"'] := rfl
  have e2 : save_field key v =
      List.replicate 2 ' ' ++ ('"' :: (key ++ ['"'])) ++
        (':' :: ' ' :: '"' :: (json_escape v ++ ['"'])) := by
    rw [save_field, h1, h2, h3]
    simp [List.replicate]
  have e0 : "\"".toList ++ key ++ "\": \"".toList ++ json_escape v ++ "\"".toList =
      List.replicate 0 ' ' ++ ('"' :: (key ++ ['"'])) ++
        (':' :: ' ' :: '"' :: (json_escape v ++ ['"'])) := by
    rw [h2, h3]
    simp
  rw [e2, e0]
  exact ⟨parse_string_field 2 key v, parse_string_field 0 key v⟩

/-! ## Listener calls and the room state -/

theorem deliver_append (c : chat_room) (a b : List listener_event) :
    c.deliver (a ++ b) = (c.deliver a).deliver b := by
  simp only [chat_room.deliver, List.foldl_append]

theorem deliver_messages (msgs : List message) :
    ∀ c : chat_room,
      (c.deliver (msgs.map listener_event.on_message_received)).room_state_ = c.room_state_ := by
  induction msgs with
  | nil => intro c; rfl
  | cons m rest ih =>
    intro c
    have := ih (c.handle (listener_event.on_message_received m))
    simp only [chat_room.deliver, List.map_cons, List.foldl_cons] at this ⊢
    rw [this]
    rfl

theorem deliver_errors (events : List listener_event)
    (h : ∀ ev ∈ events, ∃ e, ev = listener_event.on_transport_error e) :
    ∀ c : chat_room, (c.deliver events).room_state_ = c.room_state_ := by
  induction events with
  | nil => intro c; rfl
  | cons ev rest ih =>
    intro c
    obtain ⟨e, rfl⟩ := h _ (List.mem_cons_self _ _)
    have := ih (fun x hx => h x (List.mem_cons_of_mem _ hx))
      (c.handle (listener_event.on_transport_error e))
    simp only [chat_room.deliver, List.foldl_cons] at this ⊢
    rw [this]
    rfl

theorem notify_listener (t : winsock_transport) (ev : listener_event) (h : t.listener_ = true) :
    t.notify ev = [ev] := by
  simp only [winsock_transport.notify, h, if_true]

theorem notify_errors (t : winsock_transport) (e : List Char) :
    ∀ ev ∈ t.notify (listener_event.on_transport_error e),
      ∃ e1, ev = listener_event.on_transport_error e1 := by
  intro ev hev
  unfold winsock_transport.notify at hev
  split at hev
  · simp only [List.mem_singleton] at hev
    exact ⟨e, hev⟩
  · simp at hev

theorem verdict_of_response (has_listener : Bool) (response : List Char)
    (h : (if response.length ≤ 0 ∨ string_find "OK".toList response = none then
        (false, client_action.closesocket ::
          (if has_listener then
            [client_action.on_transport_error "Server rejected join handshake.".toList]
          else []))
      else (true, ([] : List client_action))).1 = false) :
    (if response.length ≤ 0 ∨ string_find "OK".toList response = none then
        (false, client_action.closesocket ::
          (if has_listener then
            [client_action.on_transport_error "Server rejected join handshake.".toList]
          else []))
      else (true, ([] : List client_action))).2 =
      client_action.closesocket ::
        (if has_listener then
          [client_action.on_transport_error "Server rejected join handshake.".toList]
        else []) := by
  by_cases hc : response.length ≤ 0 ∨ string_find "OK".toList response = none
  · rw [if_pos hc]
  · rw [if_neg hc] at h
    cases h

theorem join_room_verdict_rejected (has_listener : Bool) (r : recv_result)
    (h : (join_room_verdict has_listener r).1 = false) :
    (join_room_verdict has_listener r).2 =
      client_action.closesocket ::
        (if has_listener then
          [client_action.on_transport_error "Server rejected join handshake.".toList]
        else []) := by
  cases r with
  | data bytes => exact verdict_of_response has_listener (bytes.take 255) h
  | timeout => exact verdict_of_response has_listener [] h
  | closed => exact verdict_of_response has_listener [] h

/-- A `join_room` call that returns true ends with the one call
`on_room_joined` for the joined state, and leaves `server_` as it was. -/
theorem join_room_success (env : join_env) (t : winsock_transport) (code : List Char)
    (r : call_result) (h : t.join_room env code = .ok r) (hr : r.returned = true) :
    r.events = t.notify (listener_event.on_room_joined (joined_state code)) ∧
      r.impl.listener_ = t.listener_ ∧ r.impl.server_ = t.server_ := by
  unfold winsock_transport.join_room at h
  split at h
  · cases h
  · simp only [Except.ok.injEq] at h
    subst h
    simp at hr
  · simp only at h
    split at h
    · simp only [Except.ok.injEq] at h
      subst h
      simp at hr
    · simp only [Except.ok.injEq] at h
      subst h
      simp at hr
    · split at h
      · simp only [Except.ok.injEq] at h
        subst h
        simp at hr
      · split at h
        · simp only [Except.ok.injEq] at h
          subst h
          simp at hr
        · split at h
          · simp only [Except.ok.injEq] at h
            subst h
            simp at hr
          · split at h
            · cases h
            · simp only [Except.ok.injEq] at h
              subst h
              exact ⟨rfl, rfl, rfl⟩

/-- A `join_room` call that returns false makes no listener call other than
`on_transport_error`, and makes one unless a `socket` or `send_all` call failed. -/
theorem join_room_failure (env : join_env) (t : winsock_transport) (code : List Char)
    (r : call_result) (h : t.join_room env code = .ok r) (hr : r.returned = false) :
    (∀ ev ∈ r.events, ∃ e, ev = listener_event.on_transport_error e) ∧
      (t.listener_ = true → r.events = [] →
        ∃ eps, parse_join_key code t.options_.room_password = .ok (some eps) ∧
          ((try_endpoints env.outcome 0
              ((join_candidates t.server_.isSome eps).getD [])).status =
                connect_status.no_socket ∨
            env.send_key = false ∨ env.send_handshake = false)) := by
  unfold winsock_transport.join_room at h
  split at h
  · cases h
  · simp only [Except.ok.injEq] at h
    subst h
    refine ⟨notify_errors t _, fun hl he => ?_⟩
    simp [winsock_transport.notify, hl] at he
  · rename_i eps hparse
    simp only at h
    split at h
    · rename_i hst
      simp only [Except.ok.injEq] at h
      subst h
      exact ⟨fun ev hev => by simp at hev, fun _ _ => ⟨eps, hparse, Or.inl hst⟩⟩
    · simp only [Except.ok.injEq] at h
      subst h
      refine ⟨notify_errors t _, fun hl he => ?_⟩
      simp [winsock_transport.notify, hl] at he
    · split at h
      · rename_i hk
        simp only [Except.ok.injEq] at h
        subst h
        exact ⟨fun ev hev => by simp at hev, fun _ _ => ⟨eps, hparse, Or.inr (Or.inl hk)⟩⟩
      · split at h
        · rename_i hk
          simp only [Except.ok.injEq] at h
          subst h
          exact ⟨fun ev hev => by simp at hev,
            fun _ _ => ⟨eps, hparse, Or.inr (Or.inr hk)⟩⟩
        · split at h
          · rename_i hv
            simp only [Except.ok.injEq] at h
            subst h
            have hact := join_room_verdict_rejected t.listener_ env.response hv
            refine ⟨?_, fun hl he => ?_⟩
            · intro ev hev
              simp only [hact] at hev
              cases hl : t.listener_ <;> simp [hl] at hev
              exact ⟨_, hev⟩
            · exfalso
              rw [hact, hl] at he
              simp at he
          · split at h
            · cases h
            · simp only [Except.ok.injEq] at h
              subst h
              simp at hr

theorem server_start_listening (outcome : start_outcome) (s : server)
    (h : (server.start outcome s).1 = true) : outcome = start_outcome.listening := by
  unfold server.start at h
  split at h
  · cases h
  · cases outcome <;> first | rfl | cases h

theorem server_start_failed (outcome : start_outcome) (s : server)
    (h : outcome ≠ start_outcome.listening) : (server.start outcome s).1 = false := by
  cases hs : (server.start outcome s).1 with
  | false => rfl
  | true => exact absurd (server_start_listening outcome s hs) h

/-- A `create_room` call that returns false makes no listener call other than
`on_transport_error`, and makes one when the server did not start. -/
theorem create_room_failure (env : create_env) (t : winsock_transport) (r : call_result)
    (h : t.create_room env = .ok r) (hr : r.returned = false) :
    (∀ ev ∈ r.events, ∃ e, ev = listener_event.on_transport_error e) ∧
      (t.listener_ = true → r.events = [] → env.start = start_outcome.listening) := by
  unfold winsock_transport.create_room at h
  split at h
  · cases h
  · rename_i code hcode
    simp only at h
    split at h
    · simp only [Except.ok.injEq] at h
      subst h
      refine ⟨notify_errors _ _, fun hl he => ?_⟩
      simp [winsock_transport.notify, hl] at he
    · rename_i hst
      have hstart := server_start_listening _ _ (by simpa using hst)
      split at h
      · cases h
      · rename_i joined hj
        split at h
        · rename_i hjr
          simp only [Except.ok.injEq] at h
          subst h
          exact ⟨(join_room_failure _ _ _ _ hj hjr).1, fun _ _ => hstart⟩
        · simp only [Except.ok.injEq] at h
          subst h
          simp at hr

/-- A `create_room` call that returns true, on an adapter with a listener, makes the
two calls `on_room_joined`, the last one with the host state. -/
theorem create_room_success (env : create_env) (t : winsock_transport) (r : call_result)
    (hl : t.listener_ = true) (h : t.create_room env = .ok r) (hr : r.returned = true) :
    ∃ code, r.events = [listener_event.on_room_joined (joined_state code),
      listener_event.on_room_joined (host_state code)] := by
  unfold winsock_transport.create_room at h
  split at h
  · cases h
  · rename_i code hcode
    simp only at h
    split at h
    · simp only [Except.ok.injEq] at h
      subst h
      simp at hr
    · split at h
      · cases h
      · rename_i joined hj
        split at h
        · simp only [Except.ok.injEq] at h
          subst h
          simp at hr
        · rename_i hjr
          simp only [Except.ok.injEq] at h
          subst h
          have hjr2 : joined.returned = true := by
            cases hb : joined.returned with
            | true => rfl
            | false => exact absurd hb hjr
          obtain ⟨h1, h2, _⟩ := join_room_success _ _ _ _ hj hjr2
          have hl2 : joined.impl.listener_ = true := by rw [h2]; exact hl
          refine ⟨code, ?_⟩
          simp only [h1, winsock_transport.notify, hl, hl2, if_true, List.singleton_append]

/-! ## The peer list of the host -/

/-- Claim C21, as amended: after a host has created a room, its room state holds the
one user `local_user_id`, and whatever its receive thread reads afterwards (the
line "* <name> joined *" of a second peer included) leaves the list at that one
user: the lines become chat messages and no user is added. -/
theorem host_peer_list (c c1 : chat_room) (t : winsock_transport) (env : create_env)
    (receiver : line_receiver) (events : List recv_result)
    (ht : c.transport_ = some t) (hl : t.listener_ = true)
    (hcreate : c.request_create_room env = .ok (true, c1)) :
    c1.room_state_.users = [local_user_id] ∧
      (c1.receive receiver events).room_state_.users = [local_user_id] ∧
      (c1.receive receiver events).room_state_.users.length = 1 := by
  have hstate : c1.room_state_.users = [local_user_id] := by
    unfold chat_room.request_create_room at hcreate
    rw [ht] at hcreate
    simp only at hcreate
    split at hcreate
    · cases hcreate
    · rename_i res hres
      simp only [Except.ok.injEq, Prod.mk.injEq] at hcreate
      obtain ⟨hret, hc1⟩ := hcreate
      obtain ⟨code, hev⟩ := create_room_success env (t.set_display_name c.display_name) res
        hl hres hret
      rw [← hc1, hev]
      rfl
  have hrecv : (c1.receive receiver events).room_state_ = c1.room_state_ := by
    unfold chat_room.receive
    exact deliver_messages _ c1
  refine ⟨hstate, by rw [hrecv, hstate], by rw [hrecv, hstate]; rfl⟩

set_option maxRecDepth 20000 in
theorem host_peer_list_witness :
    ((({ display_name := "Host".toList, room_state_ := host_state
            "EF0EUVhSWlZBSVJbT0MaXkFRRlBCXkFJTV0dQF5fSFM=".toList,
          last_error_ := [], text_chat_ := none,
          transport_ := some
            { options_ := { display_name := "Host".toList, room_password := "foxchat".toList,
                            host_port := 48000 },
              listener_ := true, wsa_ok_ := true,
              server_ := some { password_ := "foxchat".toList,
                                join_key_ := "EF0EUVhSWlZBSVJbT0MaXkFRRlBCXkFJTV0dQF5fSFM=".toList,
                                port_ := 48000, running_ := true },
              recv_running_ := true, recv_thread_ := true, voice_port_ := 48001 } } : chat_room).receive
        { buffer_ := [] } [recv_result.data "* Bob joined *\n".toList]).room_state_.users) =
      [local_user_id] :=
  (host_peer_list
    { display_name := "Host".toList, room_state_ := room_state.empty, last_error_ := [],
      text_chat_ := none,
      transport_ := some
        { options_ := { display_name := "LocalUser".toList, room_password := "foxchat".toList,
                        host_port := 48000 },
          listener_ := true, wsa_ok_ := true, server_ := none, recv_running_ := false, recv_thread_ := false,
          voice_port_ := 0 } }
    { display_name := "Host".toList, room_state_ := host_state
        "EF0EUVhSWlZBSVJbT0MaXkFRRlBCXkFJTV0dQF5fSFM=".toList,
      last_error_ := [], text_chat_ := none,
      transport_ := some
        { options_ := { display_name := "Host".toList, room_password := "foxchat".toList,
                        host_port := 48000 },
          listener_ := true, wsa_ok_ := true,
          server_ := some { password_ := "foxchat".toList,
                            join_key_ := "EF0EUVhSWlZBSVJbT0MaXkFRRlBCXkFJTV0dQF5fSFM=".toList,
                            port_ := 48000, running_ := true },
          recv_running_ := true, recv_thread_ := true, voice_port_ := 48001 } }
    { options_ := { display_name := "LocalUser".toList, room_password := "foxchat".toList,
                    host_port := 48000 },
      listener_ := true, wsa_ok_ := true, server_ := none, recv_running_ := false, recv_thread_ := false,
      voice_port_ := 0 }
    { advertised_ip := "203.0.113.7".toList, local_ip := "192.168.1.5".toList,
      start := start_outcome.listening,
      join := { outcome := fun _ => connect_outcome.connected, wsa_error := fun _ => 0,
                send_key := true, send_handshake := true,
                response := recv_result.data "OK\n".toList } }
    { buffer_ := [] } [recv_result.data "* Bob joined *\n".toList]
    rfl rfl (by decide)).2.1

set_option maxRecDepth 20000 in
/-- A second peer completes the handshake: the server sends "OK" to it and the line
"* Bob joined *" to the host's session; the host, which created the room, turns
the line into a chat message and still lists one user, not two. -/
theorem host_peer_list_counterexample :
    (chat_room.request_create_room
        { advertised_ip := "203.0.113.7".toList, local_ip := "192.168.1.5".toList,
          start := start_outcome.listening,
          join := { outcome := fun _ => connect_outcome.connected, wsa_error := fun _ => 0,
                    send_key := true, send_handshake := true,
                    response := recv_result.data "OK\n".toList } }
        { display_name := "Host".toList, room_state_ := room_state.empty, last_error_ := [],
          text_chat_ := none,
          transport_ := some
            { options_ := { display_name := "LocalUser".toList,
                            room_password := "foxchat".toList, host_port := 48000 },
              listener_ := true, wsa_ok_ := true, server_ := none, recv_running_ := false, recv_thread_ := false,
              voice_port_ := 0 } }).map (fun res => (res.1, res.2.room_state_)) =
        .ok (true, host_state "EF0EUVhSWlZBSVJbT0MaXkFRRlBCXkFJTV0dQF5fSFM=".toList) ∧
      (process_line "foxchat".toList
        { clients_ := [(1, { new_client 1 with name := "Host".toList }), (2, new_client 2)],
          client := new_client 2, handshake_done := false, trace := [] }
        "PASS foxchat Bob".toList).1.trace =
        [net_action.send 2 "OK\n".toList, net_action.send 1 "* Bob joined *\n".toList] ∧
      join_recv_loop true { buffer_ := [] } [recv_result.data "* Bob joined *\n".toList] =
        [{ from_ := "room".toList, text := "* Bob joined *".toList }] ∧
      (chat_room.receive
        { display_name := "Host".toList,
          room_state_ := host_state "EF0EUVhSWlZBSVJbT0MaXkFRRlBCXkFJTV0dQF5fSFM=".toList,
          last_error_ := [], text_chat_ := none, transport_ := none }
        { buffer_ := [] }
        [recv_result.data "* Bob joined *\n".toList]).room_state_.users.length = 1 := by
  decide

/-! ## Host detection after a failed start -/

theorem parse_join_key_nonempty (key password : List Char) (eps : List endpoint)
    (h : parse_join_key key password = .ok (some eps)) : eps ≠ [] := by
  unfold parse_join_key at h
  split at h
  · cases h
  · simp only [Except.ok.injEq] at h
    unfold parse_payload at h
    split at h
    · cases h
    · split at h
      · cases h
      · rename_i hne
        simp only [Option.some.injEq] at h
        subst h
        exact hne

theorem make_join_key_returns (pub lan password : List Char) (port : Nat)
    (hpw : password ≠ []) : ∃ code, make_join_key pub lan port password = .ok code := by
  obtain ⟨xored, hx⟩ := xor_password_returns password hpw
    ((join_payload pub lan port).map Char.toNat) 0
  exact ⟨base64.encode xored, by simp only [make_join_key, hx]⟩

/-- Claim C27: what the code does after a `create_room` call whose server did not
start, on an adapter that holds no joinable receive thread (a new or a
disconnected one).  The call returns false and leaves `server_` set, so a later
`join_room` with a code that decodes to `eps` takes the adapter for the host: the
only endpoint it attempts is the loopback address with the port of the first
decoded endpoint, none of the decoded endpoints. -/
theorem host_flag_after_failed_start (t : winsock_transport) (env : create_env)
    (jenv : join_env) (code : List Char) (eps : List endpoint)
    (hpw : t.options_.room_password ≠ [])
    (hthread : t.recv_thread_ = false)
    (hstart : env.start ≠ start_outcome.listening)
    (hcode : parse_join_key code t.options_.room_password = .ok (some eps)) :
    ∃ r, t.create_room env = .ok r ∧ r.returned = false ∧ r.impl.server_.isSome = true ∧
      ∃ jr, r.impl.join_room jenv code = .ok jr ∧
        jr.attempted = (try_endpoints jenv.outcome 0
          [("127.0.0.1".toList, (eps.headD ([], 0)).2)]).attempted ∧
        jr.attempted <+: [("127.0.0.1".toList, (eps.headD ([], 0)).2)] := by
  obtain ⟨key, hkey⟩ := make_join_key_returns env.advertised_ip env.local_ip
    t.options_.room_password t.options_.host_port hpw
  have hfail := server_start_failed env.start
    { password_ := t.options_.room_password, join_key_ := key,
      port_ := t.options_.host_port, running_ := false } hstart
  have hcreate : t.create_room env = .ok
      { returned := false,
        events := ({ t with server_ := some (server.start env.start
            { password_ := t.options_.room_password, join_key_ := key,
              port_ := t.options_.host_port, running_ := false }).2 } : winsock_transport).notify
          (listener_event.on_transport_error "Failed to start host server.".toList),
        attempted := [],
        impl := { t with server_ := some (server.start env.start
            { password_ := t.options_.room_password, join_key_ := key,
              port_ := t.options_.host_port, running_ := false }).2 } } := by
    simp only [winsock_transport.create_room, hkey, hfail, if_true]
  refine ⟨_, hcreate, rfl, rfl, ?_⟩
  have hne := parse_join_key_nonempty code _ eps hcode
  obtain ⟨front, rest, rfl⟩ : ∃ front rest, eps = front :: rest := by
    cases eps with
    | nil => exact absurd rfl hne
    | cons a b => exact ⟨a, b, rfl⟩
  have hcand : (join_candidates true (front :: rest)).getD [] =
      [("127.0.0.1".toList, front.2)] := rfl
  have hord := try_endpoints_in_order jenv.outcome [("127.0.0.1".toList, front.2)] 0
  simp only [List.headD_cons]
  unfold winsock_transport.join_room
  simp only [hcode, Option.isSome_some, hcand]
  split
  · exact ⟨_, rfl, rfl, hord⟩
  · exact ⟨_, rfl, rfl, hord⟩
  · split
    · exact ⟨_, rfl, rfl, hord⟩
    · split
      · exact ⟨_, rfl, rfl, hord⟩
      · split
        · exact ⟨_, rfl, rfl, hord⟩
        · simp only [hthread, Bool.false_eq_true, if_false]
          exact ⟨_, rfl, rfl, hord⟩

set_option maxRecDepth 20000 in
theorem host_flag_after_failed_start_witness :
    ∃ r, winsock_transport.create_room
        { advertised_ip := "203.0.113.7".toList, local_ip := "192.168.1.5".toList,
          start := start_outcome.bind_failed,
          join := { outcome := fun _ => connect_outcome.connected, wsa_error := fun _ => 0,
                    send_key := true, send_handshake := true,
                    response := recv_result.data "OK\n".toList } }
        { options_ := { display_name := "LocalUser".toList, room_password := "foxchat".toList,
                        host_port := 48000 },
          listener_ := true, wsa_ok_ := true, server_ := none, recv_running_ := false, recv_thread_ := false,
          voice_port_ := 0 } = .ok r ∧
      r.returned = false ∧ r.impl.server_.isSome = true ∧
      ∃ jr, r.impl.join_room
          { outcome := fun _ => connect_outcome.connect_failed, wsa_error := fun _ => 10061,
            send_key := true, send_handshake := true,
            response := recv_result.closed }
          "EF0EUlFZWlNeVlJYUVpfE0lTRlFaVkFKH1xZRFZf".toList = .ok jr ∧
        jr.attempted = (try_endpoints (fun _ => connect_outcome.connect_failed) 0
          [("127.0.0.1".toList, 48000)]).attempted ∧
        jr.attempted <+: [("127.0.0.1".toList, 48000)] :=
  host_flag_after_failed_start
    { options_ := { display_name := "LocalUser".toList, room_password := "foxchat".toList,
                    host_port := 48000 },
      listener_ := true, wsa_ok_ := true, server_ := none, recv_running_ := false, recv_thread_ := false,
      voice_port_ := 0 }
    { advertised_ip := "203.0.113.7".toList, local_ip := "192.168.1.5".toList,
      start := start_outcome.bind_failed,
      join := { outcome := fun _ => connect_outcome.connected, wsa_error := fun _ => 0,
                send_key := true, send_handshake := true,
                response := recv_result.data "OK\n".toList } }
    { outcome := fun _ => connect_outcome.connect_failed, wsa_error := fun _ => 10061,
      send_key := true, send_handshake := true, response := recv_result.closed }
    "EF0EUlFZWlNeVlJYUVpfE0lTRlFaVkFKH1xZRFZf".toList
    [("198.51.100.9".toList, 48000), ("10.0.0.2".toList, 48000)]
    (by decide) rfl (by decide) (by decide)

/-! ## Failed requests and the room state -/

/-- Claim C23, as amended: with the chat window as listener of its adapter, a failed
`request_join_room` or `request_create_room` leaves the room state as it was; a
failed `request_connect` delivers the error "WSAStartup failed." and leaves the
room state as it was except for the transport status `connecting`; a failed join
makes no listener call other than the error event, and makes one unless a
`socket` or `send_all` call failed; a failed create does so when the server did
not start. -/
theorem failed_request_state (c : chat_room) (t : winsock_transport)
    (ht : c.transport_ = some t) (hl : t.listener_ = true) :
    (c.request_connect.1 = false →
        c.request_connect.2.room_state_ =
          { c.room_state_ with transport := transport_state.connecting } ∧
        c.request_connect.2.last_error_ = "WSAStartup failed.".toList) ∧
      (∀ (env : join_env) (code : List Char) (c1 : chat_room),
        c.request_join_room env code = .ok (false, c1) → c1.room_state_ = c.room_state_) ∧
      (∀ (env : create_env) (c1 : chat_room),
        c.request_create_room env = .ok (false, c1) → c1.room_state_ = c.room_state_) ∧
      (∀ (env : join_env) (code : List Char) (r : call_result),
        (t.set_display_name c.display_name).join_room env code = .ok r → r.returned = false →
        (∀ ev ∈ r.events, ∃ e, ev = listener_event.on_transport_error e) ∧
        (r.events = [] →
          ∃ eps, parse_join_key code t.options_.room_password = .ok (some eps) ∧
            ((try_endpoints env.outcome 0
                ((join_candidates t.server_.isSome eps).getD [])).status =
                  connect_status.no_socket ∨
              env.send_key = false ∨ env.send_handshake = false))) ∧
      (∀ (env : create_env) (r : call_result),
        (t.set_display_name c.display_name).create_room env = .ok r → r.returned = false →
        (∀ ev ∈ r.events, ∃ e, ev = listener_event.on_transport_error e) ∧
        (r.events = [] → env.start = start_outcome.listening)) := by
  refine ⟨?_, ?_, ?_, ?_, ?_⟩
  · intro hfail
    unfold chat_room.request_connect at hfail ⊢
    rw [ht] at hfail ⊢
    simp only at hfail ⊢
    cases hw : t.wsa_ok_ with
    | true =>
      simp [winsock_transport.connect, winsock_transport.set_display_name, hw] at hfail
    | false =>
      simp [winsock_transport.connect, winsock_transport.set_display_name, hw,
        winsock_transport.notify, hl, chat_room.deliver, chat_room.handle]
  · intro env code c1 h
    unfold chat_room.request_join_room at h
    rw [ht] at h
    simp only at h
    split at h
    · cases h
    · rename_i res hres
      simp only [Except.ok.injEq, Prod.mk.injEq] at h
      obtain ⟨hret, hc1⟩ := h
      rw [← hc1]
      exact deliver_errors res.events (join_room_failure env _ code res hres hret).1 c
  · intro env c1 h
    unfold chat_room.request_create_room at h
    rw [ht] at h
    simp only at h
    split at h
    · cases h
    · rename_i res hres
      simp only [Except.ok.injEq, Prod.mk.injEq] at h
      obtain ⟨hret, hc1⟩ := h
      rw [← hc1]
      exact deliver_errors res.events (create_room_failure env _ res hres hret).1 c
  · intro env code r h hr
    have := join_room_failure env (t.set_display_name c.display_name) code r h hr
    exact ⟨this.1, fun he => this.2 hl he⟩
  · intro env r h hr
    have := create_room_failure env (t.set_display_name c.display_name) r h hr
    exact ⟨this.1, fun he => this.2 hl he⟩

theorem failed_request_state_witness :
    (chat_room.request_connect
        { display_name := "Host".toList, room_state_ := room_state.empty, last_error_ := [],
          text_chat_ := none,
          transport_ := some
            { options_ := { display_name := "LocalUser".toList,
                            room_password := "foxchat".toList, host_port := 48000 },
              listener_ := true, wsa_ok_ := false, server_ := none, recv_running_ := false, recv_thread_ := false,
              voice_port_ := 0 } }).2.last_error_ = "WSAStartup failed.".toList :=
  ((failed_request_state
    { display_name := "Host".toList, room_state_ := room_state.empty, last_error_ := [],
      text_chat_ := none,
      transport_ := some
        { options_ := { display_name := "LocalUser".toList,
                        room_password := "foxchat".toList, host_port := 48000 },
          listener_ := true, wsa_ok_ := false, server_ := none, recv_running_ := false, recv_thread_ := false,
          voice_port_ := 0 } }
    { options_ := { display_name := "LocalUser".toList,
                    room_password := "foxchat".toList, host_port := 48000 },
      listener_ := true, wsa_ok_ := false, server_ := none, recv_running_ := false, recv_thread_ := false,
      voice_port_ := 0 }
    rfl rfl).1 (by decide)).2

set_option maxRecDepth 20000 in
/-- Two failures that break the claim as stated: a failed `request_connect` leaves
the transport status `connecting`, not `offline` as before; and a `join_room`
whose `socket` call fails returns false without any listener call. -/
theorem failed_request_counterexample :
    chat_room.request_connect
        { display_name := "Host".toList, room_state_ := room_state.empty, last_error_ := [],
          text_chat_ := none,
          transport_ := some
            { options_ := { display_name := "LocalUser".toList,
                            room_password := "foxchat".toList, host_port := 48000 },
              listener_ := true, wsa_ok_ := false, server_ := none, recv_running_ := false, recv_thread_ := false,
              voice_port_ := 0 } } =
        (false,
          { display_name := "Host".toList,
            room_state_ := { room_state.empty with transport := transport_state.connecting },
            last_error_ := "WSAStartup failed.".toList, text_chat_ := none,
            transport_ := some
              { options_ := { display_name := "Host".toList,
                              room_password := "foxchat".toList, host_port := 48000 },
                listener_ := true, wsa_ok_ := false, server_ := none, recv_running_ := false, recv_thread_ := false,
                voice_port_ := 0 } }) ∧
      room_state.empty.transport = transport_state.offline ∧
      winsock_transport.join_room
          { outcome := fun _ => connect_outcome.socket_failed, wsa_error := fun _ => 0,
            send_key := true, send_handshake := true, response := recv_result.closed }
          { options_ := { display_name := "LocalUser".toList,
                          room_password := "foxchat".toList, host_port := 48000 },
            listener_ := true, wsa_ok_ := true, server_ := none, recv_running_ := false, recv_thread_ := false,
            voice_port_ := 0 }
          "EF0EUlFZWlNeVlJYUVpfE0lTRlFaVkFKH1xZRFZf".toList =
        .ok { returned := false, events := [], attempted := [],
              impl := { options_ := { display_name := "LocalUser".toList,
                                      room_password := "foxchat".toList, host_port := 48000 },
                        listener_ := true, wsa_ok_ := true, server_ := none,
                        recv_running_ := false, recv_thread_ := false, voice_port_ := 0 } } := by
  decide

end fox
